import Mathlib

/-!
# Result materialisation of `session_query.go`

A shallow embedding of the query layer of xorm's `session_query.go`:
the scalar converter `value2String`, the row decoders (`row2mapStr`,
`row2sliceStr`, `row2mapInterface`, `row2mapStr2`), the result assemblers
(`rows2Strings`, `rows2SliceString`, `rows2Interfaces`, `rows2Strings2`), the
tabular export `rows2csv`, the statement generator `genQuerySQL` and the entry points
(`QueryString`, `QuerySliceString`, `QueryInterface`, `QueryString2`,
`ExportQueryString`).

Conventions of the embedding:

* a Go `string` is the list of its bytes, a byte is a natural number below 256;
* a Go slice is `Option (List α)`: `none` is the nil slice;
* a Go function returning `(v, err)` returns the pair, `err = none` is the nil error;
* a run either returns its results or panics (`Outcome`);
* the cursor calls a function makes are returned next to its outcome, in call order,
  and so are the calls `rows2csv` makes on its sink.
-/

namespace Xorm

/-! ## Strings, slices, maps -/

/-- Go `string`: a sequence of bytes. -/
abbrev GoString := List Nat

/-- Go slice: `none` is `nil`, `some l` a non-nil slice holding `l`. -/
abbrev Slice (α : Type) := Option (List α)

namespace Slice

/-- Elements of a slice, the nil slice has none. -/
def toList {α : Type} : Slice α → List α
  | none => []
  | some l => l

/-- Go `len(s)`. -/
def len {α : Type} (s : Slice α) : Nat := (toList s).length

/-- Go `append(s, xs...)`: appending nothing to the nil slice leaves it nil. -/
def append {α : Type} : Slice α → List α → Slice α
  | none, [] => none
  | none, x :: xs => some (x :: xs)
  | some l, xs => some (l ++ xs)

end Slice

/-- Go `map[string]β` as an association list with at most one entry per key. -/
abbrev GoMap (β : Type) := List (GoString × β)

namespace GoMap

/-- Go `m[k] = v`: overwrite the entry of `k` or add one. -/
def set {β : Type} : GoMap β → GoString → β → GoMap β
  | [], k, v => [(k, v)]
  | (k', v') :: rest, k, v => if k' = k then (k, v) :: rest else (k', v') :: set rest k v

/-- Go `v, ok := m[k]`. -/
def get? {β : Type} : GoMap β → GoString → Option β
  | [], _ => none
  | (k', v') :: rest, k => if k' = k then some v' else get? rest k

/-- Keys present in the map. -/
def keys {β : Type} (m : GoMap β) : List GoString := m.map Prod.fst

end GoMap

/-! ## Errors and outcomes -/

/-- Error values the query layer produces or passes on. -/
inductive GoError where
  /-- `fmt.Errorf("Unsupported struct type %v", vv.Type().Name())`. -/
  | unsupportedType (typeName : GoString)
  /-- The selection error of `row2mapStr2`, `rows2Strings2` and `rows2csv`,
  formatted from `seq` and `len(fields)-1`. -/
  | indexOutOfRange (seq : Int) (maxIndex : Int)
  /-- `ErrTableNotFound`. -/
  | tableNotFound
  /-- An error value handed over by a collaborator (cursor, sink, builder). -/
  | external (code : Nat)
  deriving DecidableEq, Repr

/-- Result of running a Go function: it returns or it panics. -/
inductive Outcome (α : Type) where
  | returns (a : α)
  | panics
  deriving DecidableEq, Repr

/-! ## Dynamic values -/

/-- Signed integer kinds of `reflect`. -/
inductive IntKind where
  | Int | Int8 | Int16 | Int32 | Int64
  deriving DecidableEq, Repr

/-- Unsigned integer kinds handled by `value2String` (`Uintptr` is not one of them). -/
inductive UintKind where
  | Uint | Uint8 | Uint16 | Uint32 | Uint64
  deriving DecidableEq, Repr

/-- Width in bits of a signed kind; `int` is taken at 64 bits. -/
def IntKind.bitSize : IntKind → Nat
  | .Int => 64
  | .Int8 => 8
  | .Int16 => 16
  | .Int32 => 32
  | .Int64 => 64

/-- Width in bits of an unsigned kind; `uint` is taken at 64 bits. -/
def UintKind.bitSize : UintKind → Nat
  | .Uint => 64
  | .Uint8 => 8
  | .Uint16 => 16
  | .Uint32 => 32
  | .Uint64 => 64

/-- Kinds of `reflect.Kind` a non-nil interface value can have. -/
inductive Kind where
  | Bool | Int | Int8 | Int16 | Int32 | Int64
  | Uint | Uint8 | Uint16 | Uint32 | Uint64 | Uintptr
  | Float32 | Float64 | Complex64 | Complex128
  | Array | Chan | Func | Map | Ptr | Slice | String | Struct | UnsafePointer
  deriving DecidableEq, Repr

/-- Kinds that reach the `default` branch of `value2String` directly. -/
inductive OtherKind where
  | Map | Ptr | Uintptr | UnsafePointer | Chan | Func
  deriving DecidableEq, Repr

/-- A `time.Time` as far as formatting needs it. -/
structure Time where
  unixNano : Int
  offsetSec : Int
  deriving DecidableEq, Repr

/-- A non-nil dynamic value held in an `interface{}`, by the shape of its dynamic type.
`typeName` is `vv.Type().Name()`, empty for an unnamed type. -/
inductive GoValue where
  /-- Kinds `Int`, `Int8`, `Int16`, `Int32`, `Int64`; `v` is `vv.Int()`. -/
  | int (k : IntKind) (typeName : GoString) (v : Int)
  /-- Kinds `Uint`, `Uint8`, `Uint16`, `Uint32`, `Uint64`; `v` is `vv.Uint()`. -/
  | uint (k : UintKind) (typeName : GoString) (v : Nat)
  /-- Kinds `Float32` (`wide = false`) and `Float64`; `bits` encodes `vv.Float()`. -/
  | float (wide : Bool) (typeName : GoString) (bits : Nat)
  /-- Kind `String`. -/
  | string (typeName : GoString) (s : GoString)
  /-- Kind `Bool`. -/
  | bool (typeName : GoString) (b : Bool)
  /-- Kinds `Complex64` (`wide = false`) and `Complex128`. -/
  | complex (wide : Bool) (typeName : GoString) (re im : Nat)
  /-- Dynamic type exactly `[]byte` (that is `[]uint8`). -/
  | bytes (data : List Nat)
  /-- Any other array (`isArray = true`) or slice type, by the kind of its element:
  `[4]byte`, `sql.RawBytes`, `[]int`, `[][]byte`, ... -/
  | seq (isArray : Bool) (typeName : GoString) (elem : Kind)
  /-- Kind `Struct`; `asTime` is `some t` when the type converts to `time.Time`. -/
  | struct (typeName : GoString) (asTime : Option Time)
  /-- Kinds `Map`, `Ptr`, `Uintptr`, `UnsafePointer`, `Chan`, `Func`. -/
  | other (k : OtherKind) (typeName : GoString)
  deriving DecidableEq, Repr

/-- Value of `aa.Kind()`. -/
def GoValue.kind : GoValue → Kind
  | .int .Int _ _ => .Int
  | .int .Int8 _ _ => .Int8
  | .int .Int16 _ _ => .Int16
  | .int .Int32 _ _ => .Int32
  | .int .Int64 _ _ => .Int64
  | .uint .Uint _ _ => .Uint
  | .uint .Uint8 _ _ => .Uint8
  | .uint .Uint16 _ _ => .Uint16
  | .uint .Uint32 _ _ => .Uint32
  | .uint .Uint64 _ _ => .Uint64
  | .float false _ _ => .Float32
  | .float true _ _ => .Float64
  | .string _ _ => .String
  | .bool _ _ => .Bool
  | .complex false _ _ _ => .Complex64
  | .complex true _ _ _ => .Complex128
  | .bytes _ => .Slice
  | .seq true _ _ => .Array
  | .seq false _ _ => .Slice
  | .struct _ _ => .Struct
  | .other .Map _ => .Map
  | .other .Ptr _ => .Ptr
  | .other .Uintptr _ => .Uintptr
  | .other .UnsafePointer _ => .UnsafePointer
  | .other .Chan _ => .Chan
  | .other .Func _ => .Func

/-- A scanned cell: `none` is the nil interface (SQL NULL). -/
abbrev Cell := Option GoValue

/-! ## Formatting and parsing of the Go standard library -/

/-- Formatters of the standard library that `value2String` calls and whose text is
not fixed here: `strconv.FormatFloat(f, 'f', -1, 64)`,
`time.Time.Format(time.RFC3339Nano)` and `fmt.Sprintf("%v", c)` on a complex. -/
structure StdFormat where
  FormatFloat : Nat → GoString
  TimeFormat : Time → GoString
  SprintComplex : Nat → Nat → GoString

/-- The digit loop of `strconv.formatBits` in base 10: digits are produced from the
least significant one and written in front of what is already there. -/
def formatBits : Nat → Nat → GoString → GoString
  | 0, _, acc => acc
  | fuel + 1, u, acc =>
    if u < 10 then (48 + u) :: acc
    else formatBits fuel (u / 10) ((48 + u % 10) :: acc)

/-- `strconv.FormatUint(u, 10)` for a `uint64`, which has at most 20 digits. -/
def FormatUint (u : Nat) : GoString := formatBits 20 u []

/-- `strconv.FormatInt(i, 10)` for an `int64`: the digits of the magnitude after a
`-` (byte 45) when negative. -/
def FormatInt (i : Int) : GoString :=
  if i < 0 then 45 :: formatBits 20 (-i).toNat [] else formatBits 20 i.toNat []

/-- `strconv.FormatBool`: `"true"` or `"false"`. -/
def FormatBool (b : Bool) : GoString :=
  if b then [116, 114, 117, 101] else [102, 97, 108, 115, 101]

/-- Digit loop of `strconv.ParseUint` in base 10 with its range check. -/
def parseDigits (bitSize : Nat) : GoString → Nat → Option Nat
  | [], n => some n
  | c :: cs, n =>
    if 48 ≤ c ∧ c ≤ 57 then
      if n * 10 + (c - 48) < 2 ^ bitSize then parseDigits bitSize cs (n * 10 + (c - 48))
      else none
    else none

/-- `strconv.ParseUint(s, 10, bitSize)`, `none` for a syntax or range error. -/
def ParseUint (s : GoString) (bitSize : Nat) : Option Nat :=
  match s with
  | [] => none
  | _ :: _ => parseDigits bitSize s 0

/-- `strconv.ParseInt(s, 10, bitSize)`, `none` for a syntax or range error. -/
def ParseInt (s : GoString) (bitSize : Nat) : Option Int :=
  match s with
  | [] => none
  | c :: cs =>
    let neg := decide (c = 45)
    let digits := if c = 43 ∨ c = 45 then cs else c :: cs
    match ParseUint digits bitSize with
    | none => none
    | some un =>
      if ¬ neg ∧ 2 ^ (bitSize - 1) ≤ un then none
      else if neg ∧ 2 ^ (bitSize - 1) < un then none
      else some (if neg then -(un : Int) else (un : Int))

/-- `strconv.ParseBool`, `none` for a syntax error. -/
def ParseBool (s : GoString) : Option Bool :=
  if s = [49] ∨ s = [116] ∨ s = [84] ∨ s = [84, 82, 85, 69] ∨ s = [116, 114, 117, 101]
      ∨ s = [84, 114, 117, 101] then some true
  else if s = [48] ∨ s = [102] ∨ s = [70] ∨ s = [70, 65, 76, 83, 69]
      ∨ s = [102, 97, 108, 115, 101] ∨ s = [70, 97, 108, 115, 101] then some false
  else none

/-! ## Scalar converter -/

/-- `value2String(rawValue)` for a non-nil cell value.  The assertion
`rawValue.Interface().([]byte)` of the `Array, Slice` case panics unless the dynamic
type is exactly `[]byte`. -/
def value2String (F : StdFormat) (rawValue : GoValue) : Outcome (GoString × Option GoError) :=
  match rawValue with
  | .int _ _ v => .returns (FormatInt v, none)
  | .uint _ _ v => .returns (FormatUint v, none)
  | .float _ _ f => .returns (F.FormatFloat f, none)
  | .string _ s => .returns (s, none)
  | .bytes data =>
    let str : GoString := data
    .returns (if str = [0] then [48] else str, none)
  | .seq _ typeName elem =>
    if elem = Kind.Uint8 then .panics
    else .returns ([], some (.unsupportedType typeName))
  | .struct typeName asTime =>
    match asTime with
    | some t => .returns (F.TimeFormat t, none)
    | none => .returns ([], some (.unsupportedType typeName))
  | .bool _ b => .returns (FormatBool b, none)
  | .complex _ _ re im => .returns (F.SprintComplex re im, none)
  | .other _ typeName => .returns ([], some (.unsupportedType typeName))

/-! ## Cursor -/

/-- One row of a result set as the cursor delivers it: `Scan` fails with `scanErr`,
or stores `cells[i]` through the `i`-th destination. -/
structure RowData where
  scanErr : Option GoError
  cells : List Cell
  deriving DecidableEq, Repr

/-- Calls made on a cursor (`*core.Rows`). -/
inductive Call where
  | Columns
  | Next
  | Scan (slots : Nat)
  | Close
  deriving DecidableEq, Repr

/-- A forward-only cursor: what `Columns()` returns and the rows `Next()` still has to
reach, in traversal order. -/
structure Rows where
  columns : Slice GoString
  columnsErr : Option GoError
  pending : List RowData
  deriving DecidableEq, Repr

/-- `rows.Scan(scanResultContainers...)` on a cursor positioned on `cur`, with `n`
destinations that each point to a nil `interface{}`: the contents of the
destinations afterwards and the error.  A destination the row has no cell for keeps
its nil. -/
def Scan (cur : RowData) (n : Nat) : List Cell × Option GoError :=
  match cur.scanErr with
  | some err => (List.replicate n none, some err)
  | none => ((List.range n).map (fun i => cur.cells.getD i none), none)

/-- A `map[string]string` value, `none` is the nil map. -/
abbrev MapStr := Option (GoMap GoString)

/-- A `map[string]interface{}` value, `none` is the nil map. -/
abbrev MapIface := Option (GoMap Cell)

/-! ## Row decoders -/

/-- Loop `for ii, key := range fields` of `row2mapStr`, from index `ii` on. -/
def row2mapStrLoop (F : StdFormat) (slots : List Cell) :
    List GoString → Nat → GoMap GoString → Outcome (MapStr × Option GoError)
  | [], _, result => .returns (some result, none)
  | key :: rest, ii, result =>
    match slots[ii]? with
    | none => .panics
    | some none => row2mapStrLoop F slots rest (ii + 1) (result.set key [])
    | some (some rawValue) =>
      match value2String F rawValue with
      | .panics => .panics
      | .returns (data, none) => row2mapStrLoop F slots rest (ii + 1) (result.set key data)
      | .returns (_, some err) => .returns (none, some err)

/-- `row2mapStr(rows, fields)` on a cursor positioned on `cur`. -/
def row2mapStr (F : StdFormat) (cur : RowData) (fields : Slice GoString) :
    Outcome (MapStr × Option GoError) × List Call :=
  let result : GoMap GoString := []
  match Scan cur (Slice.len fields) with
  | (_, some err) => (.returns (none, some err), [Call.Scan (Slice.len fields)])
  | (slots, none) =>
    (row2mapStrLoop F slots (Slice.toList fields) 0 result, [Call.Scan (Slice.len fields)])

/-- Loop `for i := 0; i < len(fields); i++` of `row2sliceStr`: `left` iterations
remain, the next index is `i`. -/
def row2sliceStrLoop (F : StdFormat) (slots : List Cell) :
    Nat → Nat → List GoString → Outcome (Slice GoString × Option GoError)
  | 0, _, result => .returns (some result, none)
  | left + 1, i, result =>
    match slots[i]? with
    | none => .panics
    | some none => row2sliceStrLoop F slots left (i + 1) (result ++ [[]])
    | some (some rawValue) =>
      match value2String F rawValue with
      | .panics => .panics
      | .returns (data, none) => row2sliceStrLoop F slots left (i + 1) (result ++ [data])
      | .returns (_, some err) => .returns (none, some err)

/-- `row2sliceStr(rows, fields)` on a cursor positioned on `cur`. -/
def row2sliceStr (F : StdFormat) (cur : RowData) (fields : Slice GoString) :
    Outcome (Slice GoString × Option GoError) × List Call :=
  let result : List GoString := []
  match Scan cur (Slice.len fields) with
  | (_, some err) => (.returns (none, some err), [Call.Scan (Slice.len fields)])
  | (slots, none) =>
    (row2sliceStrLoop F slots (Slice.len fields) 0 result, [Call.Scan (Slice.len fields)])

/-- Loop `for ii, key := range fields` of `row2mapInterface`. -/
def row2mapInterfaceLoop (slots : List Cell) :
    List GoString → Nat → GoMap Cell → Outcome (MapIface × Option GoError)
  | [], _, resultsMap => .returns (some resultsMap, none)
  | key :: rest, ii, resultsMap =>
    match slots[ii]? with
    | none => .panics
    | some cell => row2mapInterfaceLoop slots rest (ii + 1) (resultsMap.set key cell)

/-- `row2mapInterface(rows, fields)` on a cursor positioned on `cur`. -/
def row2mapInterface (cur : RowData) (fields : Slice GoString) :
    Outcome (MapIface × Option GoError) × List Call :=
  let resultsMap : GoMap Cell := []
  match Scan cur (Slice.len fields) with
  | (_, some err) => (.returns (none, some err), [Call.Scan (Slice.len fields)])
  | (slots, none) =>
    (row2mapInterfaceLoop slots (Slice.toList fields) 0 resultsMap,
      [Call.Scan (Slice.len fields)])

/-- Loop `for _, seq := range orderedSeqs` of `row2mapStr2`. -/
def row2mapStr2SeqLoop (F : StdFormat) (fields : List GoString) (slots : List Cell) :
    List Int → GoMap GoString → Outcome (MapStr × Option GoError)
  | [], result => .returns (some result, none)
  | seq :: rest, result =>
    if seq < 0 ∨ seq ≥ (fields.length : Int) then
      .returns (none, some (.indexOutOfRange seq ((fields.length : Int) - 1)))
    else
      match fields[seq.toNat]? with
      | none => .panics
      | some key =>
        match slots[seq.toNat]? with
        | none => .panics
        | some none => row2mapStr2SeqLoop F fields slots rest (result.set key [])
        | some (some rawValue) =>
          match value2String F rawValue with
          | .panics => .panics
          | .returns (data, none) =>
            row2mapStr2SeqLoop F fields slots rest (result.set key data)
          | .returns (_, some err) => .returns (none, some err)

/-- Loop `for ii, key := range fields` of the `else` branch of `row2mapStr2`. -/
def row2mapStr2AllLoop (F : StdFormat) (slots : List Cell) :
    List GoString → Nat → GoMap GoString → Outcome (MapStr × Option GoError)
  | [], _, result => .returns (some result, none)
  | key :: rest, ii, result =>
    match slots[ii]? with
    | none => .panics
    | some none => row2mapStr2AllLoop F slots rest (ii + 1) (result.set key [])
    | some (some rawValue) =>
      match value2String F rawValue with
      | .panics => .panics
      | .returns (data, none) => row2mapStr2AllLoop F slots rest (ii + 1) (result.set key data)
      | .returns (_, some err) => .returns (none, some err)

/-- `row2mapStr2(rows, fields, orderedSeqs)` on a cursor positioned on `cur`. -/
def row2mapStr2 (F : StdFormat) (cur : RowData) (fields : Slice GoString)
    (orderedSeqs : Slice Int) : Outcome (MapStr × Option GoError) × List Call :=
  let result : GoMap GoString := []
  match Scan cur (Slice.len fields) with
  | (_, some err) => (.returns (none, some err), [Call.Scan (Slice.len fields)])
  | (slots, none) =>
    if orderedSeqs ≠ none ∧ Slice.len orderedSeqs > 0 then
      (row2mapStr2SeqLoop F (Slice.toList fields) slots (Slice.toList orderedSeqs) result,
        [Call.Scan (Slice.len fields)])
    else
      (row2mapStr2AllLoop F slots (Slice.toList fields) 0 result,
        [Call.Scan (Slice.len fields)])

/-! ## Result assemblers -/

/-- Loop `for rows.Next()` of `rows2Strings` over the rows still to come. -/
def rows2StringsLoop (F : StdFormat) (fields : Slice GoString) :
    List RowData → Slice MapStr → Outcome (Slice MapStr × Option GoError) × List Call
  | [], resultsSlice => (.returns (resultsSlice, none), [Call.Next])
  | cur :: rest, resultsSlice =>
    match row2mapStr F cur fields with
    | (.panics, cs) => (.panics, Call.Next :: cs)
    | (.returns (_, some err), cs) => (.returns (none, some err), Call.Next :: cs)
    | (.returns (result, none), cs) =>
      match rows2StringsLoop F fields rest (Slice.append resultsSlice [result]) with
      | (o, cs') => (o, Call.Next :: (cs ++ cs'))

/-- `rows2Strings(rows)`. -/
def rows2Strings (F : StdFormat) (rows : Rows) :
    Outcome (Slice MapStr × Option GoError) × List Call :=
  match rows.columnsErr with
  | some err => (.returns (none, some err), [Call.Columns])
  | none =>
    match rows2StringsLoop F rows.columns rows.pending none with
    | (o, cs) => (o, Call.Columns :: cs)

/-- Loop `for rows.Next()` of `rows2SliceString`. -/
def rows2SliceStringLoop (F : StdFormat) (fields : Slice GoString) :
    List RowData → Slice (Slice GoString) →
      Outcome (Slice (Slice GoString) × Option GoError) × List Call
  | [], resultsSlice => (.returns (resultsSlice, none), [Call.Next])
  | cur :: rest, resultsSlice =>
    match row2sliceStr F cur fields with
    | (.panics, cs) => (.panics, Call.Next :: cs)
    | (.returns (_, some err), cs) => (.returns (none, some err), Call.Next :: cs)
    | (.returns (record, none), cs) =>
      match rows2SliceStringLoop F fields rest (Slice.append resultsSlice [record]) with
      | (o, cs') => (o, Call.Next :: (cs ++ cs'))

/-- `rows2SliceString(rows)`. -/
def rows2SliceString (F : StdFormat) (rows : Rows) :
    Outcome (Slice (Slice GoString) × Option GoError) × List Call :=
  match rows.columnsErr with
  | some err => (.returns (none, some err), [Call.Columns])
  | none =>
    match rows2SliceStringLoop F rows.columns rows.pending none with
    | (o, cs) => (o, Call.Columns :: cs)

/-- Loop `for rows.Next()` of `rows2Interfaces`. -/
def rows2InterfacesLoop (fields : Slice GoString) :
    List RowData → Slice MapIface → Outcome (Slice MapIface × Option GoError) × List Call
  | [], resultsSlice => (.returns (resultsSlice, none), [Call.Next])
  | cur :: rest, resultsSlice =>
    match row2mapInterface cur fields with
    | (.panics, cs) => (.panics, Call.Next :: cs)
    | (.returns (_, some err), cs) => (.returns (none, some err), Call.Next :: cs)
    | (.returns (result, none), cs) =>
      match rows2InterfacesLoop fields rest (Slice.append resultsSlice [result]) with
      | (o, cs') => (o, Call.Next :: (cs ++ cs'))

/-- `rows2Interfaces(rows)`. -/
def rows2Interfaces (rows : Rows) : Outcome (Slice MapIface × Option GoError) × List Call :=
  match rows.columnsErr with
  | some err => (.returns (none, some err), [Call.Columns])
  | none =>
    match rows2InterfacesLoop rows.columns rows.pending none with
    | (o, cs) => (o, Call.Columns :: cs)

/-- Loop `for _, seq := range orderedSeqs` of `rows2Strings2` (and of `rows2csv`) that
checks the selection and collects `fields2`. -/
def selectFieldsLoop (fields : List GoString) :
    List Int → List GoString → Outcome (Slice GoString × Option GoError)
  | [], fields2 => .returns (some fields2, none)
  | seq :: rest, fields2 =>
    if seq < 0 ∨ seq ≥ (fields.length : Int) then
      .returns (none, some (.indexOutOfRange seq ((fields.length : Int) - 1)))
    else
      match fields[seq.toNat]? with
      | none => .panics
      | some name => selectFieldsLoop fields rest (fields2 ++ [name])

/-- Loop `for rows.Next()` of `rows2Strings2`. -/
def rows2Strings2Loop (F : StdFormat) (fields : Slice GoString) (orderedSeqs : Slice Int) :
    List RowData → Slice MapStr → Outcome (Slice MapStr × Option GoError) × List Call
  | [], resultsSlice => (.returns (resultsSlice, none), [Call.Next])
  | cur :: rest, resultsSlice =>
    match row2mapStr2 F cur fields orderedSeqs with
    | (.panics, cs) => (.panics, Call.Next :: cs)
    | (.returns (_, some err), cs) => (.returns (none, some err), Call.Next :: cs)
    | (.returns (result, none), cs) =>
      match rows2Strings2Loop F fields orderedSeqs rest
          (Slice.append resultsSlice [result]) with
      | (o, cs') => (o, Call.Next :: (cs ++ cs'))

/-- `rows2Strings2(rows, orderedSeqs)`: rows, effective columns, error. -/
def rows2Strings2 (F : StdFormat) (rows : Rows) (orderedSeqs : Slice Int) :
    Outcome (Slice MapStr × Slice GoString × Option GoError) × List Call :=
  match rows.columnsErr with
  | some err => (.returns (none, none, some err), [Call.Columns])
  | none =>
    let fields := rows.columns
    let checked : Outcome (Slice GoString × Option GoError) :=
      if orderedSeqs ≠ none ∧ Slice.len orderedSeqs > 0 then
        selectFieldsLoop (Slice.toList fields) (Slice.toList orderedSeqs) []
      else .returns (fields, none)
    match checked with
    | .panics => (.panics, [Call.Columns])
    | .returns (_, some err) => (.returns (none, none, some err), [Call.Columns])
    | .returns (fields2, none) =>
      match rows2Strings2Loop F fields orderedSeqs rows.pending none with
      | (.panics, cs) => (.panics, Call.Columns :: cs)
      | (.returns (_, some err), cs) => (.returns (none, none, some err), Call.Columns :: cs)
      | (.returns (resultsSlice, none), cs) =>
        (.returns (resultsSlice, fields2, none), Call.Columns :: cs)

/-! ## Statement generator -/

/-- A query argument (`interface{}`). -/
abbrev Arg := Cell

/-- The query state `genQuerySQL` reads from `session.statement`.  `cond` names the
condition tree, `env` stands for the state of session, statement and engine that
only the collaborators read. -/
structure Statement where
  RawSQL : GoString
  RawParams : Slice Arg
  ColumnStr : GoString
  selectStr : GoString
  JoinStr : GoString
  GroupByStr : GoString
  joinArgs : Slice Arg
  cond : Nat
  env : Nat
  deriving DecidableEq, Repr

/-- Functions `genQuerySQL` calls and that live outside `session_query.go`:
`convertSQLOrArgs`, `statement.TableName`, `engine.quoteColumns`,
`statement.genColumnStr`, `statement.processIDParam` (it may rewrite the statement),
`builder.ToSQL` and `statement.genSelectSQL`. -/
structure Collab where
  convertSQLOrArgs : List Arg → GoString × Slice Arg × Option GoError
  TableName : Statement → GoString
  quoteColumns : Statement → GoString → GoString
  genColumnStr : Statement → GoString
  processIDParam : Statement → Statement × Option GoError
  ToSQL : Nat → GoString × Slice Arg × Option GoError
  genSelectSQL : Statement → GoString → GoString → Bool → Bool → GoString × Option GoError

/-- Calls `genQuerySQL` makes to its collaborators, with the arguments that matter. -/
inductive StmtCall where
  | convertSQLOrArgs
  | TableName
  | quoteColumns (columns : GoString)
  | genColumnStr
  | processIDParam
  | ToSQL
  | genSelectSQL (columnStr condSQL : GoString) (needLimit needOrderBy : Bool)
  deriving DecidableEq, Repr

/-- The column projection of `genQuerySQL` (from `var columnStr` to the end of that
`if`), with the collaborator calls made for it. -/
def genQuerySQLColumnStr (C : Collab) (st : Statement) : GoString × List StmtCall :=
  let columnStr := st.ColumnStr
  if st.selectStr.length > 0 then (st.selectStr, [])
  else
    let step : GoString × List StmtCall :=
      if st.JoinStr = [] then
        if columnStr = [] then
          if st.GroupByStr ≠ [] then
            (C.quoteColumns st st.GroupByStr, [StmtCall.quoteColumns st.GroupByStr])
          else (C.genColumnStr st, [StmtCall.genColumnStr])
        else (columnStr, [])
      else
        if columnStr = [] then
          if st.GroupByStr ≠ [] then
            (C.quoteColumns st st.GroupByStr, [StmtCall.quoteColumns st.GroupByStr])
          else ([42], [])
        else (columnStr, [])
    (if step.1 = [] then [42] else step.1, step.2)

/-- `session.genQuerySQL(sqlOrArgs...)`: SQL text, arguments, error, and the
collaborator calls in order. -/
def genQuerySQL (C : Collab) (st : Statement) (sqlOrArgs : List Arg) :
    (GoString × Slice Arg × Option GoError) × List StmtCall :=
  if sqlOrArgs.length > 0 then (C.convertSQLOrArgs sqlOrArgs, [StmtCall.convertSQLOrArgs])
  else if st.RawSQL ≠ [] then ((st.RawSQL, st.RawParams, none), [])
  else if (C.TableName st).length ≤ 0 then
    (([], none, some GoError.tableNotFound), [StmtCall.TableName])
  else
    match genQuerySQLColumnStr C st with
    | (columnStr, cs) =>
      match C.processIDParam st with
      | (_, some err) =>
        (([], none, some err), StmtCall.TableName :: (cs ++ [StmtCall.processIDParam]))
      | (st1, none) =>
        match C.ToSQL st1.cond with
        | (_, _, some err) =>
          (([], none, some err),
            StmtCall.TableName :: (cs ++ [StmtCall.processIDParam, StmtCall.ToSQL]))
        | (condSQL, condArgs, none) =>
          let args := Slice.append st1.joinArgs (Slice.toList condArgs)
          match C.genSelectSQL st1 columnStr condSQL true true with
          | (_, some err) =>
            (([], none, some err),
              StmtCall.TableName :: (cs ++ [StmtCall.processIDParam, StmtCall.ToSQL,
                StmtCall.genSelectSQL columnStr condSQL true true]))
          | (sqlStr, none) =>
            let qs := sqlStr.count 63
            let args1 :=
              if Slice.len args * 2 = qs then Slice.append args (Slice.toList args) else args
            ((sqlStr, args1, none),
              StmtCall.TableName :: (cs ++ [StmtCall.processIDParam, StmtCall.ToSQL,
                StmtCall.genSelectSQL columnStr condSQL true true]))

/-! ## Tabular export -/

/-- Calls made on the sink (`*csv.Writer`). -/
inductive SinkCall where
  | Write (record : List GoString)
  | Flush
  deriving DecidableEq, Repr

/-- A sink by what it reports: `writeErrs` holds the results of its successive
`Write` calls (a call past the end of the list succeeds), `flushErr` the failure
`Flush` meets.  `Flush` returns nothing; its failure can only be read through
`w.Error()`. -/
structure Sink where
  writeErrs : List (Option GoError)
  flushErr : Option GoError
  deriving DecidableEq, Repr

/-- `w.Write(record)`: the error returned and the sink afterwards. -/
def Sink.Write (w : Sink) : Option GoError × Sink :=
  (w.writeErrs.headD none, { w with writeErrs := w.writeErrs.tail })

/-- Loop `for _, fn := range fields2 { r = append(r, result[fn]) }` of `rows2csv`;
a key the map does not hold reads as the empty text. -/
def rows2csvRecord (result : MapStr) : List GoString → List GoString → List GoString
  | [], r => r
  | fn :: rest, r =>
    rows2csvRecord result rest
      (r ++ [match result with
        | none => []
        | some m => (GoMap.get? m fn).getD []])

/-- Loop `for rows.Next()` of `rows2csv`: the outcome (`lines` and a nil error when the
loop runs to its end, `-1` and the error on a `return` inside it), the cursor calls
and the sink calls. -/
def rows2csvLoop (F : StdFormat) (fields : Slice GoString) (orderedSeqs : Slice Int)
    (fields2 : Slice GoString) :
    List RowData → Sink → Int → Outcome (Int × Option GoError) × List Call × List SinkCall
  | [], _, lines => (.returns (lines, none), [Call.Next], [])
  | cur :: rest, w, lines =>
    match row2mapStr2 F cur fields orderedSeqs with
    | (.panics, cs) => (.panics, Call.Next :: cs, [])
    | (.returns (_, some err), cs) => (.returns (-1, some err), Call.Next :: cs, [])
    | (.returns (result, none), cs) =>
      let r := rows2csvRecord result (Slice.toList fields2) []
      match w.Write with
      | (some err, _) => (.returns (-1, some err), Call.Next :: cs, [SinkCall.Write r])
      | (none, w1) =>
        match rows2csvLoop F fields orderedSeqs fields2 rest w1 (lines + 1) with
        | (o, cs', ws) => (o, Call.Next :: (cs ++ cs'), SinkCall.Write r :: ws)

/-- `rows2csv(rows, w, orderedSeqs)`: outcome, cursor calls, sink calls. -/
def rows2csv (F : StdFormat) (rows : Rows) (w : Sink) (orderedSeqs : Slice Int) :
    Outcome (Int × Option GoError) × List Call × List SinkCall :=
  match rows.columnsErr with
  | some err => (.returns (-1, some err), [Call.Columns], [])
  | none =>
    let fields := rows.columns
    let checked : Outcome (Slice GoString × Option GoError) :=
      if orderedSeqs ≠ none ∧ Slice.len orderedSeqs > 0 then
        selectFieldsLoop (Slice.toList fields) (Slice.toList orderedSeqs) []
      else .returns (fields, none)
    match checked with
    | .panics => (.panics, [Call.Columns], [])
    | .returns (_, some err) => (.returns (-1, some err), [Call.Columns], [])
    | .returns (fields2, none) =>
      match w.Write with
      | (some err, _) =>
        (.returns (-1, some err), [Call.Columns], [SinkCall.Write (Slice.toList fields2)])
      | (none, w1) =>
        match rows2csvLoop F fields orderedSeqs fields2 rows.pending w1 0 with
        | (.panics, cs, ws) =>
          (.panics, Call.Columns :: cs, SinkCall.Write (Slice.toList fields2) :: ws)
        | (.returns (lines, some err), cs, ws) =>
          (.returns (lines, some err), Call.Columns :: cs,
            SinkCall.Write (Slice.toList fields2) :: ws)
        | (.returns (lines, none), cs, ws) =>
          (.returns (lines, none), Call.Columns :: cs,
            SinkCall.Write (Slice.toList fields2) :: (ws ++ [SinkCall.Flush]))

/-! ## Entry points -/

/-- What `session.queryRows(sqlStr, args...)` hands back: an open cursor, or an error
and no cursor. -/
inductive QueryRowsResult where
  | cursor (rows : Rows)
  | failed (err : GoError)

/-- The session as the entry points read it. -/
structure Session where
  isAutoClose : Bool
  statement : Statement
  deriving DecidableEq, Repr

/-- Run of an entry point: its outcome, the calls made on the cursor it acquired (the
deferred `rows.Close()` runs last, also when the body panics), and whether the
deferred `session.Close()` ran. -/
structure EntryRun (α : Type) where
  outcome : Outcome α
  cursorCalls : List Call
  sessionClosed : Bool

/-- `session.QueryString(sqlOrArgs...)`. -/
def QueryString (F : StdFormat) (C : Collab)
    (queryRows : GoString → Slice Arg → QueryRowsResult) (session : Session)
    (sqlOrArgs : List Arg) : EntryRun (Slice MapStr × Option GoError) :=
  match (genQuerySQL C session.statement sqlOrArgs).1 with
  | (_, _, some err) => ⟨.returns (none, some err), [], session.isAutoClose⟩
  | (sqlStr, args, none) =>
    match queryRows sqlStr args with
    | .failed err => ⟨.returns (none, some err), [], session.isAutoClose⟩
    | .cursor rows =>
      match rows2Strings F rows with
      | (o, cs) => ⟨o, cs ++ [Call.Close], session.isAutoClose⟩

/-- `session.QuerySliceString(sqlOrArgs...)`. -/
def QuerySliceString (F : StdFormat) (C : Collab)
    (queryRows : GoString → Slice Arg → QueryRowsResult) (session : Session)
    (sqlOrArgs : List Arg) : EntryRun (Slice (Slice GoString) × Option GoError) :=
  match (genQuerySQL C session.statement sqlOrArgs).1 with
  | (_, _, some err) => ⟨.returns (none, some err), [], session.isAutoClose⟩
  | (sqlStr, args, none) =>
    match queryRows sqlStr args with
    | .failed err => ⟨.returns (none, some err), [], session.isAutoClose⟩
    | .cursor rows =>
      match rows2SliceString F rows with
      | (o, cs) => ⟨o, cs ++ [Call.Close], session.isAutoClose⟩

/-- `session.QueryInterface(sqlOrArgs...)`. -/
def QueryInterface (C : Collab)
    (queryRows : GoString → Slice Arg → QueryRowsResult) (session : Session)
    (sqlOrArgs : List Arg) : EntryRun (Slice MapIface × Option GoError) :=
  match (genQuerySQL C session.statement sqlOrArgs).1 with
  | (_, _, some err) => ⟨.returns (none, some err), [], session.isAutoClose⟩
  | (sqlStr, args, none) =>
    match queryRows sqlStr args with
    | .failed err => ⟨.returns (none, some err), [], session.isAutoClose⟩
    | .cursor rows =>
      match rows2Interfaces rows with
      | (o, cs) => ⟨o, cs ++ [Call.Close], session.isAutoClose⟩

/-- `session.ExportQueryString(w, orderedSeqs, sqlorArgs...)`, with the sink calls. -/
def ExportQueryString (F : StdFormat) (C : Collab)
    (queryRows : GoString → Slice Arg → QueryRowsResult) (session : Session)
    (w : Sink) (orderedSeqs : Slice Int) (sqlorArgs : List Arg) :
    EntryRun (Int × Option GoError) × List SinkCall :=
  match (genQuerySQL C session.statement sqlorArgs).1 with
  | (_, _, some err) => (⟨.returns (-1, some err), [], session.isAutoClose⟩, [])
  | (sqlStr, args, none) =>
    match queryRows sqlStr args with
    | .failed err => (⟨.returns (-1, some err), [], session.isAutoClose⟩, [])
    | .cursor rows =>
      match rows2csv F rows w orderedSeqs with
      | (o, cs, ws) => (⟨o, cs ++ [Call.Close], session.isAutoClose⟩, ws)

/-- `session.QueryString2(orderedSeqs, sqlorArgs...)`. -/
def QueryString2 (F : StdFormat) (C : Collab)
    (queryRows : GoString → Slice Arg → QueryRowsResult) (session : Session)
    (orderedSeqs : Slice Int) (sqlorArgs : List Arg) :
    EntryRun (Slice MapStr × Slice GoString × Option GoError) :=
  match (genQuerySQL C session.statement sqlorArgs).1 with
  | (_, _, some err) => ⟨.returns (none, none, some err), [], session.isAutoClose⟩
  | (sqlStr, args, none) =>
    match queryRows sqlStr args with
    | .failed err => ⟨.returns (none, none, some err), [], session.isAutoClose⟩
    | .cursor rows =>
      match rows2Strings2 F rows orderedSeqs with
      | (o, cs) => ⟨o, cs ++ [Call.Close], session.isAutoClose⟩

/-! ## Reference functions

What the loops of the decoders and assemblers compute, written once: the theorems
relate each loop of the source to these. -/

/-- Text a string decoder emits for one cell: the empty text for a nil cell, the
result of `value2String` otherwise. -/
def cellText (F : StdFormat) : Cell → Outcome (GoString × Option GoError)
  | none => .returns ([], none)
  | some rawValue => value2String F rawValue

/-- Store the text of each cell under its key, from left to right, and stop at the
first cell that does not convert. -/
def storeAll (F : StdFormat) :
    List (GoString × Cell) → GoMap GoString → Outcome (MapStr × Option GoError)
  | [], result => .returns (some result, none)
  | (key, cell) :: rest, result =>
    match cellText F cell with
    | .panics => .panics
    | .returns (data, none) => storeAll F rest (result.set key data)
    | .returns (_, some err) => .returns (none, some err)

/-- Append the text of each cell, from left to right, and stop at the first cell that
does not convert. -/
def appendAll (F : StdFormat) :
    List Cell → List GoString → Outcome (Slice GoString × Option GoError)
  | [], result => .returns (some result, none)
  | cell :: rest, result =>
    match cellText F cell with
    | .panics => .panics
    | .returns (data, none) => appendAll F rest (result ++ [data])
    | .returns (_, some err) => .returns (none, some err)

/-- The loop `for rows.Next()` shared by the assemblers, for any row decoder. -/
def assembleLoop {α : Type} (decode : RowData → Outcome (α × Option GoError) × List Call) :
    List RowData → Slice α → Outcome (Slice α × Option GoError) × List Call
  | [], resultsSlice => (.returns (resultsSlice, none), [Call.Next])
  | cur :: rest, resultsSlice =>
    match decode cur with
    | (.panics, cs) => (.panics, Call.Next :: cs)
    | (.returns (_, some err), cs) => (.returns (none, some err), Call.Next :: cs)
    | (.returns (result, none), cs) =>
      match assembleLoop decode rest (Slice.append resultsSlice [result]) with
      | (o, cs') => (o, Call.Next :: (cs ++ cs'))

/-- Cells `Scan` leaves in `n` destinations for a row that scans. -/
def scanned (cur : RowData) (n : Nat) : List Cell :=
  (List.range n).map (fun i => cur.cells.getD i none)

/-- Effective columns of a selection: the selected names in selection order, or the
full column list for a nil or empty selection. -/
def effectiveColumns (fields : Slice GoString) (orderedSeqs : Slice Int) : Slice GoString :=
  if orderedSeqs ≠ none ∧ Slice.len orderedSeqs > 0 then
    some ((Slice.toList orderedSeqs).map (fun s => (Slice.toList fields).getD s.toNat []))
  else fields

/-- The cursor was closed exactly once, by the last call made on it. -/
def closedOnce (calls : List Call) : Prop :=
  calls.count Call.Close = 1 ∧ calls.getLast? = some Call.Close

/-- What an entry point owes the cursor: when statement resolution or `queryRows`
fails there is no cursor and no call on one; when `queryRows` hands back a cursor, it
is closed exactly once, last. -/
def cursorReleased (C : Collab) (queryRows : GoString → Slice Arg → QueryRowsResult)
    (session : Session) (sqlOrArgs : List Arg) (calls : List Call) : Prop :=
  match (genQuerySQL C session.statement sqlOrArgs).1 with
  | (_, _, some _) => calls = []
  | (sqlStr, args, none) =>
    match queryRows sqlStr args with
    | .failed _ => calls = []
    | .cursor _ => closedOnce calls

/-- The data record `rows2csv` builds for the row the cursor stands on. -/
def csvRecordOf (F : StdFormat) (cur : RowData) (fields : Slice GoString)
    (orderedSeqs : Slice Int) : List GoString :=
  match (row2mapStr2 F cur fields orderedSeqs).1 with
  | .returns (result, _) =>
    rows2csvRecord result (Slice.toList (effectiveColumns fields orderedSeqs)) []
  | .panics => []

/-- Index of the cell behind the `i`-th effective column: `orderedSeqs[i]`, or `i`
for a nil or empty selection. -/
def cellIndex (orderedSeqs : Slice Int) (i : Nat) : Nat :=
  if orderedSeqs ≠ none ∧ Slice.len orderedSeqs > 0 then
    ((Slice.toList orderedSeqs).getD i 0).toNat
  else i

/-- The column projection by the precedence the code follows: select expression, then
the explicit column string, then by join and group-by (quoted group-by columns, `*`,
quoted group-by columns, generated column list), and `*` when the value chosen after
the select expression is empty. -/
def projectionByPrecedence (C : Collab) (st : Statement) : GoString :=
  if st.selectStr ≠ [] then st.selectStr
  else
    let chosen : GoString :=
      if st.ColumnStr ≠ [] then st.ColumnStr
      else if st.JoinStr ≠ [] ∧ st.GroupByStr ≠ [] then C.quoteColumns st st.GroupByStr
      else if st.JoinStr ≠ [] then [42]
      else if st.GroupByStr ≠ [] then C.quoteColumns st st.GroupByStr
      else C.genColumnStr st
    if chosen = [] then [42] else chosen

/-- The column projection by the precedence of the specification, which does not
mention the explicit column string. -/
def specProjection (C : Collab) (st : Statement) : GoString :=
  if st.selectStr ≠ [] then st.selectStr
  else
    let chosen : GoString :=
      if st.JoinStr ≠ [] ∧ st.GroupByStr ≠ [] then C.quoteColumns st st.GroupByStr
      else if st.JoinStr ≠ [] then [42]
      else if st.GroupByStr ≠ [] then C.quoteColumns st st.GroupByStr
      else C.genColumnStr st
    if chosen = [] then [42] else chosen

/-! ## Concrete inputs -/

/-- A result set with columns `a`, `b`, `c` and two rows: `(5, NULL, "x")` and
`([]byte{0}, true, NULL)`. -/
def exampleRows : Rows :=
  { columns := some [[97], [98], [99]]
    columnsErr := none
    pending :=
      [RowData.mk none [some (GoValue.int IntKind.Int64 [] 5), none,
          some (GoValue.string [] [120])],
        RowData.mk none [some (GoValue.bytes [0]), some (GoValue.bool [] true), none]] }

/-- A result set with the single column `a` whose only row fails to scan. -/
def scanFailRows : Rows :=
  { columns := some [[97]]
    columnsErr := none
    pending := [RowData.mk (some (GoError.external 1)) []] }

/-- Collaborators for the examples: the table name is empty when `env = 0`; the
condition compiles to `id=?` with the argument `7`; the statement builder returns the
condition text twice when `env = 2` (as a dialect that repeats the placeholders does)
and once otherwise. -/
def exampleCollab : Collab :=
  { convertSQLOrArgs := fun args => ([115], some (args.drop 1), none)
    TableName := fun st => if st.env = 0 then [] else [116]
    quoteColumns := fun _ columns => columns
    genColumnStr := fun _ => [42]
    processIDParam := fun st => (st, none)
    ToSQL := fun _ => ([105, 100, 61, 63], some [some (GoValue.int IntKind.Int64 [] 7)], none)
    genSelectSQL := fun st _ condSQL _ _ =>
      (if st.env = 2 then condSQL ++ condSQL else condSQL, none) }

/-- A structured query state without raw SQL, with the given `env`. -/
def exampleStatement (env : Nat) : Statement :=
  { RawSQL := []
    RawParams := none
    ColumnStr := []
    selectStr := []
    JoinStr := []
    GroupByStr := []
    joinArgs := none
    cond := 0
    env := env }

/-- A query state with the recorded raw SQL `s` and an empty table name. -/
def rawStatement : Statement :=
  { RawSQL := [115]
    RawParams := some [none]
    ColumnStr := []
    selectStr := []
    JoinStr := []
    GroupByStr := []
    joinArgs := none
    cond := 0
    env := 0 }

/-- A row that scans as `("x", NULL)`. -/
def textNullRow : RowData := RowData.mk none [some (GoValue.string [] [120]), none]

/-- A row that scans as `(NULL, "x")`. -/
def nullTextRow : RowData := RowData.mk none [none, some (GoValue.string [] [120])]

/-- A row that scans as `(map, NULL)`. -/
def mapNullRow : RowData := RowData.mk none [some (GoValue.other OtherKind.Map []), none]

/-- A sink whose writes succeed and whose flush fails. -/
def flushFailSink : Sink := { writeErrs := [], flushErr := some (GoError.external 9) }

/-- A sink without failures. -/
def goodSink : Sink := { writeErrs := [], flushErr := none }

/-- A result set with two columns both named `a` and the row `("x", "y")`. -/
def sameNameRows : Rows :=
  { columns := some [[97], [97]]
    columnsErr := none
    pending := [RowData.mk none [some (GoValue.string [] [120]), some (GoValue.string [] [121])]] }

/-- A result set with the columns `a, b` and the row `("x", map)`. -/
def textMapRows : Rows :=
  { columns := some [[97], [98]]
    columnsErr := none
    pending := [RowData.mk none [some (GoValue.string [] [120]),
      some (GoValue.other OtherKind.Map [])]] }

/-- A structured query state with a join clause and nothing else set. -/
def joinStatement : Statement :=
  { RawSQL := []
    RawParams := none
    ColumnStr := []
    selectStr := []
    JoinStr := [74]
    GroupByStr := []
    joinArgs := none
    cond := 0
    env := 1 }

/-- A structured query state with the explicit column string `id` and nothing else set. -/
def columnStatement : Statement :=
  { RawSQL := []
    RawParams := none
    ColumnStr := [105, 100]
    selectStr := []
    JoinStr := []
    GroupByStr := []
    joinArgs := none
    cond := 0
    env := 1 }

/-- A result set with the single column `a` whose only row holds a map. -/
def mapCellRows : Rows :=
  { columns := some [[97]]
    columnsErr := none
    pending := [RowData.mk none [some (GoValue.other OtherKind.Map [])]] }

/-- Formatters that return the empty text; none of the examples formats a float, a
time or a complex. -/
def exampleFormat : StdFormat :=
  { FormatFloat := fun _ => []
    TimeFormat := fun _ => []
    SprintComplex := fun _ _ => [] }

/-- A `[4]byte` value: an unnamed array type with element kind `Uint8`. -/
def byteArray4 : GoValue := GoValue.seq true [] Kind.Uint8

/-- A `sql.RawBytes` value: a slice type named `RawBytes` with element kind `Uint8`. -/
def rawBytesValue : GoValue := GoValue.seq false [82, 97, 119, 66, 121, 116, 101, 115] Kind.Uint8

/-- A row that scans as a single `[4]byte` value. -/
def byteArrayRow : RowData := RowData.mk none [some byteArray4]

/-! ## Decimal formatting -/

theorem formatBits_append (fuel u : Nat) (acc : GoString) :
    formatBits fuel u acc = formatBits fuel u [] ++ acc := by
  induction fuel generalizing u acc with
  | zero => simp [formatBits]
  | succ n ih =>
    unfold formatBits
    by_cases h : u < 10
    · simp [h]
    · simp only [h, if_false]
      rw [ih (u / 10) ((48 + u % 10) :: acc), ih (u / 10) [48 + u % 10]]
      simp

theorem formatBits_succ_of_ge (fuel u : Nat) (h : ¬ u < 10) :
    formatBits (fuel + 1) u [] = formatBits fuel (u / 10) [] ++ [48 + u % 10] := by
  conv_lhs => unfold formatBits
  simp only [h, if_false]
  exact formatBits_append fuel (u / 10) [48 + u % 10]

theorem formatBits_succ_of_lt (fuel u : Nat) (h : u < 10) :
    formatBits (fuel + 1) u [] = [48 + u] := by
  conv_lhs => unfold formatBits
  simp [h]

theorem formatBits_digits (fuel u : Nat) :
    ∀ c ∈ formatBits fuel u [], 48 ≤ c ∧ c ≤ 57 := by
  induction fuel generalizing u with
  | zero => simp [formatBits]
  | succ n ih =>
    intro c hc
    by_cases h : u < 10
    · rw [formatBits_succ_of_lt n u h] at hc
      simp at hc
      omega
    · rw [formatBits_succ_of_ge n u h] at hc
      rcases List.mem_append.mp hc with hc | hc
      · exact ih (u / 10) c hc
      · simp at hc
        omega

theorem formatBits_ne_nil (fuel u : Nat) : formatBits (fuel + 1) u [] ≠ [] := by
  by_cases h : u < 10
  · rw [formatBits_succ_of_lt fuel u h]; simp
  · rw [formatBits_succ_of_ge fuel u h]; simp

theorem formatBits_head (fuel u : Nat) (hpos : 0 < u) (hlt : u < 10 ^ fuel) :
    ∃ c rest, formatBits fuel u [] = c :: rest ∧ c ≠ 48 := by
  induction fuel generalizing u with
  | zero => simp at hlt; omega
  | succ n ih =>
    by_cases h : u < 10
    · rw [formatBits_succ_of_lt n u h]
      exact ⟨48 + u, [], rfl, by omega⟩
    · rw [formatBits_succ_of_ge n u h]
      have h1 : 0 < u / 10 := Nat.div_pos (by omega) (by decide)
      have h2 : u / 10 < 10 ^ n := by
        rw [Nat.div_lt_iff_lt_mul (by decide)]
        rw [pow_succ] at hlt
        exact hlt
      obtain ⟨c, rest, hc, hne⟩ := ih (u / 10) h1 h2
      exact ⟨c, rest ++ [48 + u % 10], by rw [hc]; rfl, hne⟩

theorem parseDigits_append (bitSize : Nat) (s t : GoString) (n : Nat) :
    parseDigits bitSize (s ++ t) n = (parseDigits bitSize s n).bind (parseDigits bitSize t) := by
  induction s generalizing n with
  | nil => simp [parseDigits]
  | cons c cs ih =>
    simp only [List.cons_append, parseDigits]
    by_cases h1 : 48 ≤ c ∧ c ≤ 57
    · by_cases h2 : n * 10 + (c - 48) < 2 ^ bitSize
      · simp only [h1, h2, and_self, if_true]
        exact ih _
      · simp [h1, h2]
    · simp [h1]

theorem parseDigits_formatBits (bitSize fuel u : Nat) (hfuel : u < 10 ^ fuel)
    (hrange : u < 2 ^ bitSize) : parseDigits bitSize (formatBits fuel u []) 0 = some u := by
  induction fuel generalizing u with
  | zero =>
    have : u = 0 := by simp at hfuel; omega
    subst this
    simp [formatBits, parseDigits]
  | succ n ih =>
    by_cases h : u < 10
    · rw [formatBits_succ_of_lt n u h]
      have h8 : 48 + u ≤ 57 := by omega
      simp [parseDigits, hrange, h8]
    · rw [formatBits_succ_of_ge n u h, parseDigits_append]
      have h2 : u / 10 < 10 ^ n := by
        rw [Nat.div_lt_iff_lt_mul (by decide)]
        rw [pow_succ] at hfuel
        exact hfuel
      have h3 : u / 10 < 2 ^ bitSize := lt_of_le_of_lt (Nat.div_le_self u 10) hrange
      rw [ih (u / 10) h2 h3]
      have h4 : u / 10 * 10 + u % 10 = u := by omega
      have h5 : u % 10 < 10 := Nat.mod_lt u (by decide)
      simp only [Option.some_bind, parseDigits]
      have h6 : 48 ≤ 48 + u % 10 ∧ 48 + u % 10 ≤ 57 := by omega
      have h7 : 48 + u % 10 - 48 = u % 10 := by omega
      simp only [h6, and_self, if_true, h7, h4, hrange]

theorem ParseUint_of_ne_nil (s : GoString) (bitSize : Nat) (h : s ≠ []) :
    ParseUint s bitSize = parseDigits bitSize s 0 := by
  cases s with
  | nil => exact absurd rfl h
  | cons c cs => rfl

theorem pow_two_lt_pow_ten (b : Nat) (hb : b ≤ 64) : 2 ^ b < 10 ^ 20 := by
  have h1 : 2 ^ b ≤ 2 ^ 64 := Nat.pow_le_pow_right (by decide) hb
  have h2 : 2 ^ 64 < 10 ^ 20 := by norm_num
  omega

theorem ParseUint_FormatUint (bitSize v : Nat) (hb : bitSize ≤ 64) (hv : v < 2 ^ bitSize) :
    ParseUint (FormatUint v) bitSize = some v := by
  unfold FormatUint
  rw [ParseUint_of_ne_nil _ _ (formatBits_ne_nil 19 v)]
  exact parseDigits_formatBits bitSize 20 v (lt_trans hv (pow_two_lt_pow_ten bitSize hb)) hv

theorem ParseInt_FormatInt (bitSize : Nat) (v : Int) (hb1 : 1 ≤ bitSize) (hb2 : bitSize ≤ 64)
    (hlo : -(2 ^ (bitSize - 1) : Int) ≤ v) (hhi : v < 2 ^ (bitSize - 1)) :
    ParseInt (FormatInt v) bitSize = some v := by
  obtain ⟨p, hp⟩ : ∃ p : Nat, p = 2 ^ (bitSize - 1) := ⟨_, rfl⟩
  have hpc : (2 ^ (bitSize - 1) : Int) = (p : Int) := by rw [hp]; push_cast; rfl
  have hp2 : 2 ^ bitSize = 2 * p := by
    rw [hp, ← pow_succ']
    congr 1
    omega
  have hp3 : 2 ^ bitSize < 10 ^ 20 := pow_two_lt_pow_ten bitSize hb2
  rw [hpc] at hlo hhi
  have hppos : 0 < p := by rw [hp]; exact Nat.pos_pow_of_pos _ (by decide)
  by_cases hneg : v < 0
  · obtain ⟨u, hu⟩ : ∃ u : Nat, u = (-v).toNat := ⟨_, rfl⟩
    have hu1 : u ≤ p := by omega
    have hu2 : (u : Int) = -v := by omega
    have hfmt : FormatInt v = 45 :: formatBits 20 u [] := by simp [FormatInt, hneg, hu]
    rw [hfmt]
    have hparse : ParseUint (formatBits 20 u []) bitSize = some u := by
      rw [ParseUint_of_ne_nil _ _ (formatBits_ne_nil 19 u)]
      exact parseDigits_formatBits bitSize 20 u (by omega) (by omega)
    have hnot : ¬ p < u := by omega
    simp only [ParseInt, ← hp]
    simp [hparse, hnot]
    omega
  · obtain ⟨u, hu⟩ : ∃ u : Nat, u = v.toNat := ⟨_, rfl⟩
    have hu1 : u < p := by omega
    have hu2 : (u : Int) = v := by omega
    have hfmt : FormatInt v = formatBits 20 u [] := by simp [FormatInt, hneg, hu]
    rw [hfmt]
    have hparse : ParseUint (formatBits 20 u []) bitSize = some u := by
      rw [ParseUint_of_ne_nil _ _ (formatBits_ne_nil 19 u)]
      exact parseDigits_formatBits bitSize 20 u (by omega) (by omega)
    have hdig := formatBits_digits 20 u
    cases hds : formatBits 20 u [] with
    | nil => exact absurd hds (formatBits_ne_nil 19 u)
    | cons c cs =>
      rw [hds] at hdig hparse
      have hc := hdig c (by simp)
      have hc1 : ¬ c = 45 := by omega
      have hc2 : ¬ c = 43 := by omega
      have hnot : ¬ p ≤ u := by omega
      simp only [ParseInt, ← hp]
      simp [hc1, hc2, hparse, hnot, hu2]

theorem intKind_bitSize_bounds (k : IntKind) : 1 ≤ k.bitSize ∧ k.bitSize ≤ 64 := by
  cases k <;> simp [IntKind.bitSize]

theorem uintKind_bitSize_le (k : UintKind) : k.bitSize ≤ 64 := by
  cases k <;> simp [UintKind.bitSize]

theorem ParseBool_FormatBool (b : Bool) : ParseBool (FormatBool b) = some b := by
  cases b <;> rfl

/-- The digits `formatBits` writes: at least one, all of them decimal digits, no
leading zero unless the text is `0` alone. -/
theorem formatBits_shape (u : Nat) (hu : u < 10 ^ 20) :
    formatBits 20 u [] ≠ [] ∧ (∀ c ∈ formatBits 20 u [], 48 ≤ c ∧ c ≤ 57) ∧
      (formatBits 20 u [] = [48] ∨ (formatBits 20 u []).head? ≠ some 48) := by
  refine ⟨formatBits_ne_nil 19 u, formatBits_digits 20 u, ?_⟩
  by_cases h0 : u = 0
  · left; subst h0; rfl
  · right
    obtain ⟨c, rest, hc, hne⟩ := formatBits_head 20 u (by omega) hu
    rw [hc]
    simpa using hne

/-- The text `FormatInt` produces: a `-` exactly for a negative value, then the digits. -/
theorem FormatInt_shape (v : Int) (hlo : -(2 ^ 63 : Int) ≤ v) (hhi : v < 2 ^ 63) :
    ∃ ds, FormatInt v = (if v < 0 then [45] else []) ++ ds ∧ ds ≠ [] ∧
      (∀ c ∈ ds, 48 ≤ c ∧ c ≤ 57) ∧ (ds = [48] ∨ ds.head? ≠ some 48) := by
  have h63 : 2 ^ 63 < 10 ^ 20 := by norm_num
  by_cases hneg : v < 0
  · refine ⟨formatBits 20 (-v).toNat [], ?_, formatBits_shape _ (by omega)⟩
    simp [FormatInt, hneg]
  · refine ⟨formatBits 20 v.toNat [], ?_, formatBits_shape _ (by omega)⟩
    simp [FormatInt, hneg]

/-! ## Scalar converter: results -/

/-- Every run of `value2String` ends in one of three ways: the unchecked assertion to
`[]byte` panics (exactly on an array or slice with element kind `Uint8` whose type is
not `[]byte`), or a text comes back with a nil error, or the empty text comes back
with an error. -/
theorem value2String_cases (F : StdFormat) (v : GoValue) :
    (∃ isArray typeName, v = GoValue.seq isArray typeName Kind.Uint8 ∧
        value2String F v = Outcome.panics) ∨
      (∃ t, value2String F v = Outcome.returns (t, none)) ∨
      (∃ e, value2String F v = Outcome.returns ([], some e)) := by
  cases v with
  | int k n v => exact Or.inr (Or.inl ⟨_, rfl⟩)
  | uint k n v => exact Or.inr (Or.inl ⟨_, rfl⟩)
  | float w n b => exact Or.inr (Or.inl ⟨_, rfl⟩)
  | string n s => exact Or.inr (Or.inl ⟨_, rfl⟩)
  | bool n b => exact Or.inr (Or.inl ⟨_, rfl⟩)
  | complex w n re im => exact Or.inr (Or.inl ⟨_, rfl⟩)
  | bytes d => exact Or.inr (Or.inl ⟨_, rfl⟩)
  | seq a n e =>
    by_cases h : e = Kind.Uint8
    · subst h
      exact Or.inl ⟨a, n, rfl, by simp [value2String]⟩
    · exact Or.inr (Or.inr ⟨GoError.unsupportedType n, by simp [value2String, h]⟩)
  | struct n t =>
    cases t with
    | none => exact Or.inr (Or.inr ⟨_, rfl⟩)
    | some t => exact Or.inr (Or.inl ⟨_, rfl⟩)
  | other k n => exact Or.inr (Or.inr ⟨_, rfl⟩)

/-- A value of a kind without a conversion rule (`Map`, `Ptr`, `Uintptr`,
`UnsafePointer`, `Chan`, `Func`) gets the empty text and the unsupported-type error. -/
theorem value2String_other (F : StdFormat) (k : OtherKind) (typeName : GoString) :
    value2String F (GoValue.other k typeName) =
      Outcome.returns ([], some (GoError.unsupportedType typeName)) := rfl

/-- C6, at the failing inputs: on a fixed-length byte array (`[4]byte`) and on a named
byte-slice type (`sql.RawBytes`) `value2String` does not return the empty text with an
error, it panics in the assertion `rawValue.Interface().([]byte)`. -/
theorem value2String_byteSeq_panics (F : StdFormat) :
    value2String F byteArray4 = Outcome.panics ∧
      value2String F rawBytesValue = Outcome.panics :=
  ⟨rfl, rfl⟩

/-- C7: a `[]byte` blob converts with a nil error to the text of exactly its bytes,
except the blob holding the single byte `0x00`, which converts to `"0"` (byte 48). -/
theorem value2String_blob (F : StdFormat) (b : List Nat) :
    value2String F (GoValue.bytes b) = Outcome.returns (if b = [0] then [48] else b, none) :=
  rfl

/-- C8: a signed or unsigned integer within the range of its kind, a boolean and a text
convert with a nil error to a text that parses back to the value at the same kind
(`ParseInt`, `ParseUint`, `ParseBool`, identity); the text of an integer is a `-`
exactly when the value is negative, followed by one or more decimal digits with no
leading zero, and nothing else. -/
theorem value2String_roundtrip (F : StdFormat) :
    (∀ (k : IntKind) (typeName : GoString) (v : Int),
      -(2 ^ (k.bitSize - 1) : Int) ≤ v → v < 2 ^ (k.bitSize - 1) →
      ∃ t ds, value2String F (GoValue.int k typeName v) = Outcome.returns (t, none) ∧
        ParseInt t k.bitSize = some v ∧
        t = (if v < 0 then [45] else []) ++ ds ∧ ds ≠ [] ∧
        (∀ c ∈ ds, 48 ≤ c ∧ c ≤ 57) ∧ (ds = [48] ∨ ds.head? ≠ some 48)) ∧
    (∀ (k : UintKind) (typeName : GoString) (v : Nat), v < 2 ^ k.bitSize →
      ∃ t, value2String F (GoValue.uint k typeName v) = Outcome.returns (t, none) ∧
        ParseUint t k.bitSize = some v ∧ t ≠ [] ∧
        (∀ c ∈ t, 48 ≤ c ∧ c ≤ 57) ∧ (t = [48] ∨ t.head? ≠ some 48)) ∧
    (∀ (typeName : GoString) (b : Bool),
      ∃ t, value2String F (GoValue.bool typeName b) = Outcome.returns (t, none) ∧
        ParseBool t = some b) ∧
    (∀ (typeName s : GoString),
      value2String F (GoValue.string typeName s) = Outcome.returns (s, none)) := by
  refine ⟨?_, ?_, ?_, ?_⟩
  · intro k typeName v hlo hhi
    have hb := intKind_bitSize_bounds k
    have h63 : (2 ^ (k.bitSize - 1) : Int) ≤ 2 ^ 63 :=
      pow_le_pow_right₀ (by norm_num) (by omega)
    obtain ⟨ds, h1, h2, h3, h4⟩ := FormatInt_shape v (by omega) (by omega)
    exact ⟨FormatInt v, ds, rfl, ParseInt_FormatInt k.bitSize v hb.1 hb.2 hlo hhi,
      h1, h2, h3, h4⟩
  · intro k typeName v hv
    have hb := uintKind_bitSize_le k
    have hs := formatBits_shape v (lt_trans hv (pow_two_lt_pow_ten _ hb))
    exact ⟨FormatUint v, rfl, ParseUint_FormatUint k.bitSize v hb hv, hs⟩
  · intro typeName b
    exact ⟨FormatBool b, rfl, ParseBool_FormatBool b⟩
  · intro typeName s
    rfl

/-- Witness of C8 at `int8(-128)` and `uint8(255)`. -/
theorem value2String_roundtrip_witness :
    (∃ t ds, value2String exampleFormat (GoValue.int IntKind.Int8 [] (-128)) =
          Outcome.returns (t, none) ∧
        ParseInt t IntKind.Int8.bitSize = some (-128) ∧
        t = (if (-128 : Int) < 0 then [45] else []) ++ ds ∧ ds ≠ [] ∧
        (∀ c ∈ ds, 48 ≤ c ∧ c ≤ 57) ∧ (ds = [48] ∨ ds.head? ≠ some 48)) ∧
    (∃ t, value2String exampleFormat (GoValue.uint UintKind.Uint8 [] 255) =
          Outcome.returns (t, none) ∧
        ParseUint t UintKind.Uint8.bitSize = some 255 ∧ t ≠ [] ∧
        (∀ c ∈ t, 48 ≤ c ∧ c ≤ 57) ∧ (t = [48] ∨ t.head? ≠ some 48)) :=
  ⟨(value2String_roundtrip exampleFormat).1 IntKind.Int8 [] (-128)
      (by simp [IntKind.bitSize]) (by simp [IntKind.bitSize]),
    (value2String_roundtrip exampleFormat).2.1 UintKind.Uint8 [] 255
      (by simp [UintKind.bitSize])⟩

/-! ## Slices and maps -/

theorem Slice.append_append {α : Type} (s : Slice α) (xs ys : List α) :
    Slice.append (Slice.append s xs) ys = Slice.append s (xs ++ ys) := by
  cases s with
  | none =>
    cases xs with
    | nil => rfl
    | cons x xs => simp [Slice.append]
  | some l => simp [Slice.append]

theorem Slice.toList_append {α : Type} (s : Slice α) (xs : List α) :
    Slice.toList (Slice.append s xs) = Slice.toList s ++ xs := by
  cases s with
  | none => cases xs <;> rfl
  | some l => rfl

theorem Slice.append_nil {α : Type} (s : Slice α) : Slice.append s [] = s := by
  cases s with
  | none => rfl
  | some l => simp [Slice.append]

theorem GoMap.get?_set_same {β : Type} (m : GoMap β) (k : GoString) (v : β) :
    GoMap.get? (GoMap.set m k v) k = some v := by
  induction m with
  | nil => simp [GoMap.set, GoMap.get?]
  | cons p rest ih =>
    obtain ⟨k1, v1⟩ := p
    by_cases h : k1 = k
    · simp [GoMap.set, GoMap.get?, h]
    · simp [GoMap.set, GoMap.get?, h, ih]

theorem GoMap.get?_set_other {β : Type} (m : GoMap β) (k k2 : GoString) (v : β)
    (hne : k2 ≠ k) : GoMap.get? (GoMap.set m k v) k2 = GoMap.get? m k2 := by
  induction m with
  | nil =>
    have h : ¬ k = k2 := fun h => hne h.symm
    simp [GoMap.set, GoMap.get?, h]
  | cons p rest ih =>
    obtain ⟨k1, v1⟩ := p
    by_cases h : k1 = k
    · subst h
      have h2 : ¬ k1 = k2 := fun h => hne h.symm
      simp [GoMap.set, GoMap.get?, h2]
    · by_cases h3 : k1 = k2
      · subst h3
        simp [GoMap.set, GoMap.get?, h]
      · simp [GoMap.set, GoMap.get?, h, h3, ih]

theorem GoMap.mem_keys_set {β : Type} (m : GoMap β) (k k2 : GoString) (v : β) :
    k2 ∈ GoMap.keys (GoMap.set m k v) ↔ k2 = k ∨ k2 ∈ GoMap.keys m := by
  induction m with
  | nil => simp [GoMap.set, GoMap.keys]
  | cons p rest ih =>
    obtain ⟨k1, v1⟩ := p
    by_cases h : k1 = k
    · subst h
      simp [GoMap.set, GoMap.keys]
    · simp only [GoMap.set, h, if_false]
      simp only [GoMap.keys, List.map_cons, List.mem_cons] at ih ⊢
      rw [ih]
      tauto

theorem GoMap.mem_keys_iff {β : Type} (m : GoMap β) (k : GoString) :
    k ∈ GoMap.keys m ↔ ∃ v, GoMap.get? m k = some v := by
  induction m with
  | nil => simp [GoMap.keys, GoMap.get?]
  | cons p rest ih =>
    obtain ⟨k1, v1⟩ := p
    by_cases h : k1 = k
    · subst h
      simp [GoMap.keys, GoMap.get?]
    · have h2 : ¬ k = k1 := fun e => h e.symm
      simp only [GoMap.keys, List.map_cons, List.mem_cons, h2, false_or, GoMap.get?, h,
        if_false]
      exact ih

/-! ## The loops of the source and the reference functions -/

theorem drop_eq_cons_of_lt {α : Type} (l : List α) (i : Nat) (h : i < l.length) :
    ∃ c, l[i]? = some c ∧ l.drop i = c :: l.drop (i + 1) := by
  refine ⟨l[i], List.getElem?_eq_getElem h, ?_⟩
  exact List.drop_eq_getElem_cons h

theorem row2mapStrLoop_eq (F : StdFormat) (slots : List Cell) (keys : List GoString)
    (ii : Nat) (result : GoMap GoString) (hlen : ii + keys.length ≤ slots.length) :
    row2mapStrLoop F slots keys ii result = storeAll F (keys.zip (slots.drop ii)) result := by
  induction keys generalizing ii result with
  | nil => simp [row2mapStrLoop, storeAll]
  | cons key rest ih =>
    simp only [List.length_cons] at hlen
    obtain ⟨c, hc, hdrop⟩ := drop_eq_cons_of_lt slots ii (by omega)
    rw [hdrop]
    simp only [row2mapStrLoop, hc, List.zip_cons_cons, storeAll]
    cases c with
    | none => simp only [cellText]; exact ih (ii + 1) _ (by omega)
    | some v =>
      simp only [cellText]
      cases hv : value2String F v with
      | panics => rfl
      | returns p =>
        obtain ⟨data, err⟩ := p
        cases err with
        | none => exact ih (ii + 1) _ (by omega)
        | some e => rfl

theorem row2mapStr2AllLoop_eq (F : StdFormat) (slots : List Cell) (keys : List GoString)
    (ii : Nat) (result : GoMap GoString) :
    row2mapStr2AllLoop F slots keys ii result = row2mapStrLoop F slots keys ii result := by
  induction keys generalizing ii result with
  | nil => rfl
  | cons key rest ih =>
    simp only [row2mapStr2AllLoop, row2mapStrLoop]
    cases slots[ii]? with
    | none => rfl
    | some c =>
      cases c with
      | none => exact ih (ii + 1) _
      | some v =>
        simp only []
        cases hv : value2String F v with
        | panics => rfl
        | returns p =>
          obtain ⟨data, err⟩ := p
          cases err with
          | none => exact ih (ii + 1) _
          | some e => rfl

theorem row2sliceStrLoop_eq (F : StdFormat) (slots : List Cell) (left i : Nat)
    (result : List GoString) (hlen : i + left ≤ slots.length) :
    row2sliceStrLoop F slots left i result = appendAll F ((slots.drop i).take left) result := by
  induction left generalizing i result with
  | zero => simp [row2sliceStrLoop, appendAll]
  | succ n ih =>
    obtain ⟨c, hc, hdrop⟩ := drop_eq_cons_of_lt slots i (by omega)
    rw [hdrop]
    simp only [row2sliceStrLoop, hc, List.take_succ_cons, appendAll]
    cases c with
    | none => simp only [cellText]; exact ih (i + 1) _ (by omega)
    | some v =>
      simp only [cellText]
      cases hv : value2String F v with
      | panics => rfl
      | returns p =>
        obtain ⟨data, err⟩ := p
        cases err with
        | none => exact ih (i + 1) _ (by omega)
        | some e => rfl

theorem row2mapInterfaceLoop_eq (slots : List Cell) (keys : List GoString) (ii : Nat)
    (resultsMap : GoMap Cell) (hlen : ii + keys.length ≤ slots.length) :
    row2mapInterfaceLoop slots keys ii resultsMap =
      Outcome.returns (some ((keys.zip (slots.drop ii)).foldl
        (fun m kc => GoMap.set m kc.1 kc.2) resultsMap), none) := by
  induction keys generalizing ii resultsMap with
  | nil => simp [row2mapInterfaceLoop]
  | cons key rest ih =>
    simp only [List.length_cons] at hlen
    obtain ⟨c, hc, hdrop⟩ := drop_eq_cons_of_lt slots ii (by omega)
    rw [hdrop]
    simp only [row2mapInterfaceLoop, hc, List.zip_cons_cons, List.foldl_cons]
    exact ih (ii + 1) _ (by omega)

theorem row2mapStr2SeqLoop_eq (F : StdFormat) (fields : List GoString) (slots : List Cell)
    (seqs : List Int) (result : GoMap GoString) (hlen : slots.length = fields.length)
    (hvalid : ∀ s ∈ seqs, 0 ≤ s ∧ s < (fields.length : Int)) :
    row2mapStr2SeqLoop F fields slots seqs result =
      storeAll F (seqs.map (fun s => (fields.getD s.toNat [], slots.getD s.toNat none)))
        result := by
  induction seqs generalizing result with
  | nil => simp [row2mapStr2SeqLoop, storeAll]
  | cons seq rest ih =>
    have hs := hvalid seq (List.mem_cons_self _ _)
    have hrest : ∀ s ∈ rest, 0 ≤ s ∧ s < (fields.length : Int) :=
      fun s h => hvalid s (List.mem_cons_of_mem _ h)
    have hn : seq.toNat < fields.length := by omega
    have hnot : ¬ (seq < 0 ∨ seq ≥ (fields.length : Int)) := by omega
    have hf : fields[seq.toNat]? = some (fields.getD seq.toNat []) := by
      simp [List.getD, List.getElem?_eq_getElem hn]
    have hsl : slots[seq.toNat]? = some (slots.getD seq.toNat none) := by
      have : seq.toNat < slots.length := by omega
      simp [List.getD, List.getElem?_eq_getElem this]
    simp only [row2mapStr2SeqLoop, hnot, if_false, hf, hsl, List.map_cons, storeAll]
    cases hc : slots.getD seq.toNat none with
    | none => simp only [cellText]; exact ih _ hrest
    | some v =>
      simp only [cellText]
      cases hv : value2String F v with
      | panics => rfl
      | returns p =>
        obtain ⟨data, err⟩ := p
        cases err with
        | none => exact ih _ hrest
        | some e => rfl

theorem rows2StringsLoop_eq (F : StdFormat) (fields : Slice GoString)
    (pending : List RowData) (acc : Slice MapStr) :
    rows2StringsLoop F fields pending acc =
      assembleLoop (fun cur => row2mapStr F cur fields) pending acc := by
  induction pending generalizing acc with
  | nil => rfl
  | cons cur rest ih =>
    simp only [rows2StringsLoop, assembleLoop]
    split <;> simp_all

theorem rows2SliceStringLoop_eq (F : StdFormat) (fields : Slice GoString)
    (pending : List RowData) (acc : Slice (Slice GoString)) :
    rows2SliceStringLoop F fields pending acc =
      assembleLoop (fun cur => row2sliceStr F cur fields) pending acc := by
  induction pending generalizing acc with
  | nil => rfl
  | cons cur rest ih =>
    simp only [rows2SliceStringLoop, assembleLoop]
    split <;> simp_all

theorem rows2InterfacesLoop_eq (fields : Slice GoString)
    (pending : List RowData) (acc : Slice MapIface) :
    rows2InterfacesLoop fields pending acc =
      assembleLoop (fun cur => row2mapInterface cur fields) pending acc := by
  induction pending generalizing acc with
  | nil => rfl
  | cons cur rest ih =>
    simp only [rows2InterfacesLoop, assembleLoop]
    split <;> simp_all

theorem rows2Strings2Loop_eq (F : StdFormat) (fields : Slice GoString)
    (orderedSeqs : Slice Int) (pending : List RowData) (acc : Slice MapStr) :
    rows2Strings2Loop F fields orderedSeqs pending acc =
      assembleLoop (fun cur => row2mapStr2 F cur fields orderedSeqs) pending acc := by
  induction pending generalizing acc with
  | nil => rfl
  | cons cur rest ih =>
    simp only [rows2Strings2Loop, assembleLoop]
    split <;> simp_all

/-! ## Scanning and decoding one row -/

theorem Scan_ok (cur : RowData) (n : Nat) (h : cur.scanErr = none) :
    Scan cur n = (scanned cur n, none) := by
  simp [Scan, scanned, h]

theorem Scan_err (cur : RowData) (n : Nat) (e : GoError) (h : cur.scanErr = some e) :
    Scan cur n = (List.replicate n none, some e) := by
  simp [Scan, h]

theorem scanned_length (cur : RowData) (n : Nat) : (scanned cur n).length = n := by
  simp [scanned]

theorem scanned_getD (cur : RowData) (n i : Nat) (h : i < n) :
    (scanned cur n).getD i none = cur.cells.getD i none := by
  simp [scanned, List.getD, h]

theorem row2mapStr_scanErr (F : StdFormat) (cur : RowData) (fields : Slice GoString)
    (e : GoError) (h : cur.scanErr = some e) :
    row2mapStr F cur fields = (Outcome.returns (none, some e), [Call.Scan (Slice.len fields)]) := by
  simp [row2mapStr, Scan_err cur _ e h]

theorem row2mapStr_eq (F : StdFormat) (cur : RowData) (fields : Slice GoString)
    (h : cur.scanErr = none) :
    row2mapStr F cur fields =
      (storeAll F ((Slice.toList fields).zip (scanned cur (Slice.len fields))) [],
        [Call.Scan (Slice.len fields)]) := by
  simp only [row2mapStr, Scan_ok cur _ h]
  rw [row2mapStrLoop_eq F _ _ 0 [] (by simp [scanned_length, Slice.len])]
  simp

theorem row2sliceStr_scanErr (F : StdFormat) (cur : RowData) (fields : Slice GoString)
    (e : GoError) (h : cur.scanErr = some e) :
    row2sliceStr F cur fields =
      (Outcome.returns (none, some e), [Call.Scan (Slice.len fields)]) := by
  simp [row2sliceStr, Scan_err cur _ e h]

theorem row2sliceStr_eq (F : StdFormat) (cur : RowData) (fields : Slice GoString)
    (h : cur.scanErr = none) :
    row2sliceStr F cur fields =
      (appendAll F (scanned cur (Slice.len fields)) [], [Call.Scan (Slice.len fields)]) := by
  simp only [row2sliceStr, Scan_ok cur _ h]
  rw [row2sliceStrLoop_eq F _ _ 0 [] (by simp [scanned_length])]
  congr 2
  simp only [List.drop_zero]
  exact List.take_of_length_le (by simp [scanned_length])

theorem row2mapInterface_scanErr (cur : RowData) (fields : Slice GoString)
    (e : GoError) (h : cur.scanErr = some e) :
    row2mapInterface cur fields =
      (Outcome.returns (none, some e), [Call.Scan (Slice.len fields)]) := by
  simp [row2mapInterface, Scan_err cur _ e h]

theorem row2mapInterface_eq (cur : RowData) (fields : Slice GoString)
    (h : cur.scanErr = none) :
    row2mapInterface cur fields =
      (Outcome.returns (some (((Slice.toList fields).zip (scanned cur (Slice.len fields))).foldl
          (fun m kc => GoMap.set m kc.1 kc.2) []), none),
        [Call.Scan (Slice.len fields)]) := by
  simp only [row2mapInterface, Scan_ok cur _ h]
  rw [row2mapInterfaceLoop_eq _ _ 0 [] (by simp [scanned_length, Slice.len])]
  simp

theorem row2mapStr2_scanErr (F : StdFormat) (cur : RowData) (fields : Slice GoString)
    (orderedSeqs : Slice Int) (e : GoError) (h : cur.scanErr = some e) :
    row2mapStr2 F cur fields orderedSeqs =
      (Outcome.returns (none, some e), [Call.Scan (Slice.len fields)]) := by
  simp [row2mapStr2, Scan_err cur _ e h]

/-- With a nil or empty selection `row2mapStr2` is `row2mapStr`. -/
theorem row2mapStr2_empty (F : StdFormat) (cur : RowData) (fields : Slice GoString)
    (orderedSeqs : Slice Int) (h : orderedSeqs = none ∨ orderedSeqs = some []) :
    row2mapStr2 F cur fields orderedSeqs = row2mapStr F cur fields := by
  have hsel : ¬ (orderedSeqs ≠ none ∧ Slice.len orderedSeqs > 0) := by
    rcases h with h | h <;> subst h <;> simp [Slice.len, Slice.toList]
  simp only [row2mapStr2, row2mapStr, hsel, if_false, row2mapStr2AllLoop_eq]

/-- With a non-empty selection whose indices are in range, `row2mapStr2` stores the
text of the selected cells, in selection order. -/
theorem row2mapStr2_eq (F : StdFormat) (cur : RowData) (fields : Slice GoString)
    (seqs : List Int) (h : cur.scanErr = none) (hne : seqs ≠ [])
    (hvalid : ∀ s ∈ seqs, 0 ≤ s ∧ s < (Slice.len fields : Int)) :
    row2mapStr2 F cur fields (some seqs) =
      (storeAll F (seqs.map (fun s =>
          ((Slice.toList fields).getD s.toNat [], cur.cells.getD s.toNat none))) [],
        [Call.Scan (Slice.len fields)]) := by
  have hsel : (some seqs : Slice Int) ≠ none ∧ Slice.len (some seqs : Slice Int) > 0 := by
    refine ⟨by simp, ?_⟩
    cases seqs with
    | nil => exact absurd rfl hne
    | cons a l => simp [Slice.len, Slice.toList]
  simp only [row2mapStr2, Scan_ok cur _ h]
  rw [if_pos hsel]
  rw [row2mapStr2SeqLoop_eq F _ _ _ [] (by simp [scanned_length, Slice.len])
    (by simpa [Slice.len] using hvalid)]
  simp only [Slice.toList]
  congr 2
  apply List.map_congr_left
  intro s hs
  have hv := hvalid s hs
  rw [scanned_getD cur _ _ (by omega)]

/-! ## Assembling the rows -/

theorem assembleLoop_ok {α : Type}
    (decode : RowData → Outcome (α × Option GoError) × List Call)
    (pending : List RowData) (acc : Slice α)
    (h : ∀ r ∈ pending, ∃ m, (decode r).1 = Outcome.returns (m, none)) :
    ∃ ms, (assembleLoop decode pending acc).1 = Outcome.returns (Slice.append acc ms, none) ∧
      List.Forall₂ (fun r m => (decode r).1 = Outcome.returns (m, none)) pending ms := by
  induction pending generalizing acc with
  | nil => exact ⟨[], by simp [assembleLoop, Slice.append_nil], List.Forall₂.nil⟩
  | cons cur rest ih =>
    obtain ⟨m, hm⟩ := h cur (List.mem_cons_self _ _)
    obtain ⟨ms, h1, h2⟩ := ih (Slice.append acc [m])
      (fun r hr => h r (List.mem_cons_of_mem _ hr))
    refine ⟨m :: ms, ?_, List.Forall₂.cons hm h2⟩
    cases hd : decode cur with
    | mk o cs =>
      rw [hd] at hm
      simp only at hm
      subst hm
      simp only [assembleLoop, hd]
      rw [h1, Slice.append_append]
      rfl

theorem assembleLoop_congr {α : Type}
    (d1 d2 : RowData → Outcome (α × Option GoError) × List Call)
    (pending : List RowData) (acc : Slice α) (h : ∀ r ∈ pending, d1 r = d2 r) :
    assembleLoop d1 pending acc = assembleLoop d2 pending acc := by
  induction pending generalizing acc with
  | nil => rfl
  | cons cur rest ih =>
    have hcur := h cur (List.mem_cons_self _ _)
    have hrest : ∀ r ∈ rest, d1 r = d2 r := fun r hr => h r (List.mem_cons_of_mem _ hr)
    simp only [assembleLoop, hcur]
    split
    · rfl
    · rfl
    · rw [ih _ hrest]

theorem selectFieldsLoop_invalid (fields : List GoString) (seqs : List Int)
    (fields2 : List GoString) (h : ∃ s ∈ seqs, s < 0 ∨ s ≥ (fields.length : Int)) :
    ∃ s ∈ seqs, (s < 0 ∨ s ≥ (fields.length : Int)) ∧
      selectFieldsLoop fields seqs fields2 =
        Outcome.returns (none, some (GoError.indexOutOfRange s ((fields.length : Int) - 1))) := by
  induction seqs generalizing fields2 with
  | nil => simp at h
  | cons seq rest ih =>
    by_cases hbad : seq < 0 ∨ seq ≥ (fields.length : Int)
    · exact ⟨seq, List.mem_cons_self _ _, hbad, by simp [selectFieldsLoop, hbad]⟩
    · have hrest : ∃ s ∈ rest, s < 0 ∨ s ≥ (fields.length : Int) := by
        obtain ⟨s, hs, hb⟩ := h
        rcases List.mem_cons.mp hs with rfl | hs
        · exact absurd hb hbad
        · exact ⟨s, hs, hb⟩
      have hn : seq.toNat < fields.length := by omega
      obtain ⟨s, hs, hb, heq⟩ := ih (fields2 ++ [fields[seq.toNat]]) hrest
      refine ⟨s, List.mem_cons_of_mem _ hs, hb, ?_⟩
      simp only [selectFieldsLoop, hbad, if_false, List.getElem?_eq_getElem hn]
      exact heq

theorem selectFieldsLoop_valid (fields : List GoString) (seqs : List Int)
    (fields2 : List GoString) (h : ∀ s ∈ seqs, 0 ≤ s ∧ s < (fields.length : Int)) :
    selectFieldsLoop fields seqs fields2 =
      Outcome.returns (some (fields2 ++ seqs.map (fun s => fields.getD s.toNat [])), none) := by
  induction seqs generalizing fields2 with
  | nil => simp [selectFieldsLoop]
  | cons seq rest ih =>
    have hs := h seq (List.mem_cons_self _ _)
    have hnot : ¬ (seq < 0 ∨ seq ≥ (fields.length : Int)) := by omega
    have hn : seq.toNat < fields.length := by omega
    simp only [selectFieldsLoop, hnot, if_false, List.getElem?_eq_getElem hn]
    rw [ih _ (fun s hs => h s (List.mem_cons_of_mem _ hs))]
    simp [List.getD, List.getElem?_eq_getElem hn]

/-- With Columns succeeding, a selection in range and every row decoding,
`rows2Strings2` returns the decoded rows in cursor order and the effective columns. -/
theorem rows2Strings2_ok (F : StdFormat) (rows : Rows) (orderedSeqs : Slice Int)
    (hcols : rows.columnsErr = none)
    (hvalid : ∀ s ∈ Slice.toList orderedSeqs, 0 ≤ s ∧ s < (Slice.len rows.columns : Int))
    (hrows : ∀ r ∈ rows.pending,
      ∃ m, (row2mapStr2 F r rows.columns orderedSeqs).1 = Outcome.returns (m, none)) :
    ∃ ms, (rows2Strings2 F rows orderedSeqs).1 =
        Outcome.returns (ms, effectiveColumns rows.columns orderedSeqs, none) ∧
      List.Forall₂
        (fun r m => (row2mapStr2 F r rows.columns orderedSeqs).1 = Outcome.returns (m, none))
        rows.pending (Slice.toList ms) := by
  obtain ⟨ms, h1, h2⟩ := assembleLoop_ok
    (fun cur => row2mapStr2 F cur rows.columns orderedSeqs) rows.pending none hrows
  refine ⟨Slice.append none ms, ?_, ?_⟩
  swap
  · rw [Slice.toList_append]
    exact h2
  cases hl : assembleLoop (fun cur => row2mapStr2 F cur rows.columns orderedSeqs)
      rows.pending none with
  | mk o cs =>
    rw [hl] at h1
    simp only at h1
    subst h1
    simp only [rows2Strings2, hcols, rows2Strings2Loop_eq, hl, effectiveColumns]
    by_cases hsel : orderedSeqs ≠ none ∧ Slice.len orderedSeqs > 0
    · simp only [hsel, and_self, if_true, ne_eq, not_false_eq_true]
      rw [selectFieldsLoop_valid _ _ _ (by simpa [Slice.len] using hvalid)]
      simp
    · simp only [hsel, if_false]

/-- C1: a selection holding an index below 0 or not below the number of columns makes
`rows2Strings2` return nil rows, nil effective columns and a non-nil error, and the
only cursor call made is `Columns()`: no `Next`, no `Scan`.  When `Columns()` itself
succeeded the error is the index error of the first offending index. -/
theorem rows2Strings2_invalid_selection (F : StdFormat) (rows : Rows)
    (orderedSeqs : Slice Int)
    (hbad : ∃ s ∈ Slice.toList orderedSeqs, s < 0 ∨ s ≥ (Slice.len rows.columns : Int)) :
    ∃ e, rows2Strings2 F rows orderedSeqs =
        (Outcome.returns (none, none, some e), [Call.Columns]) ∧
      (rows.columnsErr = none →
        ∃ s ∈ Slice.toList orderedSeqs, (s < 0 ∨ s ≥ (Slice.len rows.columns : Int)) ∧
          e = GoError.indexOutOfRange s ((Slice.len rows.columns : Int) - 1)) := by
  cases hc : rows.columnsErr with
  | some err => exact ⟨err, by simp [rows2Strings2, hc], by simp⟩
  | none =>
    have hsel : orderedSeqs ≠ none ∧ Slice.len orderedSeqs > 0 := by
      obtain ⟨s, hs, _⟩ := hbad
      cases orderedSeqs with
      | none => simp [Slice.toList] at hs
      | some l =>
        refine ⟨by simp, ?_⟩
        simp only [Slice.toList] at hs
        simp only [Slice.len, Slice.toList]
        exact List.length_pos_of_mem hs
    obtain ⟨s, hs, hb, heq⟩ := selectFieldsLoop_invalid (Slice.toList rows.columns)
      (Slice.toList orderedSeqs) [] (by simpa [Slice.len] using hbad)
    refine ⟨GoError.indexOutOfRange s ((Slice.len rows.columns : Int) - 1), ?_,
      fun _ => ⟨s, hs, by simpa [Slice.len] using hb, rfl⟩⟩
    simp only [rows2Strings2, hc]
    rw [if_pos hsel, heq]
    rfl

/-- Witness of C1: selection `[2, 5]` against the three columns `a, b, c`. -/
theorem rows2Strings2_invalid_selection_witness :
    ∃ e, rows2Strings2 exampleFormat exampleRows (some [2, 5]) =
        (Outcome.returns (none, none, some e), [Call.Columns]) ∧
      (exampleRows.columnsErr = none →
        ∃ s ∈ Slice.toList (some [2, 5] : Slice Int),
          (s < 0 ∨ s ≥ (Slice.len exampleRows.columns : Int)) ∧
          e = GoError.indexOutOfRange s ((Slice.len exampleRows.columns : Int) - 1)) :=
  rows2Strings2_invalid_selection exampleFormat exampleRows (some [2, 5])
    ⟨5, by simp [Slice.toList], by simp [Slice.len, Slice.toList, exampleRows]⟩

theorem assembleLoop_error_rows {α : Type}
    (decode : RowData → Outcome (α × Option GoError) × List Call)
    (pending : List RowData) (acc rs : Slice α) (e : GoError)
    (h : (assembleLoop decode pending acc).1 = Outcome.returns (rs, some e)) : rs = none := by
  induction pending generalizing acc with
  | nil => simp [assembleLoop] at h
  | cons cur rest ih =>
    simp only [assembleLoop] at h
    split at h
    · simp at h
    · simp only [Outcome.returns.injEq, Prod.mk.injEq] at h
      exact h.1.symm
    · exact ih _ h

/-- C3, as the code has it: with a nil or empty selection `rows2Strings2` makes the same
cursor calls as `rows2Strings`, panics exactly when it does, and returns the same rows
and the same error; its effective columns are the full column list of the cursor when
the error is nil, and nil when an error is returned. -/
theorem rows2Strings2_empty_selection (F : StdFormat) (rows : Rows)
    (orderedSeqs : Slice Int) (h : orderedSeqs = none ∨ orderedSeqs = some []) :
    (rows2Strings2 F rows orderedSeqs).2 = (rows2Strings F rows).2 ∧
      match (rows2Strings2 F rows orderedSeqs).1, (rows2Strings F rows).1 with
      | Outcome.returns (rs2, fields2, e2), Outcome.returns (rs, e) =>
        rs2 = rs ∧ e2 = e ∧ fields2 = (if e = none then rows.columns else none)
      | Outcome.panics, Outcome.panics => True
      | _, _ => False := by
  have hsel : ¬ (orderedSeqs ≠ none ∧ Slice.len orderedSeqs > 0) := by
    rcases h with h | h <;> subst h <;> simp [Slice.len, Slice.toList]
  cases hc : rows.columnsErr with
  | some err => simp [rows2Strings2, rows2Strings, hc]
  | none =>
    have hloop : rows2Strings2Loop F rows.columns orderedSeqs rows.pending none =
        rows2StringsLoop F rows.columns rows.pending none := by
      rw [rows2Strings2Loop_eq, rows2StringsLoop_eq]
      exact assembleLoop_congr _ _ _ _ (fun r _ => row2mapStr2_empty F r rows.columns _ h)
    simp only [rows2Strings2, rows2Strings, hc, hsel, if_false, hloop]
    cases hl : rows2StringsLoop F rows.columns rows.pending none with
    | mk o cs =>
      cases o with
      | panics => simp
      | returns p =>
        obtain ⟨rs, e⟩ := p
        cases e with
        | none => simp
        | some e =>
          have hrs : rs = none := by
            rw [rows2StringsLoop_eq] at hl
            exact assembleLoop_error_rows _ rows.pending none rs e (by rw [hl])
          simp [hrs]

/-- Witness of C3 on the two-row result set with columns `a, b, c` and a nil selection. -/
theorem rows2Strings2_empty_selection_witness :
    (rows2Strings2 exampleFormat exampleRows none).2 = (rows2Strings exampleFormat exampleRows).2 ∧
      match (rows2Strings2 exampleFormat exampleRows none).1,
        (rows2Strings exampleFormat exampleRows).1 with
      | Outcome.returns (rs2, fields2, e2), Outcome.returns (rs, e) =>
        rs2 = rs ∧ e2 = e ∧ fields2 = (if e = none then exampleRows.columns else none)
      | Outcome.panics, Outcome.panics => True
      | _, _ => False :=
  rows2Strings2_empty_selection exampleFormat exampleRows none (Or.inl rfl)

/-- Counterexample to C3 as stated: on a result set with column `a` whose only row fails
to scan, `rows2Strings2` with a nil selection returns nil effective columns, not the
column list `[a]` of the cursor. -/
theorem rows2Strings2_empty_selection_error_columns :
    rows2Strings2 exampleFormat scanFailRows none =
        (Outcome.returns (none, none, some (GoError.external 1)),
          [Call.Columns, Call.Next, Call.Scan 1]) ∧
      scanFailRows.columns = some [[97]] ∧
      scanFailRows.columnsErr = none :=
  ⟨rfl, rfl, rfl⟩

/-- C5: when `Columns()` succeeds and every row of the cursor decodes without error,
each assembler returns a nil error and one decoded row per cursor row, in cursor
order: the `k`-th returned row is the decoding of the `k`-th row (for `rows2Strings2`
with a selection whose indices are in range). -/
theorem rows_in_cursor_order (F : StdFormat) (rows : Rows) (hcols : rows.columnsErr = none) :
    ((∀ r ∈ rows.pending, ∃ m, (row2mapStr F r rows.columns).1 = Outcome.returns (m, none)) →
      ∃ ms, (rows2Strings F rows).1 = Outcome.returns (ms, none) ∧
        Slice.len ms = rows.pending.length ∧
        List.Forall₂ (fun r m => (row2mapStr F r rows.columns).1 = Outcome.returns (m, none))
          rows.pending (Slice.toList ms)) ∧
    ((∀ r ∈ rows.pending, ∃ m, (row2sliceStr F r rows.columns).1 = Outcome.returns (m, none)) →
      ∃ ms, (rows2SliceString F rows).1 = Outcome.returns (ms, none) ∧
        Slice.len ms = rows.pending.length ∧
        List.Forall₂ (fun r m => (row2sliceStr F r rows.columns).1 = Outcome.returns (m, none))
          rows.pending (Slice.toList ms)) ∧
    ((∀ r ∈ rows.pending, ∃ m, (row2mapInterface r rows.columns).1 = Outcome.returns (m, none)) →
      ∃ ms, (rows2Interfaces rows).1 = Outcome.returns (ms, none) ∧
        Slice.len ms = rows.pending.length ∧
        List.Forall₂ (fun r m => (row2mapInterface r rows.columns).1 = Outcome.returns (m, none))
          rows.pending (Slice.toList ms)) ∧
    (∀ orderedSeqs : Slice Int,
      (∀ s ∈ Slice.toList orderedSeqs, 0 ≤ s ∧ s < (Slice.len rows.columns : Int)) →
      (∀ r ∈ rows.pending,
        ∃ m, (row2mapStr2 F r rows.columns orderedSeqs).1 = Outcome.returns (m, none)) →
      ∃ ms fields2, (rows2Strings2 F rows orderedSeqs).1 = Outcome.returns (ms, fields2, none) ∧
        Slice.len ms = rows.pending.length ∧
        List.Forall₂
          (fun r m => (row2mapStr2 F r rows.columns orderedSeqs).1 = Outcome.returns (m, none))
          rows.pending (Slice.toList ms)) := by
  refine ⟨?_, ?_, ?_, ?_⟩
  · intro hrows
    obtain ⟨ms, h1, h2⟩ := assembleLoop_ok (fun cur => row2mapStr F cur rows.columns)
      rows.pending none hrows
    have h3 : List.Forall₂ (fun r m => (row2mapStr F r rows.columns).1 = Outcome.returns (m, none))
        rows.pending (Slice.toList (Slice.append none ms)) := by
      rw [Slice.toList_append]; exact h2
    refine ⟨Slice.append none ms, ?_, h3.length_eq.symm, h3⟩
    simp only [rows2Strings, hcols, rows2StringsLoop_eq]
    exact h1
  · intro hrows
    obtain ⟨ms, h1, h2⟩ := assembleLoop_ok (fun cur => row2sliceStr F cur rows.columns)
      rows.pending none hrows
    have h3 : List.Forall₂
        (fun r m => (row2sliceStr F r rows.columns).1 = Outcome.returns (m, none))
        rows.pending (Slice.toList (Slice.append none ms)) := by
      rw [Slice.toList_append]; exact h2
    refine ⟨Slice.append none ms, ?_, h3.length_eq.symm, h3⟩
    simp only [rows2SliceString, hcols, rows2SliceStringLoop_eq]
    exact h1
  · intro hrows
    obtain ⟨ms, h1, h2⟩ := assembleLoop_ok (fun cur => row2mapInterface cur rows.columns)
      rows.pending none hrows
    have h3 : List.Forall₂
        (fun r m => (row2mapInterface r rows.columns).1 = Outcome.returns (m, none))
        rows.pending (Slice.toList (Slice.append none ms)) := by
      rw [Slice.toList_append]; exact h2
    refine ⟨Slice.append none ms, ?_, h3.length_eq.symm, h3⟩
    simp only [rows2Interfaces, hcols, rows2InterfacesLoop_eq]
    exact h1
  · intro orderedSeqs hvalid hrows
    obtain ⟨ms, h1, h2⟩ := rows2Strings2_ok F rows orderedSeqs hcols hvalid hrows
    exact ⟨ms, _, h1, h2.length_eq.symm, h2⟩

/-- Witness of C5 on the two-row result set with columns `a, b, c`, for the four
assemblers, `rows2Strings2` with the selection `[2, 0]`. -/
theorem rows_in_cursor_order_witness :
    (∃ ms, (rows2Strings exampleFormat exampleRows).1 = Outcome.returns (ms, none) ∧
        Slice.len ms = exampleRows.pending.length ∧
        List.Forall₂
          (fun r m => (row2mapStr exampleFormat r exampleRows.columns).1 =
            Outcome.returns (m, none))
          exampleRows.pending (Slice.toList ms)) ∧
    (∃ ms, (rows2SliceString exampleFormat exampleRows).1 = Outcome.returns (ms, none) ∧
        Slice.len ms = exampleRows.pending.length ∧
        List.Forall₂
          (fun r m => (row2sliceStr exampleFormat r exampleRows.columns).1 =
            Outcome.returns (m, none))
          exampleRows.pending (Slice.toList ms)) ∧
    (∃ ms, (rows2Interfaces exampleRows).1 = Outcome.returns (ms, none) ∧
        Slice.len ms = exampleRows.pending.length ∧
        List.Forall₂
          (fun r m => (row2mapInterface r exampleRows.columns).1 = Outcome.returns (m, none))
          exampleRows.pending (Slice.toList ms)) ∧
    (∃ ms fields2, (rows2Strings2 exampleFormat exampleRows (some [2, 0])).1 =
          Outcome.returns (ms, fields2, none) ∧
        Slice.len ms = exampleRows.pending.length ∧
        List.Forall₂
          (fun r m => (row2mapStr2 exampleFormat r exampleRows.columns (some [2, 0])).1 =
            Outcome.returns (m, none))
          exampleRows.pending (Slice.toList ms)) :=
  ⟨(rows_in_cursor_order exampleFormat exampleRows rfl).1 (by
      intro r hr
      simp only [exampleRows, List.mem_cons, List.mem_singleton, List.not_mem_nil,
        or_false] at hr
      rcases hr with rfl | rfl <;> exact ⟨_, rfl⟩),
    (rows_in_cursor_order exampleFormat exampleRows rfl).2.1 (by
      intro r hr
      simp only [exampleRows, List.mem_cons, List.mem_singleton, List.not_mem_nil,
        or_false] at hr
      rcases hr with rfl | rfl <;> exact ⟨_, rfl⟩),
    (rows_in_cursor_order exampleFormat exampleRows rfl).2.2.1 (by
      intro r hr
      simp only [exampleRows, List.mem_cons, List.mem_singleton, List.not_mem_nil,
        or_false] at hr
      rcases hr with rfl | rfl <;> exact ⟨_, rfl⟩),
    (rows_in_cursor_order exampleFormat exampleRows rfl).2.2.2 (some [2, 0]) (by
      intro s hs
      simp only [Slice.toList, List.mem_cons, List.mem_singleton, List.not_mem_nil,
        or_false] at hs
      rcases hs with rfl | rfl <;> simp [Slice.len, Slice.toList, exampleRows]) (by
      intro r hr
      simp only [exampleRows, List.mem_cons, List.mem_singleton, List.not_mem_nil,
        or_false] at hr
      rcases hr with rfl | rfl <;> exact ⟨_, rfl⟩)⟩

/-! ## Stored texts -/

theorem storeAll_ok (F : StdFormat) (kcs : List (GoString × Cell)) (m : GoMap GoString)
    (h : ∀ kc ∈ kcs, ∃ t, cellText F kc.2 = Outcome.returns (t, none)) :
    ∃ gm, storeAll F kcs m = Outcome.returns (some gm, none) ∧
      (∀ k, k ∈ GoMap.keys gm ↔ k ∈ GoMap.keys m ∨ k ∈ kcs.map Prod.fst) ∧
      (∀ k, k ∉ kcs.map Prod.fst → GoMap.get? gm k = GoMap.get? m k) ∧
      (∀ k t, k ∈ kcs.map Prod.fst →
        (∀ kc ∈ kcs, kc.1 = k → cellText F kc.2 = Outcome.returns (t, none)) →
        GoMap.get? gm k = some t) := by
  induction kcs generalizing m with
  | nil => exact ⟨m, rfl, by simp, by simp, by simp⟩
  | cons kc rest ih =>
    obtain ⟨key, cell⟩ := kc
    obtain ⟨t0, ht0⟩ := h (key, cell) (List.mem_cons_self _ _)
    obtain ⟨gm, h1, h2, h3, h4⟩ := ih (GoMap.set m key t0)
      (fun kc hkc => h kc (List.mem_cons_of_mem _ hkc))
    refine ⟨gm, ?_, ?_, ?_, ?_⟩
    · simp only [storeAll] at ht0 ⊢
      rw [ht0]
      exact h1
    · intro k
      rw [h2 k, GoMap.mem_keys_set]
      simp only [List.map_cons, List.mem_cons]
      tauto
    · intro k hk
      simp only [List.map_cons, List.mem_cons, not_or] at hk
      rw [h3 k hk.2, GoMap.get?_set_other _ _ _ _ hk.1]
    · intro k t hk hcons
      by_cases hr : k ∈ rest.map Prod.fst
      · exact h4 k t hr (fun kc hkc => hcons kc (List.mem_cons_of_mem _ hkc))
      · simp only [List.map_cons, List.mem_cons] at hk
        have hkey : k = key := by tauto
        subst hkey
        have := hcons (k, cell) (List.mem_cons_self _ _) rfl
        rw [ht0] at this
        simp only [Outcome.returns.injEq, Prod.mk.injEq, and_true] at this
        rw [h3 k hr, GoMap.get?_set_same, this]

theorem forall₂_imp_of_mem {α β : Type} {R S : α → β → Prop} {l1 : List α} {l2 : List β}
    (h : List.Forall₂ R l1 l2) (himp : ∀ a ∈ l1, ∀ b, R a b → S a b) :
    List.Forall₂ S l1 l2 := by
  induction h with
  | nil => exact List.Forall₂.nil
  | cons hab _ ih =>
    exact List.Forall₂.cons (himp _ (List.mem_cons_self _ _) _ hab)
      (ih (fun a ha b hr => himp a (List.mem_cons_of_mem _ ha) b hr))

theorem getD_inj_of_nodup (fields : List GoString) (hnodup : fields.Nodup) (s1 s2 : Int)
    (h1 : 0 ≤ s1 ∧ s1 < (fields.length : Int)) (h2 : 0 ≤ s2 ∧ s2 < (fields.length : Int))
    (heq : fields.getD s1.toNat [] = fields.getD s2.toNat []) : s1 = s2 := by
  have hn1 : s1.toNat < fields.length := by omega
  have hn2 : s2.toNat < fields.length := by omega
  rw [List.getD_eq_getElem _ _ hn1, List.getD_eq_getElem _ _ hn2] at heq
  have := (List.Nodup.getElem_inj_iff hnodup).mp heq
  omega

/-- C2, as the code has it: when `Columns()` yields pairwise distinct names, the
selection is non-empty with every index in range, and every row scans and has its
selected cells convert to text, `rows2Strings2` returns a nil error, the effective
columns `[fields[s] for s in orderedSeqs]` in that order, and one map per row in
cursor order whose keys are exactly the selected names and which holds under
`fields[s]` the converted text of the cell at index `s`. -/
theorem rows2Strings2_selection (F : StdFormat) (rows : Rows) (seqs : List Int)
    (hcols : rows.columnsErr = none)
    (hnodup : (Slice.toList rows.columns).Nodup)
    (hne : seqs ≠ [])
    (hvalid : ∀ s ∈ seqs, 0 ≤ s ∧ s < (Slice.len rows.columns : Int))
    (hrows : ∀ r ∈ rows.pending, r.scanErr = none ∧
      ∀ s ∈ seqs, ∃ t, cellText F (r.cells.getD s.toNat none) = Outcome.returns (t, none)) :
    ∃ ms, (rows2Strings2 F rows (some seqs)).1 =
        Outcome.returns (ms,
          some (seqs.map (fun s => (Slice.toList rows.columns).getD s.toNat [])), none) ∧
      List.Forall₂
        (fun r m => ∃ gm, m = some gm ∧
          (∀ k, k ∈ GoMap.keys gm ↔
            k ∈ seqs.map (fun s => (Slice.toList rows.columns).getD s.toNat [])) ∧
          (∀ s ∈ seqs, ∃ t,
            cellText F (r.cells.getD s.toNat none) = Outcome.returns (t, none) ∧
            GoMap.get? gm ((Slice.toList rows.columns).getD s.toNat []) = some t))
        rows.pending (Slice.toList ms) := by
  have hrow : ∀ r ∈ rows.pending, ∀ m,
      (row2mapStr2 F r rows.columns (some seqs)).1 = Outcome.returns (m, none) →
      ∃ gm, m = some gm ∧
        (∀ k, k ∈ GoMap.keys gm ↔
          k ∈ seqs.map (fun s => (Slice.toList rows.columns).getD s.toNat [])) ∧
        (∀ s ∈ seqs, ∃ t,
          cellText F (r.cells.getD s.toNat none) = Outcome.returns (t, none) ∧
          GoMap.get? gm ((Slice.toList rows.columns).getD s.toNat []) = some t) := by
    intro r hr m hm
    obtain ⟨hscan, hcells⟩ := hrows r hr
    rw [row2mapStr2_eq F r rows.columns seqs hscan hne hvalid] at hm
    simp only at hm
    obtain ⟨gm, h1, h2, _, h4⟩ := storeAll_ok F
      (seqs.map (fun s =>
        ((Slice.toList rows.columns).getD s.toNat [], r.cells.getD s.toNat none))) []
      (by
        intro kc hkc
        obtain ⟨s, hs, rfl⟩ := List.mem_map.mp hkc
        exact hcells s hs)
    rw [h1] at hm
    simp only [Outcome.returns.injEq, Prod.mk.injEq, and_true] at hm
    refine ⟨gm, hm.symm, ?_, ?_⟩
    · intro k
      rw [h2 k]
      simp [GoMap.keys, List.map_map, Function.comp_def]
    · intro s hs
      obtain ⟨t, ht⟩ := hcells s hs
      refine ⟨t, ht, h4 _ t ?_ ?_⟩
      · simp only [List.map_map, Function.comp_def, List.mem_map]
        exact ⟨s, hs, rfl⟩
      · intro kc hkc hkey
        obtain ⟨s2, hs2, rfl⟩ := List.mem_map.mp hkc
        simp only at hkey
        have := getD_inj_of_nodup _ hnodup s2 s
          (by simpa [Slice.len] using hvalid s2 hs2) (by simpa [Slice.len] using hvalid s hs) hkey
        subst this
        exact ht
  have hdec : ∀ r ∈ rows.pending,
      ∃ m, (row2mapStr2 F r rows.columns (some seqs)).1 = Outcome.returns (m, none) := by
    intro r hr
    obtain ⟨hscan, hcells⟩ := hrows r hr
    rw [row2mapStr2_eq F r rows.columns seqs hscan hne hvalid]
    obtain ⟨gm, h1, _⟩ := storeAll_ok F
      (seqs.map (fun s =>
        ((Slice.toList rows.columns).getD s.toNat [], r.cells.getD s.toNat none))) []
      (by
        intro kc hkc
        obtain ⟨s, hs, rfl⟩ := List.mem_map.mp hkc
        exact hcells s hs)
    exact ⟨some gm, h1⟩
  obtain ⟨ms, h1, h2⟩ := rows2Strings2_ok F rows (some seqs) hcols
    (by simpa [Slice.toList] using hvalid) hdec
  refine ⟨ms, ?_, forall₂_imp_of_mem h2 hrow⟩
  rw [h1]
  have hsel : (some seqs : Slice Int) ≠ none ∧ Slice.len (some seqs : Slice Int) > 0 := by
    refine ⟨by simp, ?_⟩
    cases seqs with
    | nil => exact absurd rfl hne
    | cons a l => simp [Slice.len, Slice.toList]
  simp only [effectiveColumns]
  rw [if_pos hsel]
  rfl

/-- Witness of C2: the selection `[2, 0]` over the columns `a, b, c` gives the
effective columns `[c, a]` and rows keyed by `c` and `a`. -/
theorem rows2Strings2_selection_witness :
    ∃ ms, (rows2Strings2 exampleFormat exampleRows (some [2, 0])).1 =
        Outcome.returns (ms, some [[99], [97]], none) ∧
      List.Forall₂
        (fun r m => ∃ gm, m = some gm ∧
          (∀ k, k ∈ GoMap.keys gm ↔ k ∈ [[99], [97]]) ∧
          (∀ s ∈ ([2, 0] : List Int), ∃ t,
            cellText exampleFormat (r.cells.getD s.toNat none) = Outcome.returns (t, none) ∧
            GoMap.get? gm ((Slice.toList exampleRows.columns).getD s.toNat []) = some t))
        exampleRows.pending (Slice.toList ms) :=
  rows2Strings2_selection exampleFormat exampleRows [2, 0] rfl
    (by simp [exampleRows, Slice.toList])
    (by simp)
    (by
      intro s hs
      simp only [List.mem_cons, List.mem_singleton, List.not_mem_nil, or_false] at hs
      rcases hs with rfl | rfl <;> simp [Slice.len, Slice.toList, exampleRows])
    (by
      intro r hr
      simp only [exampleRows, List.mem_cons, List.mem_singleton, List.not_mem_nil,
        or_false] at hr
      rcases hr with rfl | rfl
      · refine ⟨rfl, ?_⟩
        intro s hs
        simp only [List.mem_cons, List.mem_singleton, List.not_mem_nil, or_false] at hs
        rcases hs with rfl | rfl <;> exact ⟨_, rfl⟩
      · refine ⟨rfl, ?_⟩
        intro s hs
        simp only [List.mem_cons, List.mem_singleton, List.not_mem_nil, or_false] at hs
        rcases hs with rfl | rfl <;> exact ⟨_, rfl⟩)

/-- Counterexample to C2 as stated: the column list `[a]` is duplicate-free and the
selection `[0]` is non-empty and in range, yet `rows2Strings2` does not succeed on the
result set whose row holds a map in that column: it returns nil rows, nil effective
columns and the unsupported-type error. -/
theorem rows2Strings2_selection_unsupported_cell :
    (Slice.toList mapCellRows.columns).Nodup ∧
      (∀ s ∈ ([0] : List Int), 0 ≤ s ∧ s < (Slice.len mapCellRows.columns : Int)) ∧
      rows2Strings2 exampleFormat mapCellRows (some [0]) =
        (Outcome.returns (none, none, some (GoError.unsupportedType [])),
          [Call.Columns, Call.Next, Call.Scan 1]) :=
  ⟨by simp [mapCellRows, Slice.toList],
    by simp [mapCellRows, Slice.len, Slice.toList], rfl⟩

/-! ## How a row decoder can end -/

theorem cellText_error (F : StdFormat) (c : Cell) (t : GoString) (e : GoError)
    (h : cellText F c = Outcome.returns (t, some e)) :
    ∃ v, c = some v ∧ value2String F v = Outcome.returns (t, some e) := by
  cases c with
  | none => simp [cellText] at h
  | some v => exact ⟨v, rfl, h⟩

theorem storeAll_error (F : StdFormat) (kcs : List (GoString × Cell)) (m : GoMap GoString)
    (x : MapStr) (e : GoError) (h : storeAll F kcs m = Outcome.returns (x, some e)) :
    x = none ∧ ∃ kc ∈ kcs, ∃ v t, kc.2 = some v ∧
      value2String F v = Outcome.returns (t, some e) := by
  induction kcs generalizing m with
  | nil => simp [storeAll] at h
  | cons kc rest ih =>
    obtain ⟨key, cell⟩ := kc
    simp only [storeAll] at h
    cases hc : cellText F cell with
    | panics => rw [hc] at h; simp at h
    | returns p =>
      obtain ⟨data, err⟩ := p
      rw [hc] at h
      cases err with
      | none =>
        obtain ⟨h1, kc, hkc, hrest⟩ := ih _ h
        exact ⟨h1, kc, List.mem_cons_of_mem _ hkc, hrest⟩
      | some e2 =>
        simp only [Outcome.returns.injEq, Prod.mk.injEq, Option.some.injEq] at h
        obtain ⟨v, hv, hval⟩ := cellText_error F cell data e2 hc
        refine ⟨h.1.symm, (key, cell), List.mem_cons_self _ _, v, data, hv, ?_⟩
        rw [hval, h.2]

theorem storeAll_returns (F : StdFormat) (kcs : List (GoString × Cell)) (m : GoMap GoString)
    (x : MapStr) (h : storeAll F kcs m = Outcome.returns (x, none)) :
    ∀ kc ∈ kcs, ∃ t, cellText F kc.2 = Outcome.returns (t, none) := by
  induction kcs generalizing m with
  | nil => simp
  | cons kc rest ih =>
    obtain ⟨key, cell⟩ := kc
    simp only [storeAll] at h
    cases hc : cellText F cell with
    | panics => rw [hc] at h; simp at h
    | returns p =>
      obtain ⟨data, err⟩ := p
      rw [hc] at h
      cases err with
      | none =>
        intro kc hkc
        rcases List.mem_cons.mp hkc with rfl | hkc
        · exact ⟨data, hc⟩
        · exact ih _ h kc hkc
      | some e2 => simp at h

theorem appendAll_error (F : StdFormat) (cells : List Cell) (acc : List GoString)
    (x : Slice GoString) (e : GoError) (h : appendAll F cells acc = Outcome.returns (x, some e)) :
    x = none ∧ ∃ c ∈ cells, ∃ v t, c = some v ∧
      value2String F v = Outcome.returns (t, some e) := by
  induction cells generalizing acc with
  | nil => simp [appendAll] at h
  | cons cell rest ih =>
    simp only [appendAll] at h
    cases hc : cellText F cell with
    | panics => rw [hc] at h; simp at h
    | returns p =>
      obtain ⟨data, err⟩ := p
      rw [hc] at h
      cases err with
      | none =>
        obtain ⟨h1, c, hcm, hrest⟩ := ih _ h
        exact ⟨h1, c, List.mem_cons_of_mem _ hcm, hrest⟩
      | some e2 =>
        simp only [Outcome.returns.injEq, Prod.mk.injEq, Option.some.injEq] at h
        obtain ⟨v, hv, hval⟩ := cellText_error F cell data e2 hc
        refine ⟨h.1.symm, cell, List.mem_cons_self _ _, v, data, hv, ?_⟩
        rw [hval, h.2]

theorem appendAll_returns (F : StdFormat) (cells : List Cell) (acc : List GoString)
    (x : Slice GoString) (h : appendAll F cells acc = Outcome.returns (x, none)) :
    ∃ texts, x = some (acc ++ texts) ∧
      List.Forall₂ (fun c t => cellText F c = Outcome.returns (t, none)) cells texts := by
  induction cells generalizing acc with
  | nil =>
    simp only [appendAll, Outcome.returns.injEq, Prod.mk.injEq, and_true] at h
    exact ⟨[], by simp [h.symm], List.Forall₂.nil⟩
  | cons cell rest ih =>
    simp only [appendAll] at h
    cases hc : cellText F cell with
    | panics => rw [hc] at h; simp at h
    | returns p =>
      obtain ⟨data, err⟩ := p
      rw [hc] at h
      cases err with
      | none =>
        obtain ⟨texts, h1, h2⟩ := ih _ h
        exact ⟨data :: texts, by simp [h1], List.Forall₂.cons hc h2⟩
      | some e2 => simp at h

theorem foldl_set_get? {β : Type} (kcs : List (GoString × β)) (m : GoMap β) :
    (∀ k, k ∉ kcs.map Prod.fst →
      GoMap.get? (kcs.foldl (fun m kc => GoMap.set m kc.1 kc.2) m) k = GoMap.get? m k) ∧
    (∀ k v, k ∈ kcs.map Prod.fst → (∀ kc ∈ kcs, kc.1 = k → kc.2 = v) →
      GoMap.get? (kcs.foldl (fun m kc => GoMap.set m kc.1 kc.2) m) k = some v) := by
  induction kcs generalizing m with
  | nil => simp
  | cons kc rest ih =>
    obtain ⟨h3, h4⟩ := ih (GoMap.set m kc.1 kc.2)
    refine ⟨?_, ?_⟩
    · intro k hk
      simp only [List.map_cons, List.mem_cons, not_or] at hk
      rw [List.foldl_cons, h3 k hk.2, GoMap.get?_set_other _ _ _ _ hk.1]
    · intro k v hk hcons
      rw [List.foldl_cons]
      by_cases hr : k ∈ rest.map Prod.fst
      · exact h4 k v hr (fun kc hkc => hcons kc (List.mem_cons_of_mem _ hkc))
      · simp only [List.map_cons, List.mem_cons] at hk
        have hkey : k = kc.1 := by tauto
        have hv := hcons kc (List.mem_cons_self _ _) hkey.symm
        rw [h3 k hr, hkey, GoMap.get?_set_same, hv]

theorem zip_key_unique {β : Type} (fields : List GoString) (slots : List β)
    (hnodup : fields.Nodup) (i : Nat) (hi : i < fields.length) (hs : i < slots.length) :
    fields[i] ∈ (fields.zip slots).map Prod.fst ∧
      ∀ kc ∈ fields.zip slots, kc.1 = fields[i] → kc.2 = slots[i] := by
  refine ⟨?_, ?_⟩
  · refine List.mem_map.mpr ⟨(fields[i], slots[i]), ?_, rfl⟩
    refine List.mem_iff_getElem.mpr ⟨i, by simp; omega, ?_⟩
    simp
  · intro kc hkc hkey
    obtain ⟨j, hj, hjeq⟩ := List.mem_iff_getElem.mp hkc
    have hj2 : j < fields.length ∧ j < slots.length := by
      simp only [List.length_zip, lt_min_iff] at hj
      exact hj
    have hz : (fields.zip slots)[j] = (fields[j], slots[j]) := by simp
    rw [hz] at hjeq
    subst hjeq
    simp only at hkey
    have hji : j = i := (List.Nodup.getElem_inj_iff hnodup).mp hkey
    subst hji
    rfl

theorem mem_scanned (cur : RowData) (n : Nat) (c : Cell) (h : c ∈ scanned cur n) :
    ∃ j, j < n ∧ c = cur.cells.getD j none := by
  simp only [scanned, List.mem_map, List.mem_range] at h
  obtain ⟨j, hj, hc⟩ := h
  exact ⟨j, hj, hc.symm⟩

theorem row2mapStr2SeqLoop_returns_valid (F : StdFormat) (fields : List GoString)
    (slots : List Cell) (seqs : List Int) (result : GoMap GoString) (x : MapStr)
    (h : row2mapStr2SeqLoop F fields slots seqs result = Outcome.returns (x, none)) :
    ∀ s ∈ seqs, 0 ≤ s ∧ s < (fields.length : Int) := by
  induction seqs generalizing result with
  | nil => simp
  | cons seq rest ih =>
    by_cases hbad : seq < 0 ∨ seq ≥ (fields.length : Int)
    · simp [row2mapStr2SeqLoop, hbad] at h
    · simp only [row2mapStr2SeqLoop, hbad, if_false] at h
      have hrest : ∀ s ∈ rest, 0 ≤ s ∧ s < (fields.length : Int) := by
        cases hf : fields[seq.toNat]? with
        | none => rw [hf] at h; simp at h
        | some key =>
          rw [hf] at h
          simp only at h
          cases hs : slots[seq.toNat]? with
          | none => rw [hs] at h; simp at h
          | some c =>
            rw [hs] at h
            cases c with
            | none => exact ih _ h
            | some v =>
              simp only at h
              cases hv : value2String F v with
              | panics => rw [hv] at h; simp at h
              | returns p =>
                obtain ⟨data, err⟩ := p
                rw [hv] at h
                cases err with
                | none => exact ih _ h
                | some e => simp at h
      intro s hs
      rcases List.mem_cons.mp hs with rfl | hs
      · omega
      · exact hrest s hs

theorem row2mapStr2SeqLoop_error (F : StdFormat) (fields : List GoString)
    (slots : List Cell) (seqs : List Int) (result : GoMap GoString) (x : MapStr) (e : GoError)
    (h : row2mapStr2SeqLoop F fields slots seqs result = Outcome.returns (x, some e)) :
    x = none ∧ ((∃ s ∈ seqs, (s < 0 ∨ s ≥ (fields.length : Int)) ∧
        e = GoError.indexOutOfRange s ((fields.length : Int) - 1)) ∨
      ∃ c ∈ slots, ∃ v t, c = some v ∧ value2String F v = Outcome.returns (t, some e)) := by
  induction seqs generalizing result with
  | nil => simp [row2mapStr2SeqLoop] at h
  | cons seq rest ih =>
    have lift : (x = none ∧ ((∃ s ∈ rest, (s < 0 ∨ s ≥ (fields.length : Int)) ∧
          e = GoError.indexOutOfRange s ((fields.length : Int) - 1)) ∨
        ∃ c ∈ slots, ∃ v t, c = some v ∧ value2String F v = Outcome.returns (t, some e))) →
        x = none ∧ ((∃ s ∈ seq :: rest, (s < 0 ∨ s ≥ (fields.length : Int)) ∧
          e = GoError.indexOutOfRange s ((fields.length : Int) - 1)) ∨
        ∃ c ∈ slots, ∃ v t, c = some v ∧ value2String F v = Outcome.returns (t, some e)) := by
      rintro ⟨h1, h2⟩
      refine ⟨h1, ?_⟩
      rcases h2 with ⟨s, hs, hb⟩ | h2
      · exact Or.inl ⟨s, List.mem_cons_of_mem _ hs, hb⟩
      · exact Or.inr h2
    by_cases hbad : seq < 0 ∨ seq ≥ (fields.length : Int)
    · simp only [row2mapStr2SeqLoop, hbad, if_true, Outcome.returns.injEq, Prod.mk.injEq,
        Option.some.injEq] at h
      exact ⟨h.1.symm, Or.inl ⟨seq, List.mem_cons_self _ _, hbad, h.2.symm⟩⟩
    · simp only [row2mapStr2SeqLoop, hbad, if_false] at h
      cases hf : fields[seq.toNat]? with
      | none => rw [hf] at h; simp at h
      | some key =>
        rw [hf] at h
        simp only at h
        cases hs : slots[seq.toNat]? with
        | none => rw [hs] at h; simp at h
        | some c =>
          rw [hs] at h
          cases c with
          | none => exact lift (ih _ h)
          | some v =>
            simp only at h
            cases hv : value2String F v with
            | panics => rw [hv] at h; simp at h
            | returns p =>
              obtain ⟨data, err⟩ := p
              rw [hv] at h
              cases err with
              | none => exact lift (ih _ h)
              | some e2 =>
                simp only [Outcome.returns.injEq, Prod.mk.injEq, Option.some.injEq] at h
                refine ⟨h.1.symm, Or.inr ⟨some v, List.getElem?_mem hs, v, data, rfl, ?_⟩⟩
                rw [hv, h.2]

/-! ## Null cells -/

theorem scanned_getElem (cur : RowData) (n i : Nat) (h : i < (scanned cur n).length) :
    (scanned cur n)[i] = cur.cells.getD i none := by
  simp [scanned]

theorem row2mapStr_null (F : StdFormat) (cur : RowData) (fields : Slice GoString) (i : Nat)
    (hscan : cur.scanErr = none) (hi : i < Slice.len fields)
    (hnull : cur.cells.getD i none = none) (hnodup : (Slice.toList fields).Nodup)
    (m : MapStr) (h : (row2mapStr F cur fields).1 = Outcome.returns (m, none)) :
    ∃ gm, m = some gm ∧ GoMap.get? gm ((Slice.toList fields).getD i []) = some [] := by
  rw [row2mapStr_eq F cur fields hscan] at h
  simp only at h
  obtain ⟨gm, h1, _, _, h4⟩ := storeAll_ok F _ [] (storeAll_returns F _ [] m h)
  rw [h1] at h
  simp only [Outcome.returns.injEq, Prod.mk.injEq, and_true] at h
  have hi2 : i < (Slice.toList fields).length := hi
  have hs : i < (scanned cur (Slice.len fields)).length := by rw [scanned_length]; exact hi
  obtain ⟨hmem, huniq⟩ := zip_key_unique (Slice.toList fields) (scanned cur (Slice.len fields))
    hnodup i hi2 hs
  refine ⟨gm, h.symm, ?_⟩
  rw [List.getD_eq_getElem _ _ hi2]
  refine h4 _ [] hmem ?_
  intro kc hkc hkey
  rw [huniq kc hkc hkey, scanned_getElem, hnull]
  rfl

theorem row2mapStr2_null (F : StdFormat) (cur : RowData) (fields : Slice GoString) (i : Nat)
    (hscan : cur.scanErr = none) (hi : i < Slice.len fields)
    (hnull : cur.cells.getD i none = none) (hnodup : (Slice.toList fields).Nodup)
    (orderedSeqs : Slice Int)
    (hsel : orderedSeqs = none ∨ orderedSeqs = some [] ∨ (i : Int) ∈ Slice.toList orderedSeqs)
    (m : MapStr) (h : (row2mapStr2 F cur fields orderedSeqs).1 = Outcome.returns (m, none)) :
    ∃ gm, m = some gm ∧ GoMap.get? gm ((Slice.toList fields).getD i []) = some [] := by
  by_cases hempty : orderedSeqs = none ∨ orderedSeqs = some []
  · rw [row2mapStr2_empty F cur fields orderedSeqs hempty] at h
    exact row2mapStr_null F cur fields i hscan hi hnull hnodup m h
  · have hmem : (i : Int) ∈ Slice.toList orderedSeqs := by tauto
    cases orderedSeqs with
    | none => exact absurd (Or.inl rfl) hempty
    | some seqs =>
      simp only [Slice.toList] at hmem
      have hne : seqs ≠ [] := List.ne_nil_of_mem hmem
      have hcond : (some seqs : Slice Int) ≠ none ∧ Slice.len (some seqs : Slice Int) > 0 :=
        ⟨by simp, List.length_pos_of_mem hmem⟩
      have hvalid : ∀ s ∈ seqs, 0 ≤ s ∧ s < (Slice.len fields : Int) := by
        have h2 := h
        simp only [row2mapStr2, Scan_ok cur _ hscan] at h2
        rw [if_pos hcond] at h2
        exact row2mapStr2SeqLoop_returns_valid F _ _ _ _ m h2
      rw [row2mapStr2_eq F cur fields seqs hscan hne hvalid] at h
      simp only at h
      obtain ⟨gm, h1, _, _, h4⟩ := storeAll_ok F _ [] (storeAll_returns F _ [] m h)
      rw [h1] at h
      simp only [Outcome.returns.injEq, Prod.mk.injEq, and_true] at h
      refine ⟨gm, h.symm, h4 _ [] ?_ ?_⟩
      · simp only [List.map_map, Function.comp_def, List.mem_map]
        exact ⟨(i : Int), hmem, by simp⟩
      · intro kc hkc hkey
        obtain ⟨s2, hs2, rfl⟩ := List.mem_map.mp hkc
        simp only at hkey
        have hkey2 : (Slice.toList fields).getD s2.toNat [] =
            (Slice.toList fields).getD (i : Int).toNat [] := by simpa using hkey
        have := getD_inj_of_nodup _ hnodup s2 (i : Int)
          (by simpa [Slice.len] using hvalid s2 hs2)
          (by simpa [Slice.len] using hvalid _ hmem) hkey2
        subst this
        simp only [Int.toNat_ofNat, hnull]
        rfl

theorem row2sliceStr_null (F : StdFormat) (cur : RowData) (fields : Slice GoString) (i : Nat)
    (hscan : cur.scanErr = none) (hi : i < Slice.len fields)
    (hnull : cur.cells.getD i none = none)
    (sl : Slice GoString) (h : (row2sliceStr F cur fields).1 = Outcome.returns (sl, none)) :
    ∃ l, sl = some l ∧ l.length = Slice.len fields ∧ l[i]? = some [] := by
  rw [row2sliceStr_eq F cur fields hscan] at h
  simp only at h
  obtain ⟨texts, h1, h2⟩ := appendAll_returns F _ [] sl h
  obtain ⟨hlen, hget⟩ := List.forall₂_iff_get.mp h2
  rw [scanned_length] at hlen
  have hs : i < (scanned cur (Slice.len fields)).length := by rw [scanned_length]; exact hi
  have ht : i < texts.length := by omega
  refine ⟨texts, by simpa using h1, hlen.symm, ?_⟩
  have := hget i hs ht
  simp only [List.get_eq_getElem, scanned_getElem, hnull, cellText, Outcome.returns.injEq,
    Prod.mk.injEq, and_true] at this
  rw [List.getElem?_eq_getElem ht, ← this]

theorem row2mapInterface_null (cur : RowData) (fields : Slice GoString) (i : Nat)
    (hscan : cur.scanErr = none) (hi : i < Slice.len fields)
    (hnull : cur.cells.getD i none = none) :
    ∃ gm, (row2mapInterface cur fields).1 = Outcome.returns (some gm, none) ∧
      ((Slice.toList fields).Nodup →
        GoMap.get? gm ((Slice.toList fields).getD i []) = some none) := by
  rw [row2mapInterface_eq cur fields hscan]
  refine ⟨_, rfl, ?_⟩
  intro hnodup
  have hi2 : i < (Slice.toList fields).length := hi
  have hs : i < (scanned cur (Slice.len fields)).length := by rw [scanned_length]; exact hi
  obtain ⟨hmem, huniq⟩ := zip_key_unique (Slice.toList fields) (scanned cur (Slice.len fields))
    hnodup i hi2 hs
  rw [List.getD_eq_getElem _ _ hi2]
  refine (foldl_set_get? _ []).2 _ none hmem ?_
  intro kc hkc hkey
  rw [huniq kc hkc hkey, scanned_getElem, hnull]

theorem row2mapStr_error_source (F : StdFormat) (cur : RowData) (fields : Slice GoString)
    (hscan : cur.scanErr = none) (x : MapStr) (e : GoError)
    (h : (row2mapStr F cur fields).1 = Outcome.returns (x, some e)) :
    x = none ∧ ∃ j v t, cur.cells.getD j none = some v ∧
      value2String F v = Outcome.returns (t, some e) := by
  rw [row2mapStr_eq F cur fields hscan] at h
  obtain ⟨hx, kc, hkc, v, t, hv, hval⟩ := storeAll_error F _ [] x e h
  obtain ⟨j, _, hj⟩ := mem_scanned cur _ kc.2 (List.of_mem_zip hkc).2
  exact ⟨hx, j, v, t, by rw [← hj, hv], hval⟩

theorem row2sliceStr_error_source (F : StdFormat) (cur : RowData) (fields : Slice GoString)
    (hscan : cur.scanErr = none) (x : Slice GoString) (e : GoError)
    (h : (row2sliceStr F cur fields).1 = Outcome.returns (x, some e)) :
    x = none ∧ ∃ j v t, cur.cells.getD j none = some v ∧
      value2String F v = Outcome.returns (t, some e) := by
  rw [row2sliceStr_eq F cur fields hscan] at h
  obtain ⟨hx, c, hc, v, t, hv, hval⟩ := appendAll_error F _ [] x e h
  obtain ⟨j, _, hj⟩ := mem_scanned cur _ c hc
  exact ⟨hx, j, v, t, by rw [← hj, hv], hval⟩

theorem row2mapStr2_error_source (F : StdFormat) (cur : RowData) (fields : Slice GoString)
    (orderedSeqs : Slice Int) (hscan : cur.scanErr = none) (x : MapStr) (e : GoError)
    (h : (row2mapStr2 F cur fields orderedSeqs).1 = Outcome.returns (x, some e)) :
    x = none ∧ ((∃ s ∈ Slice.toList orderedSeqs, (s < 0 ∨ s ≥ (Slice.len fields : Int)) ∧
        e = GoError.indexOutOfRange s ((Slice.len fields : Int) - 1)) ∨
      ∃ j v t, cur.cells.getD j none = some v ∧
        value2String F v = Outcome.returns (t, some e)) := by
  by_cases hcond : orderedSeqs ≠ none ∧ Slice.len orderedSeqs > 0
  · simp only [row2mapStr2, Scan_ok cur _ hscan] at h
    rw [if_pos hcond] at h
    obtain ⟨hx, hsrc⟩ := row2mapStr2SeqLoop_error F _ _ _ _ x e h
    refine ⟨hx, ?_⟩
    rcases hsrc with hidx | ⟨c, hc, v, t, hv, hval⟩
    · exact Or.inl hidx
    · obtain ⟨j, _, hj⟩ := mem_scanned cur _ c hc
      exact Or.inr ⟨j, v, t, by rw [← hj, hv], hval⟩
  · have hempty : orderedSeqs = none ∨ orderedSeqs = some [] := by
      cases orderedSeqs with
      | none => exact Or.inl rfl
      | some l =>
        cases l with
        | nil => exact Or.inr rfl
        | cons a l => simp [Slice.len, Slice.toList] at hcond
    rw [row2mapStr2_empty F cur fields orderedSeqs hempty] at h
    obtain ⟨hx, hsrc⟩ := row2mapStr_error_source F cur fields hscan x e h
    exact ⟨hx, Or.inr hsrc⟩

theorem row2mapInterface_error (cur : RowData) (fields : Slice GoString) (x : MapIface)
    (e : GoError) (h : (row2mapInterface cur fields).1 = Outcome.returns (x, some e)) :
    cur.scanErr = some e := by
  cases hs : cur.scanErr with
  | none =>
    rw [row2mapInterface_eq cur fields hs] at h
    simp at h
  | some e2 =>
    rw [row2mapInterface_scanErr cur fields e2 hs] at h
    simp only [Outcome.returns.injEq, Prod.mk.injEq, Option.some.injEq] at h
    rw [h.2]

/-- C4, as the code has it.  Take a row whose scan succeeds and a column `i` whose
scanned cell is nil.  A row returned by `row2mapStr`, or by `row2mapStr2` when column
`i` is emitted (nil or empty selection, or `i` selected), holds the empty text under
the name of column `i` when the column names are pairwise distinct; a row returned by
`row2sliceStr` has one text per column and the empty text at position `i`;
`row2mapInterface` always returns a row with a nil error, which holds nil under the
name of column `i` when the names are pairwise distinct.  An error of `row2mapStr`,
`row2sliceStr` or `row2mapStr2` comes with a nil row and is the conversion error of a
non-nil cell (for `row2mapStr2` possibly the index error of the selection), never the
effect of a nil cell; an error of `row2mapInterface`, on any row, is the error of
`Scan`. -/
theorem null_cell_decoding (F : StdFormat) (cur : RowData) (fields : Slice GoString) (i : Nat)
    (hscan : cur.scanErr = none) (hi : i < Slice.len fields)
    (hnull : cur.cells.getD i none = none) :
    (∀ m, (row2mapStr F cur fields).1 = Outcome.returns (m, none) →
      (Slice.toList fields).Nodup →
      ∃ gm, m = some gm ∧ GoMap.get? gm ((Slice.toList fields).getD i []) = some []) ∧
    (∀ (orderedSeqs : Slice Int) m,
      (orderedSeqs = none ∨ orderedSeqs = some [] ∨ (i : Int) ∈ Slice.toList orderedSeqs) →
      (row2mapStr2 F cur fields orderedSeqs).1 = Outcome.returns (m, none) →
      (Slice.toList fields).Nodup →
      ∃ gm, m = some gm ∧ GoMap.get? gm ((Slice.toList fields).getD i []) = some []) ∧
    (∀ sl, (row2sliceStr F cur fields).1 = Outcome.returns (sl, none) →
      ∃ l, sl = some l ∧ l.length = Slice.len fields ∧ l[i]? = some []) ∧
    (∃ gm, (row2mapInterface cur fields).1 = Outcome.returns (some gm, none) ∧
      ((Slice.toList fields).Nodup →
        GoMap.get? gm ((Slice.toList fields).getD i []) = some none)) ∧
    (∀ x e, (row2mapStr F cur fields).1 = Outcome.returns (x, some e) →
      x = none ∧ ∃ j v t, cur.cells.getD j none = some v ∧
        value2String F v = Outcome.returns (t, some e)) ∧
    (∀ x e, (row2sliceStr F cur fields).1 = Outcome.returns (x, some e) →
      x = none ∧ ∃ j v t, cur.cells.getD j none = some v ∧
        value2String F v = Outcome.returns (t, some e)) ∧
    (∀ (orderedSeqs : Slice Int) x e,
      (row2mapStr2 F cur fields orderedSeqs).1 = Outcome.returns (x, some e) →
      x = none ∧ ((∃ s ∈ Slice.toList orderedSeqs, (s < 0 ∨ s ≥ (Slice.len fields : Int)) ∧
          e = GoError.indexOutOfRange s ((Slice.len fields : Int) - 1)) ∨
        ∃ j v t, cur.cells.getD j none = some v ∧
          value2String F v = Outcome.returns (t, some e))) ∧
    (∀ (cur2 : RowData) (fields2 : Slice GoString) x e,
      (row2mapInterface cur2 fields2).1 = Outcome.returns (x, some e) →
      cur2.scanErr = some e) :=
  ⟨fun m h hnodup => row2mapStr_null F cur fields i hscan hi hnull hnodup m h,
    fun orderedSeqs m hsel h hnodup =>
      row2mapStr2_null F cur fields i hscan hi hnull hnodup orderedSeqs hsel m h,
    fun sl h => row2sliceStr_null F cur fields i hscan hi hnull sl h,
    row2mapInterface_null cur fields i hscan hi hnull,
    fun x e h => row2mapStr_error_source F cur fields hscan x e h,
    fun x e h => row2sliceStr_error_source F cur fields hscan x e h,
    fun orderedSeqs x e h => row2mapStr2_error_source F cur fields orderedSeqs hscan x e h,
    fun cur2 fields2 x e h => row2mapInterface_error cur2 fields2 x e h⟩

/-- Witness of C4: the row `("x", NULL)` under the columns `a, b`, column `b`. -/
theorem null_cell_decoding_witness :
    (∃ gm, (some [([97], [120]), ([98], [])] : MapStr) = some gm ∧
      GoMap.get? gm ((Slice.toList (some [[97], [98]] : Slice GoString)).getD 1 []) = some []) ∧
    (∃ gm, (some [([98], [])] : MapStr) = some gm ∧
      GoMap.get? gm ((Slice.toList (some [[97], [98]] : Slice GoString)).getD 1 []) = some []) ∧
    (∃ l, (some [[120], []] : Slice GoString) = some l ∧
      l.length = Slice.len (some [[97], [98]] : Slice GoString) ∧ l[1]? = some []) ∧
    (∃ gm, (row2mapInterface textNullRow (some [[97], [98]])).1 =
        Outcome.returns (some gm, none) ∧
      ((Slice.toList (some [[97], [98]] : Slice GoString)).Nodup →
        GoMap.get? gm ((Slice.toList (some [[97], [98]] : Slice GoString)).getD 1 []) =
          some none)) :=
  ⟨(null_cell_decoding exampleFormat textNullRow (some [[97], [98]]) 1 rfl
      (by simp [Slice.len, Slice.toList]) rfl).1 _ rfl (by simp [Slice.toList]),
    (null_cell_decoding exampleFormat textNullRow (some [[97], [98]]) 1 rfl
      (by simp [Slice.len, Slice.toList]) rfl).2.1 (some [1]) _
      (Or.inr (Or.inr (by simp [Slice.toList]))) rfl (by simp [Slice.toList]),
    (null_cell_decoding exampleFormat textNullRow (some [[97], [98]]) 1 rfl
      (by simp [Slice.len, Slice.toList]) rfl).2.2.1 _ rfl,
    (null_cell_decoding exampleFormat textNullRow (some [[97], [98]]) 1 rfl
      (by simp [Slice.len, Slice.toList]) rfl).2.2.2.1⟩

/-- Counterexample to C4 as stated, under the columns `a, b` (or `a, a`): with the
selection `[0]` `row2mapStr2` returns a row without any entry for the nil column `b`;
when the cell before the nil one holds a map, `row2mapStr` returns no row at all; and
when both columns are named `a`, the row of `row2mapStr` holds `"x"` under `a`, not the
empty text of the nil first cell. -/
theorem null_cell_not_always_stored :
    (row2mapStr2 exampleFormat textNullRow (some [[97], [98]]) (some [0])).1 =
        Outcome.returns (some [([97], [120])], none) ∧
      (row2mapStr exampleFormat mapNullRow (some [[97], [98]])).1 =
        Outcome.returns (none, some (GoError.unsupportedType [])) ∧
      (row2mapStr exampleFormat nullTextRow (some [[97], [97]])).1 =
        Outcome.returns (some [([97], [120])], none) :=
  ⟨rfl, rfl, rfl⟩

/-! ## Statement generator: results -/

/-- C9: `genQuerySQL` resolves its source in order.  (1) With explicit arguments the
result is that of `convertSQLOrArgs`, whatever the query state.  (2) Otherwise, with a
recorded `RawSQL`, the result is `(RawSQL, RawParams, nil)` and no collaborator is
called, so the table name plays no part.  (3) Otherwise, with an empty table name, the
result is `("", nil, ErrTableNotFound)` and the only collaborator call is
`TableName()`: neither `builder.ToSQL` nor `genSelectSQL` is invoked. -/
theorem genQuerySQL_precedence (C : Collab) (st : Statement) (sqlOrArgs : List Arg) :
    (sqlOrArgs ≠ [] → (genQuerySQL C st sqlOrArgs).1 = C.convertSQLOrArgs sqlOrArgs) ∧
    (sqlOrArgs = [] → st.RawSQL ≠ [] →
      genQuerySQL C st sqlOrArgs = ((st.RawSQL, st.RawParams, none), [])) ∧
    (sqlOrArgs = [] → st.RawSQL = [] → C.TableName st = [] →
      genQuerySQL C st sqlOrArgs =
        (([], none, some GoError.tableNotFound), [StmtCall.TableName])) := by
  refine ⟨?_, ?_, ?_⟩
  · intro h
    have hlen : sqlOrArgs.length > 0 := List.length_pos.mpr h
    simp [genQuerySQL, hlen]
  · intro h hraw
    subst h
    simp [genQuerySQL, hraw]
  · intro h hraw htab
    subst h
    simp [genQuerySQL, hraw, htab]

/-- Witness of C9: explicit arguments, a recorded raw SQL with an empty table name, and
a structured state with an empty table name. -/
theorem genQuerySQL_precedence_witness :
    (genQuerySQL exampleCollab rawStatement [none, none]).1 =
        exampleCollab.convertSQLOrArgs [none, none] ∧
      genQuerySQL exampleCollab rawStatement [] =
        ((rawStatement.RawSQL, rawStatement.RawParams, none), []) ∧
      genQuerySQL exampleCollab (exampleStatement 0) [] =
        (([], none, some GoError.tableNotFound), [StmtCall.TableName]) :=
  ⟨(genQuerySQL_precedence exampleCollab rawStatement [none, none]).1 (by simp),
    (genQuerySQL_precedence exampleCollab rawStatement []).2.1 rfl (by simp [rawStatement]),
    (genQuerySQL_precedence exampleCollab (exampleStatement 0) []).2.2 rfl rfl rfl⟩

/-- C10: on the structured path (no explicit arguments, no raw SQL, a table name, and
`processIDParam`, `builder.ToSQL` and `genSelectSQL` all succeeding) the returned SQL is
the string of the statement builder, unchanged, and the returned arguments are
`base ++ base` when the number of `?` in that string is `2 * len(base)` and `base`
otherwise, where `base` is `joinArgs` followed by `condArgs`. -/
theorem genQuerySQL_args (C : Collab) (st st1 : Statement) (condSQL sqlStr : GoString)
    (condArgs : Slice Arg)
    (hraw : st.RawSQL = []) (htab : C.TableName st ≠ [])
    (hid : C.processIDParam st = (st1, none))
    (hcond : C.ToSQL st1.cond = (condSQL, condArgs, none))
    (hsel : C.genSelectSQL st1 (genQuerySQLColumnStr C st).1 condSQL true true =
      (sqlStr, none)) :
    ∃ args, (genQuerySQL C st []).1 = (sqlStr, args, none) ∧
      Slice.toList args =
        (if sqlStr.count 63 = 2 * (Slice.toList st1.joinArgs ++ Slice.toList condArgs).length
          then (Slice.toList st1.joinArgs ++ Slice.toList condArgs) ++
            (Slice.toList st1.joinArgs ++ Slice.toList condArgs)
          else Slice.toList st1.joinArgs ++ Slice.toList condArgs) := by
  have htab2 : ¬ (C.TableName st).length ≤ 0 := by
    intro h
    exact htab (List.length_eq_zero.mp (by omega))
  cases hcs : genQuerySQLColumnStr C st with
  | mk columnStr cs =>
    rw [hcs] at hsel
    simp only at hsel
    simp only [genQuerySQL, List.length_nil, gt_iff_lt, lt_self_iff_false, if_false, hraw,
      ne_eq, not_true_eq_false, htab2, hcs, hid, hcond, hsel]
    refine ⟨_, rfl, ?_⟩
    by_cases hq : Slice.len (Slice.append st1.joinArgs (Slice.toList condArgs)) * 2 =
        List.count 63 sqlStr
    · have hq2 : List.count 63 sqlStr =
          2 * (Slice.toList st1.joinArgs ++ Slice.toList condArgs).length := by
        rw [← hq, Slice.len, Slice.toList_append]; omega
      rw [if_pos hq, if_pos hq2, Slice.toList_append, Slice.toList_append]
    · have hq2 : ¬ List.count 63 sqlStr =
          2 * (Slice.toList st1.joinArgs ++ Slice.toList condArgs).length := by
        intro h
        apply hq
        rw [h, Slice.len, Slice.toList_append]; omega
      rw [if_neg hq, if_neg hq2, Slice.toList_append]

/-- Witness of C10: with one argument and a builder that repeats the placeholder the
argument is returned twice; with a builder that does not, once. -/
theorem genQuerySQL_args_witness :
    (∃ args, (genQuerySQL exampleCollab (exampleStatement 2) []).1 =
        ([105, 100, 61, 63, 105, 100, 61, 63], args, none) ∧
      Slice.toList args =
        [some (GoValue.int IntKind.Int64 [] 7), some (GoValue.int IntKind.Int64 [] 7)]) ∧
    (∃ args, (genQuerySQL exampleCollab (exampleStatement 1) []).1 =
        ([105, 100, 61, 63], args, none) ∧
      Slice.toList args = [some (GoValue.int IntKind.Int64 [] 7)]) :=
  ⟨genQuerySQL_args exampleCollab (exampleStatement 2) (exampleStatement 2) [105, 100, 61, 63]
      [105, 100, 61, 63, 105, 100, 61, 63] (some [some (GoValue.int IntKind.Int64 [] 7)])
      rfl (by simp [exampleCollab, exampleStatement]) rfl rfl rfl,
    genQuerySQL_args exampleCollab (exampleStatement 1) (exampleStatement 1) [105, 100, 61, 63]
      [105, 100, 61, 63] (some [some (GoValue.int IntKind.Int64 [] 7)])
      rfl (by simp [exampleCollab, exampleStatement]) rfl rfl rfl⟩

/-- On the structured path the statement builder is called with the projection of
`genQuerySQLColumnStr`, and it is called once `processIDParam` and `builder.ToSQL`
have succeeded. -/
theorem genQuerySQL_builder_call (C : Collab) (st : Statement) (hraw : st.RawSQL = [])
    (htab : C.TableName st ≠ []) :
    (∀ c sq a b, StmtCall.genSelectSQL c sq a b ∈ (genQuerySQL C st []).2 →
      c = (genQuerySQLColumnStr C st).1) ∧
    (∀ st1 condSQL condArgs, C.processIDParam st = (st1, none) →
      C.ToSQL st1.cond = (condSQL, condArgs, none) →
      StmtCall.genSelectSQL (genQuerySQLColumnStr C st).1 condSQL true true ∈
        (genQuerySQL C st []).2) := by
  have htab2 : ¬ (C.TableName st).length ≤ 0 := by
    intro h
    exact htab (List.length_eq_zero.mp (by omega))
  have hcs : ∀ x ∈ (genQuerySQLColumnStr C st).2, ∀ c sq a b,
      x ≠ StmtCall.genSelectSQL c sq a b := by
    intro x hx c sq a b
    simp only [genQuerySQLColumnStr] at hx
    split at hx
    · simp at hx
    · split at hx <;> split at hx <;> try split at hx
      all_goals simp at hx
      all_goals (subst hx; simp)
  cases hcol : genQuerySQLColumnStr C st with
  | mk columnStr cs =>
    rw [hcol] at hcs
    simp only at hcs
    refine ⟨?_, ?_⟩
    · intro c sq a b hmem
      have hnot : StmtCall.genSelectSQL c sq a b ∉ cs := fun h => hcs _ h c sq a b rfl
      simp only [genQuerySQL, List.length_nil, gt_iff_lt, lt_self_iff_false, if_false, hraw,
        ne_eq, not_true_eq_false, htab2, hcol] at hmem
      cases hid : C.processIDParam st with
      | mk st1 e1 =>
        rw [hid] at hmem
        cases e1 with
        | some e => simp [hnot] at hmem
        | none =>
          simp only at hmem
          cases hto : C.ToSQL st1.cond with
          | mk condSQL rest =>
            obtain ⟨condArgs, e2⟩ := rest
            rw [hto] at hmem
            cases e2 with
            | some e => simp [hnot] at hmem
            | none =>
              simp only at hmem
              cases hsel : C.genSelectSQL st1 columnStr condSQL true true with
              | mk sqlStr e3 =>
                rw [hsel] at hmem
                cases e3 with
                | some e =>
                  simp [hnot] at hmem
                  exact hmem.1
                | none =>
                  simp [hnot] at hmem
                  exact hmem.1
    · intro st1 condSQL condArgs hid hto
      simp only [genQuerySQL, List.length_nil, gt_iff_lt, lt_self_iff_false, if_false, hraw,
        ne_eq, not_true_eq_false, htab2, hcol, hid, hto]
      cases hsel : C.genSelectSQL st1 columnStr condSQL true true with
      | mk sqlStr e3 =>
        cases e3 <;> simp

/-- C11: for a structured query state (no explicit SQL, empty `RawSQL`, a table name)
with a join clause, no group-by, no select expression and no column string, the
column projection handed to the statement builder is `*` (byte 42): every call of
`genSelectSQL` carries it, and the call is made once `processIDParam` and
`builder.ToSQL` have succeeded. -/
theorem genQuerySQL_join_projection (C : Collab) (st : Statement) (hraw : st.RawSQL = [])
    (htab : C.TableName st ≠ []) (hjoin : st.JoinStr ≠ []) (hgroup : st.GroupByStr = [])
    (hsel : st.selectStr = []) (hcol : st.ColumnStr = []) :
    (∀ c sq a b, StmtCall.genSelectSQL c sq a b ∈ (genQuerySQL C st []).2 → c = [42]) ∧
    (∀ st1 condSQL condArgs, C.processIDParam st = (st1, none) →
      C.ToSQL st1.cond = (condSQL, condArgs, none) →
      StmtCall.genSelectSQL [42] condSQL true true ∈ (genQuerySQL C st []).2) := by
  have h : (genQuerySQLColumnStr C st).1 = [42] := by
    simp [genQuerySQLColumnStr, hjoin, hgroup, hsel, hcol]
  have hb := genQuerySQL_builder_call C st hraw htab
  rw [h] at hb
  exact hb

/-- Witness of C11: a state with a join clause only, a condition that compiles to
`id=?`. -/
theorem genQuerySQL_join_projection_witness :
    (∀ c sq a b,
      StmtCall.genSelectSQL c sq a b ∈ (genQuerySQL exampleCollab joinStatement []).2 →
      c = [42]) ∧
    StmtCall.genSelectSQL [42] [105, 100, 61, 63] true true ∈
      (genQuerySQL exampleCollab joinStatement []).2 :=
  ⟨(genQuerySQL_join_projection exampleCollab joinStatement rfl
      (by simp [exampleCollab, joinStatement]) (by simp [joinStatement]) rfl rfl rfl).1,
    (genQuerySQL_join_projection exampleCollab joinStatement rfl
      (by simp [exampleCollab, joinStatement]) (by simp [joinStatement]) rfl rfl rfl).2
      joinStatement [105, 100, 61, 63] (some [some (GoValue.int IntKind.Int64 [] 7)]) rfl rfl⟩

/-- C12, as the code has it: the column projection follows the precedence select
expression, explicit column string, then (join and group-by: quoted group-by columns),
(join, no group-by: `*`), (no join, group-by: quoted group-by columns), (no join, no
group-by: generated column list), and `*` when the value chosen after the select
expression is empty; on the structured path this is the projection every call of
`genSelectSQL` carries. -/
theorem genQuerySQL_projection_precedence (C : Collab) (st : Statement) :
    (genQuerySQLColumnStr C st).1 = projectionByPrecedence C st ∧
    (st.RawSQL = [] → C.TableName st ≠ [] →
      (∀ c sq a b, StmtCall.genSelectSQL c sq a b ∈ (genQuerySQL C st []).2 →
        c = projectionByPrecedence C st) ∧
      (∀ st1 condSQL condArgs, C.processIDParam st = (st1, none) →
        C.ToSQL st1.cond = (condSQL, condArgs, none) →
        StmtCall.genSelectSQL (projectionByPrecedence C st) condSQL true true ∈
          (genQuerySQL C st []).2)) := by
  have h : (genQuerySQLColumnStr C st).1 = projectionByPrecedence C st := by
    simp only [genQuerySQLColumnStr, projectionByPrecedence]
    by_cases h1 : st.selectStr = []
    · by_cases h2 : st.ColumnStr = [] <;> by_cases h3 : st.JoinStr = [] <;>
        by_cases h4 : st.GroupByStr = [] <;> simp [h1, h2, h3, h4]
    · have h1b : st.selectStr.length > 0 := List.length_pos.mpr h1
      simp [h1, h1b]
  refine ⟨h, ?_⟩
  intro hraw htab
  have hb := genQuerySQL_builder_call C st hraw htab
  rw [h] at hb
  exact hb

/-- Witness of C12: a state with the explicit column string `id`. -/
theorem genQuerySQL_projection_precedence_witness :
    (∀ c sq a b,
      StmtCall.genSelectSQL c sq a b ∈ (genQuerySQL exampleCollab columnStatement []).2 →
      c = projectionByPrecedence exampleCollab columnStatement) ∧
    StmtCall.genSelectSQL (projectionByPrecedence exampleCollab columnStatement)
        [105, 100, 61, 63] true true ∈
      (genQuerySQL exampleCollab columnStatement []).2 :=
  ⟨((genQuerySQL_projection_precedence exampleCollab columnStatement).2 rfl
      (by simp [exampleCollab, columnStatement])).1,
    ((genQuerySQL_projection_precedence exampleCollab columnStatement).2 rfl
      (by simp [exampleCollab, columnStatement])).2
      columnStatement [105, 100, 61, 63] (some [some (GoValue.int IntKind.Int64 [] 7)]) rfl rfl⟩

/-- Counterexample to C12 as stated: with the explicit column string `id`, no select
expression, no join and no group-by, the precedence of the claim gives the generated
column list (here `*`), while the statement builder is called with `id`. -/
theorem genQuerySQL_projection_column_string :
    specProjection exampleCollab columnStatement = exampleCollab.genColumnStr columnStatement ∧
      exampleCollab.genColumnStr columnStatement = [42] ∧
      (genQuerySQL exampleCollab columnStatement []).2 =
        [StmtCall.TableName, StmtCall.processIDParam, StmtCall.ToSQL,
          StmtCall.genSelectSQL [105, 100] [105, 100, 61, 63] true true] :=
  ⟨rfl, rfl, rfl⟩

/-! ## Scan width -/

/-- C18: whatever the selection (nil, empty, in range or not), `row2mapStr2` makes
exactly one cursor call, `Scan` with `len(fields)` destinations, and so do
`row2mapStr`, `row2sliceStr` and `row2mapInterface`; the scan comes before any
selection index is looked at: when it fails, its error is returned whatever the
selection holds. -/
theorem row_decoders_scan_width (F : StdFormat) (cur : RowData) (fields : Slice GoString)
    (orderedSeqs : Slice Int) :
    (row2mapStr2 F cur fields orderedSeqs).2 = [Call.Scan (Slice.len fields)] ∧
    (row2mapStr F cur fields).2 = [Call.Scan (Slice.len fields)] ∧
    (row2sliceStr F cur fields).2 = [Call.Scan (Slice.len fields)] ∧
    (row2mapInterface cur fields).2 = [Call.Scan (Slice.len fields)] ∧
    (∀ (e : GoError) (cells : List Cell),
      row2mapStr2 F (RowData.mk (some e) cells) fields orderedSeqs =
        (Outcome.returns (none, some e), [Call.Scan (Slice.len fields)])) := by
  refine ⟨?_, ?_, ?_, ?_, ?_⟩
  · cases hs : cur.scanErr with
    | some e => rw [row2mapStr2_scanErr F cur fields orderedSeqs e hs]
    | none =>
      simp only [row2mapStr2, Scan_ok cur _ hs]
      split <;> rfl
  · cases hs : cur.scanErr with
    | some e => rw [row2mapStr_scanErr F cur fields e hs]
    | none => rw [row2mapStr_eq F cur fields hs]
  · cases hs : cur.scanErr with
    | some e => rw [row2sliceStr_scanErr F cur fields e hs]
    | none => rw [row2sliceStr_eq F cur fields hs]
  · cases hs : cur.scanErr with
    | some e => rw [row2mapInterface_scanErr cur fields e hs]
    | none => rw [row2mapInterface_eq cur fields hs]
  · intro e cells
    exact row2mapStr2_scanErr F _ fields orderedSeqs e rfl

/-! ## Tabular export: results -/

theorem checked_valid (fields : Slice GoString) (orderedSeqs : Slice Int)
    (hvalid : ∀ s ∈ Slice.toList orderedSeqs, 0 ≤ s ∧ s < (Slice.len fields : Int)) :
    (if orderedSeqs ≠ none ∧ Slice.len orderedSeqs > 0 then
        selectFieldsLoop (Slice.toList fields) (Slice.toList orderedSeqs) []
      else Outcome.returns (fields, none)) =
      Outcome.returns (effectiveColumns fields orderedSeqs, none) := by
  simp only [effectiveColumns]
  by_cases hsel : orderedSeqs ≠ none ∧ Slice.len orderedSeqs > 0
  · rw [if_pos hsel, if_pos hsel,
      selectFieldsLoop_valid _ _ _ (by simpa [Slice.len] using hvalid)]
    simp
  · rw [if_neg hsel, if_neg hsel]

theorem Sink.Write_ok (w : Sink) (h : ∀ x ∈ w.writeErrs, x = none) :
    w.Write.1 = none ∧ ∀ x ∈ w.Write.2.writeErrs, x = none := by
  cases hw : w.writeErrs with
  | nil => simp [Sink.Write, hw]
  | cons a l =>
    rw [hw] at h
    refine ⟨?_, ?_⟩
    · simp only [Sink.Write, hw, List.headD_cons]
      exact h a (List.mem_cons_self _ _)
    · intro x hx
      simp only [Sink.Write, hw, List.tail_cons] at hx
      exact h x (List.mem_cons_of_mem _ hx)

theorem rows2csvLoop_ok (F : StdFormat) (fields : Slice GoString) (orderedSeqs : Slice Int)
    (pending : List RowData) (w : Sink) (lines : Int)
    (hrows : ∀ r ∈ pending,
      ∃ m, (row2mapStr2 F r fields orderedSeqs).1 = Outcome.returns (m, none))
    (hsink : ∀ x ∈ w.writeErrs, x = none) :
    (rows2csvLoop F fields orderedSeqs (effectiveColumns fields orderedSeqs)
        pending w lines).1 = Outcome.returns (lines + (pending.length : Int), none) ∧
    (rows2csvLoop F fields orderedSeqs (effectiveColumns fields orderedSeqs)
        pending w lines).2.2 =
      pending.map (fun r => SinkCall.Write (csvRecordOf F r fields orderedSeqs)) := by
  induction pending generalizing w lines with
  | nil => simp [rows2csvLoop]
  | cons cur rest ih =>
    obtain ⟨m, hm⟩ := hrows cur (List.mem_cons_self _ _)
    obtain ⟨hw1, hw2⟩ := Sink.Write_ok w hsink
    have ih2 := ih w.Write.2 (lines + 1) (fun r hr => hrows r (List.mem_cons_of_mem _ hr)) hw2
    have hrec : csvRecordOf F cur fields orderedSeqs =
        rows2csvRecord m (Slice.toList (effectiveColumns fields orderedSeqs)) [] := by
      simp only [csvRecordOf, hm]
    cases hd : row2mapStr2 F cur fields orderedSeqs with
    | mk o cs =>
      rw [hd] at hm
      simp only at hm
      subst hm
      cases hwr : w.Write with
      | mk e w1 =>
        rw [hwr] at hw1 ih2
        simp only at hw1 ih2
        subst hw1
        simp only [rows2csvLoop, hd, hwr, List.map_cons, hrec, List.length_cons]
        refine ⟨?_, ?_⟩
        · rw [ih2.1]
          push_cast
          congr 2
          omega
        · rw [ih2.2]

/-- C13: when `Columns()` succeeds, the selection is nil, empty or in range, each of
the `n` rows decodes without error and every write to the sink succeeds, `rows2csv`
returns `(n, nil)` and its sink calls are the header record (the effective columns),
then one data record per row in cursor order, then `Flush`: `n + 1` records; for
`n = 0` the header alone, and the count `0`. -/
theorem rows2csv_records (F : StdFormat) (rows : Rows) (w : Sink) (orderedSeqs : Slice Int)
    (hcols : rows.columnsErr = none)
    (hvalid : ∀ s ∈ Slice.toList orderedSeqs, 0 ≤ s ∧ s < (Slice.len rows.columns : Int))
    (hrows : ∀ r ∈ rows.pending,
      ∃ m, (row2mapStr2 F r rows.columns orderedSeqs).1 = Outcome.returns (m, none))
    (hsink : ∀ x ∈ w.writeErrs, x = none) :
    (rows2csv F rows w orderedSeqs).1 = Outcome.returns ((rows.pending.length : Int), none) ∧
    (rows2csv F rows w orderedSeqs).2.2 =
      SinkCall.Write (Slice.toList (effectiveColumns rows.columns orderedSeqs)) ::
        (rows.pending.map (fun r => SinkCall.Write (csvRecordOf F r rows.columns orderedSeqs))
          ++ [SinkCall.Flush]) := by
  obtain ⟨hw1, hw2⟩ := Sink.Write_ok w hsink
  obtain ⟨h1, h2⟩ := rows2csvLoop_ok F rows.columns orderedSeqs rows.pending w.Write.2 0
    hrows hw2
  cases hwr : w.Write with
  | mk e w1 =>
    rw [hwr] at hw1 h1 h2
    simp only at hw1 h1 h2
    subst hw1
    cases hl : rows2csvLoop F rows.columns orderedSeqs
        (effectiveColumns rows.columns orderedSeqs) rows.pending w1 0 with
    | mk o rest =>
      obtain ⟨cs, ws⟩ := rest
      rw [hl] at h1 h2
      simp only at h1 h2
      subst h1 h2
      simp only [rows2csv, hcols, checked_valid rows.columns orderedSeqs hvalid, hwr, hl]
      simp

/-- Witness of C13: the two-row result set with the selection `[2, 0]`, and the same
result set without its rows. -/
theorem rows2csv_records_witness :
    ((rows2csv exampleFormat exampleRows goodSink (some [2, 0])).1 =
        Outcome.returns (2, none) ∧
      (rows2csv exampleFormat exampleRows goodSink (some [2, 0])).2.2 =
        [SinkCall.Write [[99], [97]], SinkCall.Write [[120], [53]],
          SinkCall.Write [[], [48]], SinkCall.Flush]) ∧
    ((rows2csv exampleFormat { exampleRows with pending := [] } goodSink none).1 =
        Outcome.returns (0, none) ∧
      (rows2csv exampleFormat { exampleRows with pending := [] } goodSink none).2.2 =
        [SinkCall.Write [[97], [98], [99]], SinkCall.Flush]) :=
  ⟨rows2csv_records exampleFormat exampleRows goodSink (some [2, 0]) rfl
      (by
        intro s hs
        simp only [Slice.toList, List.mem_cons, List.mem_singleton, List.not_mem_nil,
          or_false] at hs
        rcases hs with rfl | rfl <;> simp [Slice.len, Slice.toList, exampleRows])
      (by
        intro r hr
        simp only [exampleRows, List.mem_cons, List.mem_singleton, List.not_mem_nil,
          or_false] at hr
        rcases hr with rfl | rfl <;> exact ⟨_, rfl⟩)
      (by simp [goodSink]),
    rows2csv_records exampleFormat { exampleRows with pending := [] } goodSink none rfl
      (by simp [Slice.toList]) (by simp) (by simp [goodSink])⟩

theorem rows2csvRecord_eq (result : MapStr) (l : List GoString) (acc : List GoString) :
    rows2csvRecord result l acc =
      acc ++ l.map (fun fn => match result with
        | none => []
        | some m => (GoMap.get? m fn).getD []) := by
  induction l generalizing acc with
  | nil => simp [rows2csvRecord]
  | cons fn rest ih =>
    simp only [rows2csvRecord, List.map_cons]
    rw [ih]
    simp

theorem row2mapStr2_returns_scan (F : StdFormat) (cur : RowData) (fields : Slice GoString)
    (orderedSeqs : Slice Int) (m : MapStr)
    (h : (row2mapStr2 F cur fields orderedSeqs).1 = Outcome.returns (m, none)) :
    cur.scanErr = none := by
  cases hs : cur.scanErr with
  | none => rfl
  | some e =>
    rw [row2mapStr2_scanErr F cur fields orderedSeqs e hs] at h
    simp at h

/-- A row returned by `row2mapStr` under pairwise distinct column names: its keys are
the column names and it holds the text of cell `i` under the name of column `i`. -/
theorem row2mapStr_get (F : StdFormat) (cur : RowData) (fields : Slice GoString)
    (hscan : cur.scanErr = none) (hnodup : (Slice.toList fields).Nodup)
    (m : MapStr) (h : (row2mapStr F cur fields).1 = Outcome.returns (m, none)) :
    ∃ gm, m = some gm ∧ (∀ k, k ∈ GoMap.keys gm ↔ k ∈ Slice.toList fields) ∧
      ∀ i, i < Slice.len fields → ∃ t,
        cellText F (cur.cells.getD i none) = Outcome.returns (t, none) ∧
        GoMap.get? gm ((Slice.toList fields).getD i []) = some t := by
  rw [row2mapStr_eq F cur fields hscan] at h
  simp only at h
  have hall := storeAll_returns F _ [] m h
  obtain ⟨gm, h1, h2, _, h4⟩ := storeAll_ok F _ [] hall
  rw [h1] at h
  simp only [Outcome.returns.injEq, Prod.mk.injEq, and_true] at h
  refine ⟨gm, h.symm, ?_, ?_⟩
  · intro k
    rw [h2 k]
    have hlen : (Slice.toList fields).length ≤ (scanned cur (Slice.len fields)).length := by
      rw [scanned_length]; exact le_refl _
    simp [GoMap.keys, List.map_fst_zip _ _ hlen]
  · intro i hi
    have hi2 : i < (Slice.toList fields).length := hi
    have hs : i < (scanned cur (Slice.len fields)).length := by rw [scanned_length]; exact hi
    obtain ⟨hmem, huniq⟩ := zip_key_unique (Slice.toList fields)
      (scanned cur (Slice.len fields)) hnodup i hi2 hs
    have hin : ((Slice.toList fields)[i], (scanned cur (Slice.len fields))[i]) ∈
        (Slice.toList fields).zip (scanned cur (Slice.len fields)) := by
      refine List.mem_iff_getElem.mpr ⟨i, by simp; omega, ?_⟩
      simp
    obtain ⟨t, ht⟩ := hall _ hin
    simp only [scanned_getElem] at ht
    refine ⟨t, ht, ?_⟩
    rw [List.getD_eq_getElem _ _ hi2]
    refine h4 _ t hmem ?_
    intro kc hkc hkey
    rw [huniq kc hkc hkey, scanned_getElem]
    exact ht

/-- A row returned by `row2mapStr2` under a non-empty selection and pairwise distinct
column names: it holds the text of cell `s` under the name of column `s`, for every
selected `s`. -/
theorem row2mapStr2_selected_get (F : StdFormat) (cur : RowData) (fields : Slice GoString)
    (seqs : List Int) (hnodup : (Slice.toList fields).Nodup) (hne : seqs ≠ [])
    (hvalid : ∀ s ∈ seqs, 0 ≤ s ∧ s < (Slice.len fields : Int))
    (m : MapStr) (h : (row2mapStr2 F cur fields (some seqs)).1 = Outcome.returns (m, none)) :
    ∃ gm, m = some gm ∧
      ∀ s ∈ seqs, ∃ t, cellText F (cur.cells.getD s.toNat none) = Outcome.returns (t, none) ∧
        GoMap.get? gm ((Slice.toList fields).getD s.toNat []) = some t := by
  have hscan := row2mapStr2_returns_scan F cur fields (some seqs) m h
  rw [row2mapStr2_eq F cur fields seqs hscan hne hvalid] at h
  simp only at h
  have hall := storeAll_returns F _ [] m h
  obtain ⟨gm, h1, _, _, h4⟩ := storeAll_ok F _ [] hall
  rw [h1] at h
  simp only [Outcome.returns.injEq, Prod.mk.injEq, and_true] at h
  refine ⟨gm, h.symm, ?_⟩
  intro s hs
  obtain ⟨t, ht⟩ := hall ((Slice.toList fields).getD s.toNat [], cur.cells.getD s.toNat none)
    (List.mem_map.mpr ⟨s, hs, rfl⟩)
  simp only at ht
  refine ⟨t, ht, h4 _ t ?_ ?_⟩
  · simp only [List.map_map, Function.comp_def, List.mem_map]
    exact ⟨s, hs, rfl⟩
  · intro kc hkc hkey
    obtain ⟨s2, hs2, rfl⟩ := List.mem_map.mp hkc
    simp only at hkey
    have := getD_inj_of_nodup _ hnodup s2 s
      (by simpa [Slice.len] using hvalid s2 hs2) (by simpa [Slice.len] using hvalid s hs) hkey
    subst this
    exact ht

/-- The record built from a decoded row is aligned with the effective columns. -/
theorem row2mapStr2_record (F : StdFormat) (cur : RowData) (fields : Slice GoString)
    (orderedSeqs : Slice Int) (hnodup : (Slice.toList fields).Nodup)
    (hvalid : ∀ s ∈ Slice.toList orderedSeqs, 0 ≤ s ∧ s < (Slice.len fields : Int))
    (m : MapStr) (h : (row2mapStr2 F cur fields orderedSeqs).1 = Outcome.returns (m, none)) :
    (rows2csvRecord m (Slice.toList (effectiveColumns fields orderedSeqs)) []).length =
        Slice.len (effectiveColumns fields orderedSeqs) ∧
      ∀ i, i < Slice.len (effectiveColumns fields orderedSeqs) → ∃ t,
        cellText F (cur.cells.getD (cellIndex orderedSeqs i) none) = Outcome.returns (t, none) ∧
        (rows2csvRecord m (Slice.toList (effectiveColumns fields orderedSeqs)) [])[i]? =
          some t := by
  rw [rows2csvRecord_eq]
  refine ⟨by simp [Slice.len], ?_⟩
  intro i hi
  by_cases hsel : orderedSeqs ≠ none ∧ Slice.len orderedSeqs > 0
  · cases orderedSeqs with
    | none => exact absurd rfl hsel.1
    | some seqs =>
      have hne : seqs ≠ [] := by
        intro h0
        subst h0
        simp [Slice.len, Slice.toList] at hsel
      obtain ⟨gm, hgm, hget⟩ := row2mapStr2_selected_get F cur fields seqs hnodup hne
        (by simpa [Slice.toList] using hvalid) m h
      subst hgm
      have heff : Slice.toList (effectiveColumns fields (some seqs)) =
          seqs.map (fun s => (Slice.toList fields).getD s.toNat []) := by
        simp only [effectiveColumns]
        rw [if_pos hsel]
        rfl
      have hi2 : i < seqs.length := by
        simp only [Slice.len, heff, List.length_map] at hi
        exact hi
      obtain ⟨t, ht, hgt⟩ := hget seqs[i] (List.getElem_mem _)
      refine ⟨t, ?_, ?_⟩
      · simp only [cellIndex]
        rw [if_pos hsel]
        simp only [Slice.toList, List.getD_eq_getElem _ _ hi2]
        exact ht
      · rw [heff]
        simp only [List.getD_eq_getElem?_getD] at hgt
        simp [hi2, hgt]
  · have hempty : orderedSeqs = none ∨ orderedSeqs = some [] := by
      cases orderedSeqs with
      | none => exact Or.inl rfl
      | some l =>
        cases l with
        | nil => exact Or.inr rfl
        | cons a l => simp [Slice.len, Slice.toList] at hsel
    have hscan := row2mapStr2_returns_scan F cur fields orderedSeqs m h
    rw [row2mapStr2_empty F cur fields orderedSeqs hempty] at h
    obtain ⟨gm, hgm, _, hget⟩ := row2mapStr_get F cur fields hscan hnodup m h
    subst hgm
    have heff : effectiveColumns fields orderedSeqs = fields := by
      simp only [effectiveColumns]
      rw [if_neg hsel]
    rw [heff] at hi ⊢
    obtain ⟨t, ht, hgt⟩ := hget i hi
    have hi2 : i < (Slice.toList fields).length := hi
    refine ⟨t, ?_, ?_⟩
    · simp only [cellIndex]
      rw [if_neg hsel]
      exact ht
    · rw [List.getD_eq_getElem _ _ hi2] at hgt
      simp [hi2, hgt]

theorem rows2csvLoop_written (F : StdFormat) (fields : Slice GoString)
    (orderedSeqs : Slice Int) (fields2 : Slice GoString) (pending : List RowData) (w : Sink)
    (lines : Int) (k : Nat) (call : SinkCall)
    (h : (rows2csvLoop F fields orderedSeqs fields2 pending w lines).2.2[k]? = some call) :
    ∃ r result, pending[k]? = some r ∧
      (row2mapStr2 F r fields orderedSeqs).1 = Outcome.returns (result, none) ∧
      call = SinkCall.Write (rows2csvRecord result (Slice.toList fields2) []) := by
  induction pending generalizing w lines k with
  | nil => simp [rows2csvLoop] at h
  | cons cur rest ih =>
    cases hd : row2mapStr2 F cur fields orderedSeqs with
    | mk o cs =>
      cases o with
      | panics => simp [rows2csvLoop, hd] at h
      | returns p =>
        obtain ⟨result, err⟩ := p
        cases err with
        | some e => simp [rows2csvLoop, hd] at h
        | none =>
          cases hwr : w.Write with
          | mk e w1 =>
            cases e with
            | some e =>
              simp only [rows2csvLoop, hd, hwr] at h
              cases k with
              | zero =>
                simp only [List.getElem?_cons_zero, Option.some.injEq] at h
                exact ⟨cur, result, by simp, by rw [hd], h.symm⟩
              | succ k => simp at h
            | none =>
              simp only [rows2csvLoop, hd, hwr] at h
              cases k with
              | zero =>
                simp only [List.getElem?_cons_zero, Option.some.injEq] at h
                exact ⟨cur, result, by simp, by rw [hd], h.symm⟩
              | succ k =>
                simp only [List.getElem?_cons_succ] at h
                obtain ⟨r, res, h1, h2, h3⟩ := ih w1 (lines + 1) k h
                exact ⟨r, res, by simpa using h1, h2, h3⟩

theorem rows2csv_written (F : StdFormat) (rows : Rows) (w : Sink) (orderedSeqs : Slice Int)
    (hcols : rows.columnsErr = none)
    (hvalid : ∀ s ∈ Slice.toList orderedSeqs, 0 ≤ s ∧ s < (Slice.len rows.columns : Int))
    (k : Nat) (rec : List GoString)
    (h : (rows2csv F rows w orderedSeqs).2.2[k + 1]? = some (SinkCall.Write rec)) :
    ∃ r result, rows.pending[k]? = some r ∧
      (row2mapStr2 F r rows.columns orderedSeqs).1 = Outcome.returns (result, none) ∧
      rec = rows2csvRecord result
        (Slice.toList (effectiveColumns rows.columns orderedSeqs)) [] := by
  simp only [rows2csv, hcols, checked_valid rows.columns orderedSeqs hvalid] at h
  cases hwr : w.Write with
  | mk e w1 =>
    rw [hwr] at h
    cases e with
    | some e => simp at h
    | none =>
      simp only at h
      cases hl : rows2csvLoop F rows.columns orderedSeqs
          (effectiveColumns rows.columns orderedSeqs) rows.pending w1 0 with
      | mk o rest =>
        obtain ⟨cs, ws⟩ := rest
        rw [hl] at h
        have key : ws[k]? = some (SinkCall.Write rec) →
            ∃ r result, rows.pending[k]? = some r ∧
              (row2mapStr2 F r rows.columns orderedSeqs).1 = Outcome.returns (result, none) ∧
              rec = rows2csvRecord result
                (Slice.toList (effectiveColumns rows.columns orderedSeqs)) [] := by
          intro hk
          obtain ⟨r, result, h1, h2, h3⟩ := rows2csvLoop_written F rows.columns orderedSeqs
            (effectiveColumns rows.columns orderedSeqs) rows.pending w1 0 k
            (SinkCall.Write rec) (by rw [hl]; exact hk)
          exact ⟨r, result, h1, h2, by simpa using h3⟩
        cases o with
        | panics =>
          simp only [List.getElem?_cons_succ] at h
          exact key h
        | returns p =>
          obtain ⟨lines, err⟩ := p
          cases err with
          | some e =>
            simp only [List.getElem?_cons_succ] at h
            exact key h
          | none =>
            simp only [List.getElem?_cons_succ] at h
            by_cases hk : k < ws.length
            · rw [List.getElem?_append_left hk] at h
              exact key h
            · rw [List.getElem?_append_right (by omega)] at h
              cases hkk : k - ws.length with
              | zero => rw [hkk] at h; simp at h
              | succ n => rw [hkk] at h; simp at h

/-- C14, as the code has it: when `Columns()` yields pairwise distinct names and the
selection is nil, empty or in range, every data record `rows2csv` writes (the sink
call after the header and the `k` records before it) belongs to the `k`-th row of the
cursor, is as long as the effective column list, and holds at position `i` the
converted text of that row's cell at index `orderedSeqs[i]`, or at index `i` for a nil
or empty selection. -/
theorem rows2csv_record_aligned (F : StdFormat) (rows : Rows) (w : Sink)
    (orderedSeqs : Slice Int) (hcols : rows.columnsErr = none)
    (hnodup : (Slice.toList rows.columns).Nodup)
    (hvalid : ∀ s ∈ Slice.toList orderedSeqs, 0 ≤ s ∧ s < (Slice.len rows.columns : Int))
    (k : Nat) (rec : List GoString)
    (h : (rows2csv F rows w orderedSeqs).2.2[k + 1]? = some (SinkCall.Write rec)) :
    ∃ r, rows.pending[k]? = some r ∧
      rec.length = Slice.len (effectiveColumns rows.columns orderedSeqs) ∧
      ∀ i, i < Slice.len (effectiveColumns rows.columns orderedSeqs) → ∃ t,
        cellText F (r.cells.getD (cellIndex orderedSeqs i) none) = Outcome.returns (t, none) ∧
        rec[i]? = some t := by
  obtain ⟨r, result, h1, h2, h3⟩ := rows2csv_written F rows w orderedSeqs hcols hvalid k rec h
  obtain ⟨hlen, hget⟩ := row2mapStr2_record F r rows.columns orderedSeqs hnodup hvalid result h2
  subst h3
  exact ⟨r, h1, hlen, hget⟩

/-- Witness of C14: the second data record of the export of the two-row result set
with the selection `[2, 0]`. -/
theorem rows2csv_record_aligned_witness :
    ∃ r, exampleRows.pending[1]? = some r ∧
      ([[], [48]] : List GoString).length =
        Slice.len (effectiveColumns exampleRows.columns (some [2, 0])) ∧
      ∀ i, i < Slice.len (effectiveColumns exampleRows.columns (some [2, 0])) → ∃ t,
        cellText exampleFormat (r.cells.getD (cellIndex (some [2, 0]) i) none) =
          Outcome.returns (t, none) ∧
        ([[], [48]] : List GoString)[i]? = some t :=
  rows2csv_record_aligned exampleFormat exampleRows goodSink (some [2, 0]) rfl
    (by simp [exampleRows, Slice.toList])
    (by
      intro s hs
      simp only [Slice.toList, List.mem_cons, List.mem_singleton, List.not_mem_nil,
        or_false] at hs
      rcases hs with rfl | rfl <;> simp [Slice.len, Slice.toList, exampleRows])
    1 [[], [48]] rfl

/-- Counterexample to C14 as stated: for the result set with two columns both named
`a` and the row `("x", "y")`, the data record written under a nil selection is
`["y", "y"]`; its first field is not the converted text `"x"` of the cell at index 0. -/
theorem rows2csv_record_same_names :
    rows2csv exampleFormat sameNameRows goodSink none =
        (Outcome.returns (1, none), [Call.Columns, Call.Next, Call.Scan 2, Call.Next],
          [SinkCall.Write [[97], [97]], SinkCall.Write [[121], [121]], SinkCall.Flush]) ∧
      (sameNameRows.pending.map (fun r => cellText exampleFormat (r.cells.getD 0 none))) =
        [Outcome.returns ([120], none)] :=
  ⟨rfl, rfl⟩

theorem rows2csvLoop_flushErr (F : StdFormat) (fields : Slice GoString)
    (orderedSeqs : Slice Int) (fields2 : Slice GoString) (pending : List RowData)
    (ws : List (Option GoError)) (e1 e2 : Option GoError) (lines : Int) :
    rows2csvLoop F fields orderedSeqs fields2 pending ⟨ws, e1⟩ lines =
      rows2csvLoop F fields orderedSeqs fields2 pending ⟨ws, e2⟩ lines := by
  induction pending generalizing ws lines with
  | nil => rfl
  | cons cur rest ih =>
    simp only [rows2csvLoop, Sink.Write]
    split
    · rfl
    · rfl
    · cases ws.headD none with
      | some e => rfl
      | none =>
        simp only
        rw [ih ws.tail (lines + 1)]

/-- A failing `Write`, of the header or of a data record, ends the export: when the
`j`-th write the sink is asked for is one it reports as failed with `e`, `rows2csv`
returns `(-1, e)` and makes no sink call after it. -/
theorem rows2csvLoop_write_failure (F : StdFormat) (fields : Slice GoString)
    (orderedSeqs : Slice Int) (fields2 : Slice GoString) (pending : List RowData) (w : Sink)
    (lines : Int) (j : Nat) (e : GoError) (rec : List GoString)
    (hfail : w.writeErrs[j]? = some (some e))
    (hcall : (rows2csvLoop F fields orderedSeqs fields2 pending w lines).2.2[j]? =
      some (SinkCall.Write rec)) :
    (rows2csvLoop F fields orderedSeqs fields2 pending w lines).1 =
        Outcome.returns (-1, some e) ∧
      (rows2csvLoop F fields orderedSeqs fields2 pending w lines).2.2.length = j + 1 := by
  induction pending generalizing w lines j with
  | nil => simp [rows2csvLoop] at hcall
  | cons cur rest ih =>
    cases hd : row2mapStr2 F cur fields orderedSeqs with
    | mk o cs =>
      cases o with
      | panics => simp [rows2csvLoop, hd] at hcall
      | returns p =>
        obtain ⟨result, err⟩ := p
        cases err with
        | some e0 => simp [rows2csvLoop, hd] at hcall
        | none =>
          cases hws : w.writeErrs with
          | nil => rw [hws] at hfail; simp at hfail
          | cons a tl =>
            rw [hws] at hfail
            have hwr : w.Write = (a, { w with writeErrs := tl }) := by
              simp [Sink.Write, hws]
            cases a with
            | some e0 =>
              simp only [rows2csvLoop, hd, hwr] at hcall ⊢
              cases j with
              | zero =>
                simp only [List.getElem?_cons_zero, Option.some.injEq] at hfail
                subst hfail
                simp
              | succ j => simp at hcall
            | none =>
              simp only [rows2csvLoop, hd, hwr] at hcall ⊢
              cases j with
              | zero => simp at hfail
              | succ j =>
                simp only [List.getElem?_cons_succ] at hfail hcall
                obtain ⟨h1, h2⟩ := ih { w with writeErrs := tl } (lines + 1) j hfail hcall
                exact ⟨h1, by simp [h2]⟩

theorem rows2csv_write_failure (F : StdFormat) (rows : Rows) (w : Sink)
    (orderedSeqs : Slice Int) (j : Nat) (e : GoError) (rec : List GoString)
    (hfail : w.writeErrs[j]? = some (some e))
    (hcall : (rows2csv F rows w orderedSeqs).2.2[j]? = some (SinkCall.Write rec)) :
    (rows2csv F rows w orderedSeqs).1 = Outcome.returns (-1, some e) ∧
      (rows2csv F rows w orderedSeqs).2.2.length = j + 1 := by
  cases hc : rows.columnsErr with
  | some err => simp [rows2csv, hc] at hcall
  | none =>
    unfold rows2csv at hcall ⊢
    rw [hc] at hcall ⊢
    dsimp only at hcall ⊢
    generalize (if orderedSeqs ≠ none ∧ Slice.len orderedSeqs > 0 then
        selectFieldsLoop (Slice.toList rows.columns) (Slice.toList orderedSeqs) []
      else Outcome.returns (rows.columns, none)) = chk at hcall ⊢
    cases chk with
    | panics => simp at hcall
    | returns p =>
      obtain ⟨fields2, err⟩ := p
      cases err with
      | some e0 => simp at hcall
      | none =>
        simp only at hcall ⊢
        cases hws : w.writeErrs with
        | nil => rw [hws] at hfail; simp at hfail
        | cons a tl =>
          rw [hws] at hfail
          have hwr : w.Write = (a, { w with writeErrs := tl }) := by
            simp [Sink.Write, hws]
          cases a with
          | some e0 =>
            simp only [hwr] at hcall ⊢
            cases j with
            | zero =>
              simp only [List.getElem?_cons_zero, Option.some.injEq] at hfail
              subst hfail
              simp
            | succ j => simp at hcall
          | none =>
            simp only [hwr] at hcall ⊢
            cases j with
            | zero => simp at hfail
            | succ j =>
              simp only [List.getElem?_cons_succ] at hfail
              cases hl : rows2csvLoop F rows.columns orderedSeqs fields2 rows.pending
                  { w with writeErrs := tl } 0 with
              | mk o rest =>
                obtain ⟨cs, ws⟩ := rest
                rw [hl] at hcall
                have key : ws[j]? = some (SinkCall.Write rec) →
                    o = Outcome.returns (-1, some e) ∧ ws.length = j + 1 := by
                  intro hk
                  have := rows2csvLoop_write_failure F rows.columns orderedSeqs fields2
                    rows.pending { w with writeErrs := tl } 0 j e rec hfail
                    (by rw [hl]; exact hk)
                  rw [hl] at this
                  exact this
                cases o with
                | panics =>
                  simp only [List.getElem?_cons_succ] at hcall
                  exact absurd (key hcall).1 (by simp)
                | returns p =>
                  obtain ⟨lines, err⟩ := p
                  cases err with
                  | some e0 =>
                    simp only [List.getElem?_cons_succ] at hcall
                    obtain ⟨h1, h2⟩ := key hcall
                    simp only [Outcome.returns.injEq, Prod.mk.injEq, Option.some.injEq] at h1
                    simp [h1.1, h1.2, h2]
                  | none =>
                    simp only [List.getElem?_cons_succ] at hcall
                    by_cases hk : j < ws.length
                    · rw [List.getElem?_append_left hk] at hcall
                      exact absurd (key hcall).1 (by simp)
                    · rw [List.getElem?_append_right (by omega)] at hcall
                      cases hkk : j - ws.length with
                      | zero => rw [hkk] at hcall; simp at hcall
                      | succ n => rw [hkk] at hcall; simp at hcall

/-- C15, at the failing input: a failure of the final flush is not returned.  The
result and the calls of `rows2csv` are the same whether the flush of the sink fails or
not, and on the export of the two-row result set to a sink whose flush fails
`rows2csv` returns `(2, nil)`. -/
theorem rows2csv_flush_failure_swallowed :
    (∀ (F : StdFormat) (rows : Rows) (ws : List (Option GoError)) (e : GoError)
        (orderedSeqs : Slice Int),
      rows2csv F rows ⟨ws, some e⟩ orderedSeqs = rows2csv F rows ⟨ws, none⟩ orderedSeqs) ∧
    rows2csv exampleFormat exampleRows flushFailSink none =
      (Outcome.returns (2, none),
        [Call.Columns, Call.Next, Call.Scan 3, Call.Next, Call.Scan 3, Call.Next],
        [SinkCall.Write [[97], [98], [99]], SinkCall.Write [[53], [], [120]],
          SinkCall.Write [[48], [116, 114, 117, 101], []], SinkCall.Flush]) := by
  refine ⟨?_, rfl⟩
  intro F rows ws e orderedSeqs
  simp only [rows2csv, Sink.Write]
  cases rows.columnsErr with
  | some err => rfl
  | none =>
    simp only
    split
    · rfl
    · rfl
    · cases ws.headD none with
      | some e0 => rfl
      | none =>
        simp only
        rw [rows2csvLoop_flushErr F rows.columns orderedSeqs _ rows.pending ws.tail
          (some e) none 0]

/-! ## Failing rows -/

theorem assembleLoop_returns_all {α : Type}
    (decode : RowData → Outcome (α × Option GoError) × List Call)
    (pending : List RowData) (acc x : Slice α)
    (h : (assembleLoop decode pending acc).1 = Outcome.returns (x, none)) :
    ∀ r ∈ pending, ∃ m, (decode r).1 = Outcome.returns (m, none) := by
  induction pending generalizing acc with
  | nil => simp
  | cons cur rest ih =>
    simp only [assembleLoop] at h
    split at h
    · simp at h
    · simp at h
    · rename_i result cs hd
      intro r hr
      rcases List.mem_cons.mp hr with rfl | hr
      · exact ⟨result, by rw [hd]⟩
      · exact ih _ h r hr

theorem row2mapStr_error_nil (F : StdFormat) (cur : RowData) (fields : Slice GoString)
    (x : MapStr) (e : GoError) (h : (row2mapStr F cur fields).1 = Outcome.returns (x, some e)) :
    x = none := by
  cases hs : cur.scanErr with
  | none => exact (row2mapStr_error_source F cur fields hs x e h).1
  | some e2 =>
    rw [row2mapStr_scanErr F cur fields e2 hs] at h
    simp only [Outcome.returns.injEq, Prod.mk.injEq] at h
    exact h.1.symm

theorem row2sliceStr_error_nil (F : StdFormat) (cur : RowData) (fields : Slice GoString)
    (x : Slice GoString) (e : GoError)
    (h : (row2sliceStr F cur fields).1 = Outcome.returns (x, some e)) : x = none := by
  cases hs : cur.scanErr with
  | none => exact (row2sliceStr_error_source F cur fields hs x e h).1
  | some e2 =>
    rw [row2sliceStr_scanErr F cur fields e2 hs] at h
    simp only [Outcome.returns.injEq, Prod.mk.injEq] at h
    exact h.1.symm

theorem row2mapStr2_error_nil (F : StdFormat) (cur : RowData) (fields : Slice GoString)
    (orderedSeqs : Slice Int) (x : MapStr) (e : GoError)
    (h : (row2mapStr2 F cur fields orderedSeqs).1 = Outcome.returns (x, some e)) :
    x = none := by
  cases hs : cur.scanErr with
  | none => exact (row2mapStr2_error_source F cur fields orderedSeqs hs x e h).1
  | some e2 =>
    rw [row2mapStr2_scanErr F cur fields orderedSeqs e2 hs] at h
    simp only [Outcome.returns.injEq, Prod.mk.injEq] at h
    exact h.1.symm

theorem row2mapStr_returns_cells (F : StdFormat) (cur : RowData) (fields : Slice GoString)
    (m : MapStr) (h : (row2mapStr F cur fields).1 = Outcome.returns (m, none)) :
    cur.scanErr = none ∧ ∀ j, j < Slice.len fields →
      ∃ t, cellText F (cur.cells.getD j none) = Outcome.returns (t, none) := by
  cases hs : cur.scanErr with
  | some e2 =>
    rw [row2mapStr_scanErr F cur fields e2 hs] at h
    simp at h
  | none =>
    refine ⟨rfl, ?_⟩
    rw [row2mapStr_eq F cur fields hs] at h
    have hall := storeAll_returns F _ [] m h
    intro j hj
    have hj2 : j < (Slice.toList fields).length := hj
    have hjs : j < (scanned cur (Slice.len fields)).length := by
      rw [scanned_length]; exact hj
    have hin : ((Slice.toList fields)[j], (scanned cur (Slice.len fields))[j]) ∈
        (Slice.toList fields).zip (scanned cur (Slice.len fields)) := by
      refine List.mem_iff_getElem.mpr ⟨j, by simp; omega, ?_⟩
      simp
    obtain ⟨t, ht⟩ := hall _ hin
    simp only [scanned_getElem] at ht
    exact ⟨t, ht⟩

theorem row2sliceStr_returns_cells (F : StdFormat) (cur : RowData) (fields : Slice GoString)
    (m : Slice GoString) (h : (row2sliceStr F cur fields).1 = Outcome.returns (m, none)) :
    cur.scanErr = none ∧ ∀ j, j < Slice.len fields →
      ∃ t, cellText F (cur.cells.getD j none) = Outcome.returns (t, none) := by
  cases hs : cur.scanErr with
  | some e2 =>
    rw [row2sliceStr_scanErr F cur fields e2 hs] at h
    simp at h
  | none =>
    refine ⟨rfl, ?_⟩
    rw [row2sliceStr_eq F cur fields hs] at h
    obtain ⟨texts, _, h2⟩ := appendAll_returns F _ [] m h
    obtain ⟨hlen, hget⟩ := List.forall₂_iff_get.mp h2
    intro j hj
    have hjs : j < (scanned cur (Slice.len fields)).length := by
      rw [scanned_length]; exact hj
    have := hget j hjs (by omega)
    simp only [List.get_eq_getElem, scanned_getElem] at this
    exact ⟨_, this⟩

theorem row2mapStr2_returns_cells (F : StdFormat) (cur : RowData) (fields : Slice GoString)
    (orderedSeqs : Slice Int) (m : MapStr)
    (h : (row2mapStr2 F cur fields orderedSeqs).1 = Outcome.returns (m, none)) :
    cur.scanErr = none ∧ ∀ j, j < Slice.len fields →
      (orderedSeqs = none ∨ orderedSeqs = some [] ∨ (j : Int) ∈ Slice.toList orderedSeqs) →
      ∃ t, cellText F (cur.cells.getD j none) = Outcome.returns (t, none) := by
  have hscan := row2mapStr2_returns_scan F cur fields orderedSeqs m h
  refine ⟨hscan, ?_⟩
  intro j hj hsel
  by_cases hempty : orderedSeqs = none ∨ orderedSeqs = some []
  · rw [row2mapStr2_empty F cur fields orderedSeqs hempty] at h
    exact (row2mapStr_returns_cells F cur fields m h).2 j hj
  · have hmem : (j : Int) ∈ Slice.toList orderedSeqs := by tauto
    cases orderedSeqs with
    | none => exact absurd (Or.inl rfl) hempty
    | some seqs =>
      simp only [Slice.toList] at hmem
      have hne : seqs ≠ [] := List.ne_nil_of_mem hmem
      have hcond : (some seqs : Slice Int) ≠ none ∧ Slice.len (some seqs : Slice Int) > 0 :=
        ⟨by simp, List.length_pos_of_mem hmem⟩
      have hvalid : ∀ s ∈ seqs, 0 ≤ s ∧ s < (Slice.len fields : Int) := by
        have h2 := h
        simp only [row2mapStr2, Scan_ok cur _ hscan] at h2
        rw [if_pos hcond] at h2
        exact row2mapStr2SeqLoop_returns_valid F _ _ _ _ m h2
      rw [row2mapStr2_eq F cur fields seqs hscan hne hvalid] at h
      have hall := storeAll_returns F _ [] m h
      obtain ⟨t, ht⟩ := hall _ (List.mem_map.mpr ⟨(j : Int), hmem, rfl⟩)
      simp only [Int.toNat_ofNat] at ht
      exact ⟨t, ht⟩

theorem rows2Strings_loop (F : StdFormat) (rows : Rows) (x : Slice MapStr)
    (e : Option GoError) (h : (rows2Strings F rows).1 = Outcome.returns (x, e)) :
    (rows.columnsErr ≠ none ∧ x = none ∧ e = rows.columnsErr) ∨
      (rows.columnsErr = none ∧
        (assembleLoop (fun cur => row2mapStr F cur rows.columns) rows.pending none).1 =
          Outcome.returns (x, e)) := by
  cases hc : rows.columnsErr with
  | some err =>
    simp only [rows2Strings, hc, Outcome.returns.injEq, Prod.mk.injEq] at h
    exact Or.inl ⟨by simp, h.1.symm, h.2.symm⟩
  | none =>
    simp only [rows2Strings, hc, rows2StringsLoop_eq] at h
    exact Or.inr ⟨rfl, h⟩

theorem rows2SliceString_loop (F : StdFormat) (rows : Rows) (x : Slice (Slice GoString))
    (e : Option GoError) (h : (rows2SliceString F rows).1 = Outcome.returns (x, e)) :
    (rows.columnsErr ≠ none ∧ x = none ∧ e = rows.columnsErr) ∨
      (rows.columnsErr = none ∧
        (assembleLoop (fun cur => row2sliceStr F cur rows.columns) rows.pending none).1 =
          Outcome.returns (x, e)) := by
  cases hc : rows.columnsErr with
  | some err =>
    simp only [rows2SliceString, hc, Outcome.returns.injEq, Prod.mk.injEq] at h
    exact Or.inl ⟨by simp, h.1.symm, h.2.symm⟩
  | none =>
    simp only [rows2SliceString, hc, rows2SliceStringLoop_eq] at h
    exact Or.inr ⟨rfl, h⟩

theorem rows2Strings2_error_nil (F : StdFormat) (rows : Rows) (orderedSeqs : Slice Int)
    (x : Slice MapStr) (f : Slice GoString) (e : GoError)
    (h : (rows2Strings2 F rows orderedSeqs).1 = Outcome.returns (x, f, some e)) :
    x = none ∧ f = none := by
  unfold rows2Strings2 at h
  cases hc : rows.columnsErr with
  | some err =>
    rw [hc] at h
    simp only [Outcome.returns.injEq, Prod.mk.injEq] at h
    exact ⟨h.1.symm, h.2.1.symm⟩
  | none =>
    rw [hc] at h
    dsimp only at h
    generalize (if orderedSeqs ≠ none ∧ Slice.len orderedSeqs > 0 then
        selectFieldsLoop (Slice.toList rows.columns) (Slice.toList orderedSeqs) []
      else Outcome.returns (rows.columns, none)) = chk at h
    cases chk with
    | panics => simp at h
    | returns p =>
      obtain ⟨fields2, err⟩ := p
      cases err with
      | some e0 =>
        simp only [Outcome.returns.injEq, Prod.mk.injEq] at h
        exact ⟨h.1.symm, h.2.1.symm⟩
      | none =>
        simp only at h
        cases hl : rows2Strings2Loop F rows.columns orderedSeqs rows.pending none with
        | mk o cs =>
          rw [hl] at h
          cases o with
          | panics => simp at h
          | returns q =>
            obtain ⟨rs, err2⟩ := q
            cases err2 with
            | some e1 =>
              simp only [Outcome.returns.injEq, Prod.mk.injEq] at h
              exact ⟨h.1.symm, h.2.1.symm⟩
            | none => simp at h

theorem rows2Strings2_success_loop (F : StdFormat) (rows : Rows) (orderedSeqs : Slice Int)
    (x : Slice MapStr) (f : Slice GoString)
    (h : (rows2Strings2 F rows orderedSeqs).1 = Outcome.returns (x, f, none)) :
    (assembleLoop (fun cur => row2mapStr2 F cur rows.columns orderedSeqs)
      rows.pending none).1 = Outcome.returns (x, none) := by
  unfold rows2Strings2 at h
  cases hc : rows.columnsErr with
  | some err =>
    rw [hc] at h
    simp at h
  | none =>
    rw [hc] at h
    dsimp only at h
    generalize (if orderedSeqs ≠ none ∧ Slice.len orderedSeqs > 0 then
        selectFieldsLoop (Slice.toList rows.columns) (Slice.toList orderedSeqs) []
      else Outcome.returns (rows.columns, none)) = chk at h
    cases chk with
    | panics => simp at h
    | returns p =>
      obtain ⟨fields2, err⟩ := p
      cases err with
      | some e0 => simp at h
      | none =>
        simp only at h
        rw [← rows2Strings2Loop_eq]
        cases hl : rows2Strings2Loop F rows.columns orderedSeqs rows.pending none with
        | mk o cs =>
          rw [hl] at h
          cases o with
          | panics => simp at h
          | returns q =>
            obtain ⟨rs, err2⟩ := q
            cases err2 with
            | some e1 => simp at h
            | none =>
              simp only [Outcome.returns.injEq, Prod.mk.injEq, and_true] at h
              simp [h.1]

/-- C16, as the code has it.  Whenever `rows2Strings`, `rows2SliceString` or
`rows2Strings2` returns an error, the row sequence it returns is nil (for
`rows2Strings2` the effective columns too), never the rows decoded so far; whenever
`row2mapStr`, `row2sliceStr` or `row2mapStr2` returns an error, the row it returns is
nil.  And a result set with a row whose scan fails, or with a cell that does not
convert to text, is never passed over: `rows2Strings` and `rows2SliceString` do not
return a nil error on it, and neither does `rows2Strings2` when the scan fails or the
column of that cell is emitted (nil or empty selection, or the column selected). -/
theorem failing_row_no_rows (F : StdFormat) :
    (∀ rows x e, (rows2Strings F rows).1 = Outcome.returns (x, some e) → x = none) ∧
    (∀ rows x e, (rows2SliceString F rows).1 = Outcome.returns (x, some e) → x = none) ∧
    (∀ rows orderedSeqs x f e,
      (rows2Strings2 F rows orderedSeqs).1 = Outcome.returns (x, f, some e) →
      x = none ∧ f = none) ∧
    (∀ cur fields x e, (row2mapStr F cur fields).1 = Outcome.returns (x, some e) →
      x = none) ∧
    (∀ cur fields x e, (row2sliceStr F cur fields).1 = Outcome.returns (x, some e) →
      x = none) ∧
    (∀ cur fields orderedSeqs x e,
      (row2mapStr2 F cur fields orderedSeqs).1 = Outcome.returns (x, some e) → x = none) ∧
    (∀ (rows : Rows) (r : RowData) (j : Nat), r ∈ rows.pending →
      (r.scanErr ≠ none ∨ (j < Slice.len rows.columns ∧
        ∀ t, cellText F (r.cells.getD j none) ≠ Outcome.returns (t, none))) →
      (∀ x, (rows2Strings F rows).1 ≠ Outcome.returns (x, none)) ∧
      (∀ x, (rows2SliceString F rows).1 ≠ Outcome.returns (x, none)) ∧
      (∀ (orderedSeqs : Slice Int) x f,
        (r.scanErr ≠ none ∨ orderedSeqs = none ∨ orderedSeqs = some [] ∨
          (j : Int) ∈ Slice.toList orderedSeqs) →
        (rows2Strings2 F rows orderedSeqs).1 ≠ Outcome.returns (x, f, none))) := by
  refine ⟨?_, ?_, ?_, ?_, ?_, ?_, ?_⟩
  · intro rows x e h
    rcases rows2Strings_loop F rows x (some e) h with ⟨_, hx, _⟩ | ⟨_, hl⟩
    · exact hx
    · exact assembleLoop_error_rows _ rows.pending none x e hl
  · intro rows x e h
    rcases rows2SliceString_loop F rows x (some e) h with ⟨_, hx, _⟩ | ⟨_, hl⟩
    · exact hx
    · exact assembleLoop_error_rows _ rows.pending none x e hl
  · intro rows orderedSeqs x f e h
    exact rows2Strings2_error_nil F rows orderedSeqs x f e h
  · intro cur fields x e h
    exact row2mapStr_error_nil F cur fields x e h
  · intro cur fields x e h
    exact row2sliceStr_error_nil F cur fields x e h
  · intro cur fields orderedSeqs x e h
    exact row2mapStr2_error_nil F cur fields orderedSeqs x e h
  · intro rows r j hr hfail
    refine ⟨?_, ?_, ?_⟩
    · intro x h
      rcases rows2Strings_loop F rows x none h with ⟨hc, _, he⟩ | ⟨_, hl⟩
      · exact hc he.symm
      · obtain ⟨m, hm⟩ := assembleLoop_returns_all _ rows.pending none x hl r hr
        obtain ⟨hscan, hcells⟩ := row2mapStr_returns_cells F r rows.columns m hm
        rcases hfail with hf | ⟨hj, hf⟩
        · exact hf hscan
        · obtain ⟨t, ht⟩ := hcells j hj
          exact hf t ht
    · intro x h
      rcases rows2SliceString_loop F rows x none h with ⟨hc, _, he⟩ | ⟨_, hl⟩
      · exact hc he.symm
      · obtain ⟨m, hm⟩ := assembleLoop_returns_all _ rows.pending none x hl r hr
        obtain ⟨hscan, hcells⟩ := row2sliceStr_returns_cells F r rows.columns m hm
        rcases hfail with hf | ⟨hj, hf⟩
        · exact hf hscan
        · obtain ⟨t, ht⟩ := hcells j hj
          exact hf t ht
    · intro orderedSeqs x f hsel h
      have hl := rows2Strings2_success_loop F rows orderedSeqs x f h
      obtain ⟨m, hm⟩ := assembleLoop_returns_all _ rows.pending none x hl r hr
      obtain ⟨hscan, hcells⟩ := row2mapStr2_returns_cells F r rows.columns orderedSeqs m hm
      rcases hfail with hf | ⟨hj, hf⟩
      · exact hf hscan
      · rcases hsel with hs | hs
        · exact hs hscan
        · obtain ⟨t, ht⟩ := hcells j hj hs
          exact hf t ht

/-- Witness of C16: the result set whose only row holds a map in column `a`, and the
result set whose only row fails to scan. -/
theorem failing_row_no_rows_witness :
    ((rows2Strings exampleFormat mapCellRows).1 ≠ Outcome.returns (none, none) ∧
      (rows2SliceString exampleFormat mapCellRows).1 ≠ Outcome.returns (none, none) ∧
      (rows2Strings2 exampleFormat mapCellRows (some [0])).1 ≠
        Outcome.returns (none, none, none)) ∧
    (rows2Strings exampleFormat scanFailRows).1 ≠ Outcome.returns (none, none) :=
  ⟨⟨((failing_row_no_rows exampleFormat).2.2.2.2.2.2 mapCellRows
        (RowData.mk none [some (GoValue.other OtherKind.Map [])]) 0
        (by simp [mapCellRows])
        (Or.inr ⟨by simp [mapCellRows, Slice.len, Slice.toList],
          by intro t h; simp [cellText, value2String] at h⟩)).1 none,
      ((failing_row_no_rows exampleFormat).2.2.2.2.2.2 mapCellRows
        (RowData.mk none [some (GoValue.other OtherKind.Map [])]) 0
        (by simp [mapCellRows])
        (Or.inr ⟨by simp [mapCellRows, Slice.len, Slice.toList],
          by intro t h; simp [cellText, value2String] at h⟩)).2.1 none,
      ((failing_row_no_rows exampleFormat).2.2.2.2.2.2 mapCellRows
        (RowData.mk none [some (GoValue.other OtherKind.Map [])]) 0
        (by simp [mapCellRows])
        (Or.inr ⟨by simp [mapCellRows, Slice.len, Slice.toList],
          by intro t h; simp [cellText, value2String] at h⟩)).2.2 (some [0]) none none
        (Or.inr (Or.inr (Or.inr (by simp [Slice.toList]))))⟩,
    ((failing_row_no_rows exampleFormat).2.2.2.2.2.2 scanFailRows
      (RowData.mk (some (GoError.external 1)) []) 0 (by simp [scanFailRows])
      (Or.inl (by simp))).1 none⟩

/-- Counterexample to C16 as stated: the result set with the columns `a, b` and the
row `("x", map)` holds a cell of an unsupported kind, yet `rows2Strings2` with the
selection `[0]` returns the row and a nil error. -/
theorem rows2Strings2_skips_unselected_failure :
    value2String exampleFormat (GoValue.other OtherKind.Map []) =
        Outcome.returns ([], some (GoError.unsupportedType [])) ∧
      rows2Strings2 exampleFormat textMapRows (some [0]) =
        (Outcome.returns (some [some [([97], [120])]], some [[97]], none),
          [Call.Columns, Call.Next, Call.Scan 2, Call.Next]) :=
  ⟨rfl, rfl⟩

/-! ## Closing the cursor -/

theorem row2mapStr_calls (F : StdFormat) (cur : RowData) (fields : Slice GoString) :
    (row2mapStr F cur fields).2 = [Call.Scan (Slice.len fields)] := by
  cases hs : cur.scanErr with
  | some e => rw [row2mapStr_scanErr F cur fields e hs]
  | none => rw [row2mapStr_eq F cur fields hs]

theorem row2sliceStr_calls (F : StdFormat) (cur : RowData) (fields : Slice GoString) :
    (row2sliceStr F cur fields).2 = [Call.Scan (Slice.len fields)] := by
  cases hs : cur.scanErr with
  | some e => rw [row2sliceStr_scanErr F cur fields e hs]
  | none => rw [row2sliceStr_eq F cur fields hs]

theorem row2mapInterface_calls (cur : RowData) (fields : Slice GoString) :
    (row2mapInterface cur fields).2 = [Call.Scan (Slice.len fields)] := by
  cases hs : cur.scanErr with
  | some e => rw [row2mapInterface_scanErr cur fields e hs]
  | none => rw [row2mapInterface_eq cur fields hs]

theorem row2mapStr2_calls (F : StdFormat) (cur : RowData) (fields : Slice GoString)
    (orderedSeqs : Slice Int) :
    (row2mapStr2 F cur fields orderedSeqs).2 = [Call.Scan (Slice.len fields)] := by
  cases hs : cur.scanErr with
  | some e => rw [row2mapStr2_scanErr F cur fields orderedSeqs e hs]
  | none =>
    simp only [row2mapStr2, Scan_ok cur _ hs]
    split <;> rfl

theorem assembleLoop_no_close {α : Type}
    (decode : RowData → Outcome (α × Option GoError) × List Call)
    (pending : List RowData) (acc : Slice α)
    (h : ∀ r, Call.Close ∉ (decode r).2) :
    Call.Close ∉ (assembleLoop decode pending acc).2 := by
  induction pending generalizing acc with
  | nil => simp [assembleLoop]
  | cons cur rest ih =>
    have hcur := h cur
    simp only [assembleLoop]
    split
    · rename_i cs hd
      rw [hd] at hcur
      simpa using hcur
    · rename_i cs hd
      rw [hd] at hcur
      simpa using hcur
    · rename_i result cs hd
      rw [hd] at hcur
      have := ih (Slice.append acc [result])
      simp only [List.mem_cons, List.mem_append, not_or]
      exact ⟨by simp, hcur, this⟩

theorem rows2Strings_no_close (F : StdFormat) (rows : Rows) :
    Call.Close ∉ (rows2Strings F rows).2 := by
  cases hc : rows.columnsErr with
  | some err => simp [rows2Strings, hc]
  | none =>
    simp only [rows2Strings, hc, rows2StringsLoop_eq, List.mem_cons, not_or]
    exact ⟨by simp, assembleLoop_no_close _ _ _ (fun r => by simp [row2mapStr_calls])⟩

theorem rows2SliceString_no_close (F : StdFormat) (rows : Rows) :
    Call.Close ∉ (rows2SliceString F rows).2 := by
  cases hc : rows.columnsErr with
  | some err => simp [rows2SliceString, hc]
  | none =>
    simp only [rows2SliceString, hc, rows2SliceStringLoop_eq, List.mem_cons, not_or]
    exact ⟨by simp, assembleLoop_no_close _ _ _ (fun r => by simp [row2sliceStr_calls])⟩

theorem rows2Interfaces_no_close (rows : Rows) :
    Call.Close ∉ (rows2Interfaces rows).2 := by
  cases hc : rows.columnsErr with
  | some err => simp [rows2Interfaces, hc]
  | none =>
    simp only [rows2Interfaces, hc, rows2InterfacesLoop_eq, List.mem_cons, not_or]
    exact ⟨by simp, assembleLoop_no_close _ _ _ (fun r => by simp [row2mapInterface_calls])⟩

theorem rows2Strings2_no_close (F : StdFormat) (rows : Rows) (orderedSeqs : Slice Int) :
    Call.Close ∉ (rows2Strings2 F rows orderedSeqs).2 := by
  unfold rows2Strings2
  cases hc : rows.columnsErr with
  | some err => simp
  | none =>
    dsimp only
    generalize (if orderedSeqs ≠ none ∧ Slice.len orderedSeqs > 0 then
        selectFieldsLoop (Slice.toList rows.columns) (Slice.toList orderedSeqs) []
      else Outcome.returns (rows.columns, none)) = chk
    have hloop : Call.Close ∉
        (rows2Strings2Loop F rows.columns orderedSeqs rows.pending none).2 := by
      rw [rows2Strings2Loop_eq]
      exact assembleLoop_no_close _ _ _ (fun r => by simp [row2mapStr2_calls])
    cases chk with
    | panics => simp
    | returns p =>
      obtain ⟨fields2, err⟩ := p
      cases err with
      | some e0 => simp
      | none =>
        simp only
        cases hl : rows2Strings2Loop F rows.columns orderedSeqs rows.pending none with
        | mk o cs =>
          rw [hl] at hloop
          cases o with
          | panics => simpa using hloop
          | returns q =>
            obtain ⟨rs, err2⟩ := q
            cases err2 <;> simpa using hloop

theorem rows2csvLoop_no_close (F : StdFormat) (fields : Slice GoString)
    (orderedSeqs : Slice Int) (fields2 : Slice GoString) (pending : List RowData) (w : Sink)
    (lines : Int) :
    Call.Close ∉ (rows2csvLoop F fields orderedSeqs fields2 pending w lines).2.1 := by
  induction pending generalizing w lines with
  | nil => simp [rows2csvLoop]
  | cons cur rest ih =>
    have hcur := row2mapStr2_calls F cur fields orderedSeqs
    cases hd : row2mapStr2 F cur fields orderedSeqs with
    | mk o cs =>
      rw [hd] at hcur
      simp only at hcur
      subst hcur
      cases o with
      | panics => simp [rows2csvLoop, hd]
      | returns p =>
        obtain ⟨result, err⟩ := p
        cases err with
        | some e => simp [rows2csvLoop, hd]
        | none =>
          cases hwr : w.Write with
          | mk e w1 =>
            cases e with
            | some e => simp [rows2csvLoop, hd, hwr]
            | none =>
              have := ih w1 (lines + 1)
              simp only [rows2csvLoop, hd, hwr, List.mem_cons, List.mem_append, not_or]
              exact ⟨by simp, by simp, this⟩

theorem rows2csv_no_close (F : StdFormat) (rows : Rows) (w : Sink) (orderedSeqs : Slice Int) :
    Call.Close ∉ (rows2csv F rows w orderedSeqs).2.1 := by
  unfold rows2csv
  cases hc : rows.columnsErr with
  | some err => simp
  | none =>
    dsimp only
    generalize (if orderedSeqs ≠ none ∧ Slice.len orderedSeqs > 0 then
        selectFieldsLoop (Slice.toList rows.columns) (Slice.toList orderedSeqs) []
      else Outcome.returns (rows.columns, none)) = chk
    cases chk with
    | panics => simp
    | returns p =>
      obtain ⟨fields2, err⟩ := p
      cases err with
      | some e0 => simp
      | none =>
        simp only
        cases hwr : w.Write with
        | mk e w1 =>
          cases e with
          | some e => simp
          | none =>
            simp only
            have hloop := rows2csvLoop_no_close F rows.columns orderedSeqs fields2
              rows.pending w1 0
            cases hl : rows2csvLoop F rows.columns orderedSeqs fields2 rows.pending w1 0 with
            | mk o rest =>
              obtain ⟨cs, ws⟩ := rest
              rw [hl] at hloop
              cases o with
              | panics => simpa using hloop
              | returns q =>
                obtain ⟨lines, err2⟩ := q
                cases err2 <;> simpa using hloop

theorem closedOnce_append (cs : List Call) (h : Call.Close ∉ cs) :
    closedOnce (cs ++ [Call.Close]) := by
  refine ⟨?_, by simp⟩
  rw [List.count_append, List.count_eq_zero_of_not_mem h]
  simp

/-- C17: each of `QueryString`, `QuerySliceString`, `QueryInterface`, `QueryString2` and
`ExportQueryString` releases its cursor.  When `genQuerySQL` or `queryRows` fails, no
call is made on any cursor; when `queryRows` hands back a cursor, the calls made on it
hold exactly one `Close`, and it is the last call, whatever the assembler did with the
cursor (returned rows, returned an error of any kind, or panicked). -/
theorem cursor_closed_once (F : StdFormat) (C : Collab)
    (queryRows : GoString → Slice Arg → QueryRowsResult) (session : Session) (w : Sink)
    (orderedSeqs : Slice Int) (sqlOrArgs : List Arg) :
    cursorReleased C queryRows session sqlOrArgs
        (QueryString F C queryRows session sqlOrArgs).cursorCalls ∧
      cursorReleased C queryRows session sqlOrArgs
        (QuerySliceString F C queryRows session sqlOrArgs).cursorCalls ∧
      cursorReleased C queryRows session sqlOrArgs
        (QueryInterface C queryRows session sqlOrArgs).cursorCalls ∧
      cursorReleased C queryRows session sqlOrArgs
        (QueryString2 F C queryRows session orderedSeqs sqlOrArgs).cursorCalls ∧
      cursorReleased C queryRows session sqlOrArgs
        (ExportQueryString F C queryRows session w orderedSeqs sqlOrArgs).1.cursorCalls := by
  unfold cursorReleased QueryString QuerySliceString QueryInterface QueryString2
    ExportQueryString
  cases hg : (genQuerySQL C session.statement sqlOrArgs).1 with
  | mk sqlStr rest =>
    obtain ⟨args, err⟩ := rest
    cases err with
    | some e => simp
    | none =>
      simp only
      cases hq : queryRows sqlStr args with
      | failed e => simp
      | cursor rows =>
        simp only
        exact ⟨closedOnce_append _ (rows2Strings_no_close F rows),
          closedOnce_append _ (rows2SliceString_no_close F rows),
          closedOnce_append _ (rows2Interfaces_no_close rows),
          closedOnce_append _ (rows2Strings2_no_close F rows orderedSeqs),
          closedOnce_append _ (rows2csv_no_close F rows w orderedSeqs)⟩

/-! ## The bounds check of `row2mapStr2` -/

theorem value2String_error_kind (F : StdFormat) (v : GoValue) (t : GoString) (e : GoError)
    (h : value2String F v = Outcome.returns (t, some e)) :
    ∃ typeName, e = GoError.unsupportedType typeName := by
  cases v with
  | int k n v => simp [value2String] at h
  | uint k n v => simp [value2String] at h
  | float w n b => simp [value2String] at h
  | string n s => simp [value2String] at h
  | bool n b => simp [value2String] at h
  | complex w n re im => simp [value2String] at h
  | bytes d => simp [value2String] at h
  | seq a n el =>
    by_cases hel : el = Kind.Uint8
    · simp [value2String, hel] at h
    · simp only [value2String, hel, if_false, Outcome.returns.injEq, Prod.mk.injEq,
        Option.some.injEq] at h
      exact ⟨n, h.2.symm⟩
  | struct n tm =>
    cases tm with
    | none =>
      simp only [value2String, Outcome.returns.injEq, Prod.mk.injEq, Option.some.injEq] at h
      exact ⟨n, h.2.symm⟩
    | some tm => simp [value2String] at h
  | other k n =>
    simp only [value2String, Outcome.returns.injEq, Prod.mk.injEq, Option.some.injEq] at h
    exact ⟨n, h.2.symm⟩

theorem storeAll_panics (F : StdFormat) (kcs : List (GoString × Cell)) (m : GoMap GoString)
    (h : storeAll F kcs m = Outcome.panics) :
    ∃ kc ∈ kcs, ∃ v, kc.2 = some v ∧ value2String F v = Outcome.panics := by
  induction kcs generalizing m with
  | nil => simp [storeAll] at h
  | cons kc rest ih =>
    obtain ⟨key, cell⟩ := kc
    simp only [storeAll] at h
    cases hc : cellText F cell with
    | panics =>
      cases cell with
      | none => simp [cellText] at hc
      | some v => exact ⟨(key, some v), List.mem_cons_self _ _, v, rfl, hc⟩
    | returns p =>
      obtain ⟨data, err⟩ := p
      rw [hc] at h
      cases err with
      | none =>
        obtain ⟨kc, hkc, hrest⟩ := ih _ h
        exact ⟨kc, List.mem_cons_of_mem _ hkc, hrest⟩
      | some e2 => simp at h

theorem selectFieldsLoop_returns_valid (fields : List GoString) (seqs : List Int)
    (fields2 : List GoString) (x : Slice GoString)
    (h : selectFieldsLoop fields seqs fields2 = Outcome.returns (x, none)) :
    ∀ s ∈ seqs, 0 ≤ s ∧ s < (fields.length : Int) := by
  by_contra hcon
  push_neg at hcon
  obtain ⟨s, hs, hbad⟩ := hcon
  obtain ⟨s2, _, _, heq⟩ := selectFieldsLoop_invalid fields seqs fields2
    ⟨s, hs, by by_cases h0 : 0 ≤ s
               · exact Or.inr (hbad h0)
               · exact Or.inl (by omega)⟩
  rw [heq] at h
  simp at h

theorem checked_of_next (rows : Rows) (orderedSeqs : Slice Int)
    (chk : Outcome (Slice GoString × Option GoError))
    (hchk : chk = (if orderedSeqs ≠ none ∧ Slice.len orderedSeqs > 0 then
        selectFieldsLoop (Slice.toList rows.columns) (Slice.toList orderedSeqs) []
      else Outcome.returns (rows.columns, none)))
    (x : Slice GoString) (hok : chk = Outcome.returns (x, none)) :
    ∀ s ∈ Slice.toList orderedSeqs, 0 ≤ s ∧ s < (Slice.len rows.columns : Int) := by
  by_cases hsel : orderedSeqs ≠ none ∧ Slice.len orderedSeqs > 0
  · rw [if_pos hsel] at hchk
    rw [hchk] at hok
    exact selectFieldsLoop_returns_valid _ _ _ x hok
  · have hempty : Slice.toList orderedSeqs = [] := by
      cases orderedSeqs with
      | none => rfl
      | some l =>
        cases l with
        | nil => rfl
        | cons a l => simp [Slice.len, Slice.toList] at hsel
    rw [hempty]
    simp

theorem rows2Strings2_next_valid (F : StdFormat) (rows : Rows) (orderedSeqs : Slice Int)
    (h : Call.Next ∈ (rows2Strings2 F rows orderedSeqs).2) :
    ∀ s ∈ Slice.toList orderedSeqs, 0 ≤ s ∧ s < (Slice.len rows.columns : Int) := by
  unfold rows2Strings2 at h
  cases hc : rows.columnsErr with
  | some err => rw [hc] at h; simp at h
  | none =>
    rw [hc] at h
    dsimp only at h
    obtain ⟨chk, hchk⟩ : ∃ chk, chk = (if orderedSeqs ≠ none ∧ Slice.len orderedSeqs > 0 then
        selectFieldsLoop (Slice.toList rows.columns) (Slice.toList orderedSeqs) []
      else Outcome.returns (rows.columns, none)) := ⟨_, rfl⟩
    rw [← hchk] at h
    cases hk : chk with
    | panics => rw [hk] at h; simp at h
    | returns p =>
      obtain ⟨fields2, err⟩ := p
      cases err with
      | some e0 => rw [hk] at h; simp at h
      | none => exact checked_of_next rows orderedSeqs chk hchk fields2 hk

theorem rows2csv_next_valid (F : StdFormat) (rows : Rows) (w : Sink) (orderedSeqs : Slice Int)
    (h : Call.Next ∈ (rows2csv F rows w orderedSeqs).2.1) :
    ∀ s ∈ Slice.toList orderedSeqs, 0 ≤ s ∧ s < (Slice.len rows.columns : Int) := by
  unfold rows2csv at h
  cases hc : rows.columnsErr with
  | some err => rw [hc] at h; simp at h
  | none =>
    rw [hc] at h
    dsimp only at h
    obtain ⟨chk, hchk⟩ : ∃ chk, chk = (if orderedSeqs ≠ none ∧ Slice.len orderedSeqs > 0 then
        selectFieldsLoop (Slice.toList rows.columns) (Slice.toList orderedSeqs) []
      else Outcome.returns (rows.columns, none)) := ⟨_, rfl⟩
    rw [← hchk] at h
    cases hk : chk with
    | panics => rw [hk] at h; simp at h
    | returns p =>
      obtain ⟨fields2, err⟩ := p
      cases err with
      | some e0 => rw [hk] at h; simp at h
      | none => exact checked_of_next rows orderedSeqs chk hchk fields2 hk

theorem row2mapStr2_valid_error (F : StdFormat) (cur : RowData) (fields : Slice GoString)
    (orderedSeqs : Slice Int)
    (hvalid : ∀ s ∈ Slice.toList orderedSeqs, 0 ≤ s ∧ s < (Slice.len fields : Int))
    (x : MapStr) (e : GoError)
    (h : (row2mapStr2 F cur fields orderedSeqs).1 = Outcome.returns (x, some e)) :
    cur.scanErr = some e ∨ ∃ typeName, e = GoError.unsupportedType typeName := by
  cases hs : cur.scanErr with
  | some e2 =>
    rw [row2mapStr2_scanErr F cur fields orderedSeqs e2 hs] at h
    simp only [Outcome.returns.injEq, Prod.mk.injEq, Option.some.injEq] at h
    exact Or.inl (by rw [h.2])
  | none =>
    right
    obtain ⟨_, hsrc⟩ := row2mapStr2_error_source F cur fields orderedSeqs hs x e h
    rcases hsrc with ⟨s, hsm, hbad, _⟩ | ⟨j, v, t, _, hval⟩
    · have := hvalid s hsm
      omega
    · exact value2String_error_kind F v t e hval

theorem row2mapStr2_valid_panics (F : StdFormat) (cur : RowData) (fields : Slice GoString)
    (orderedSeqs : Slice Int)
    (hvalid : ∀ s ∈ Slice.toList orderedSeqs, 0 ≤ s ∧ s < (Slice.len fields : Int))
    (h : (row2mapStr2 F cur fields orderedSeqs).1 = Outcome.panics) :
    ∃ j v, cur.cells.getD j none = some v ∧ value2String F v = Outcome.panics := by
  cases hs : cur.scanErr with
  | some e2 =>
    rw [row2mapStr2_scanErr F cur fields orderedSeqs e2 hs] at h
    simp at h
  | none =>
    by_cases hempty : orderedSeqs = none ∨ orderedSeqs = some []
    · rw [row2mapStr2_empty F cur fields orderedSeqs hempty, row2mapStr_eq F cur fields hs] at h
      obtain ⟨kc, hkc, v, hv, hval⟩ := storeAll_panics F _ [] h
      obtain ⟨j, _, hj⟩ := mem_scanned cur _ kc.2 (List.of_mem_zip hkc).2
      exact ⟨j, v, by rw [← hj, hv], hval⟩
    · cases orderedSeqs with
      | none => exact absurd (Or.inl rfl) hempty
      | some seqs =>
        have hne : seqs ≠ [] := by
          intro h0
          subst h0
          exact hempty (Or.inr rfl)
        rw [row2mapStr2_eq F cur fields seqs hs hne (by simpa [Slice.toList] using hvalid)] at h
        obtain ⟨kc, hkc, v, hv, hval⟩ := storeAll_panics F _ [] h
        obtain ⟨s, _, rfl⟩ := List.mem_map.mp hkc
        exact ⟨s.toNat, v, hv, hval⟩

/-- C19: the bounds check inside `row2mapStr2` cannot fire under its callers.  When
`rows2Strings2` or `rows2csv` reaches its row loop (it calls `Next`), every index of the
selection lies in `[0, len(fields))` for the `fields` it passes on; and for such a
selection `row2mapStr2` on any row returns no index error (an error it returns is the
error of `Scan` or the unsupported-type error of a cell) and never indexes `fields` or
the scan destinations out of bounds (when it panics, it is `value2String` on a cell
that panics). -/
theorem selection_check_unreachable (F : StdFormat) (rows : Rows) (w : Sink)
    (orderedSeqs : Slice Int) :
    ((Call.Next ∈ (rows2Strings2 F rows orderedSeqs).2 ∨
        Call.Next ∈ (rows2csv F rows w orderedSeqs).2.1) →
      ∀ s ∈ Slice.toList orderedSeqs, 0 ≤ s ∧ s < (Slice.len rows.columns : Int)) ∧
    ((∀ s ∈ Slice.toList orderedSeqs, 0 ≤ s ∧ s < (Slice.len rows.columns : Int)) →
      ∀ cur : RowData,
        (∀ x e, (row2mapStr2 F cur rows.columns orderedSeqs).1 = Outcome.returns (x, some e) →
          cur.scanErr = some e ∨ ∃ typeName, e = GoError.unsupportedType typeName) ∧
        ((row2mapStr2 F cur rows.columns orderedSeqs).1 = Outcome.panics →
          ∃ j v, cur.cells.getD j none = some v ∧ value2String F v = Outcome.panics)) := by
  refine ⟨?_, ?_⟩
  · intro h
    rcases h with h | h
    · exact rows2Strings2_next_valid F rows orderedSeqs h
    · exact rows2csv_next_valid F rows w orderedSeqs h
  · intro hvalid cur
    exact ⟨fun x e h => row2mapStr2_valid_error F cur rows.columns orderedSeqs hvalid x e h,
      fun h => row2mapStr2_valid_panics F cur rows.columns orderedSeqs hvalid h⟩

/-- Witness of C19: the two-row result set with the selection `[2, 0]`, whose row loop
is reached. -/
theorem selection_check_unreachable_witness :
    (∀ s ∈ Slice.toList (some [2, 0] : Slice Int),
        0 ≤ s ∧ s < (Slice.len exampleRows.columns : Int)) ∧
      ∀ cur : RowData,
        (∀ x e, (row2mapStr2 exampleFormat cur exampleRows.columns (some [2, 0])).1 =
            Outcome.returns (x, some e) →
          cur.scanErr = some e ∨ ∃ typeName, e = GoError.unsupportedType typeName) ∧
        ((row2mapStr2 exampleFormat cur exampleRows.columns (some [2, 0])).1 =
            Outcome.panics →
          ∃ j v, cur.cells.getD j none = some v ∧
            value2String exampleFormat v = Outcome.panics) :=
  ⟨(selection_check_unreachable exampleFormat exampleRows goodSink (some [2, 0])).1
      (Or.inl (by
        rw [show (rows2Strings2 exampleFormat exampleRows (some [2, 0])).2 =
          [Call.Columns, Call.Next, Call.Scan 3, Call.Next, Call.Scan 3, Call.Next] from rfl]
        simp)),
    (selection_check_unreachable exampleFormat exampleRows goodSink (some [2, 0])).2
      ((selection_check_unreachable exampleFormat exampleRows goodSink (some [2, 0])).1
        (Or.inr (by
          rw [show (rows2csv exampleFormat exampleRows goodSink (some [2, 0])).2.1 =
            [Call.Columns, Call.Next, Call.Scan 3, Call.Next, Call.Scan 3, Call.Next]
            from rfl]
          simp)))⟩

/-! ## Mapping mode and slice mode -/

theorem storeAll_appendAll (F : StdFormat) (keys : List GoString) (cells : List Cell)
    (m : GoMap GoString) (acc : List GoString) (hlen : keys.length = cells.length) :
    match storeAll F (keys.zip cells) m, appendAll F cells acc with
    | Outcome.panics, Outcome.panics => True
    | Outcome.returns (_, some e1), Outcome.returns (_, some e2) => e1 = e2
    | Outcome.returns (_, none), Outcome.returns (_, none) => True
    | _, _ => False := by
  induction keys generalizing cells m acc with
  | nil =>
    cases cells with
    | nil => simp [storeAll, appendAll]
    | cons c cs => simp at hlen
  | cons key rest ih =>
    cases cells with
    | nil => simp at hlen
    | cons c cs =>
      simp only [List.length_cons, Nat.add_right_cancel_iff] at hlen
      simp only [List.zip_cons_cons, storeAll, appendAll]
      cases hc : cellText F c with
      | panics => simp
      | returns p =>
        obtain ⟨data, err⟩ := p
        cases err with
        | none => exact ih cs _ _ hlen
        | some e => simp

/-- Apart from the panic of `value2String`, mapping mode and slice mode agree on every
row that scans: `row2mapStr` and `row2sliceStr` both panic, or both return the same
conversion error with a nil row, or both return a row; in the last case, under
pairwise distinct column names, the slice has one text per column, the keys of the map
are the column names and the map holds under the name of column `i` the `i`-th text of
the slice. -/
theorem row2mapStr_row2sliceStr_agree (F : StdFormat) (cur : RowData)
    (fields : Slice GoString) (hscan : cur.scanErr = none)
    (hnodup : (Slice.toList fields).Nodup) :
    match (row2mapStr F cur fields).1, (row2sliceStr F cur fields).1 with
    | Outcome.panics, Outcome.panics => True
    | Outcome.returns (m, some e1), Outcome.returns (sl, some e2) =>
      e1 = e2 ∧ m = none ∧ sl = none
    | Outcome.returns (m, none), Outcome.returns (sl, none) =>
      ∃ gm l, m = some gm ∧ sl = some l ∧ l.length = Slice.len fields ∧
        (∀ k, k ∈ GoMap.keys gm ↔ k ∈ Slice.toList fields) ∧
        ∀ i, i < Slice.len fields →
          GoMap.get? gm ((Slice.toList fields).getD i []) = l[i]?
    | _, _ => False := by
  have hagree := storeAll_appendAll F (Slice.toList fields) (scanned cur (Slice.len fields))
    [] [] (by rw [scanned_length]; rfl)
  have hm := row2mapStr_eq F cur fields hscan
  have hs := row2sliceStr_eq F cur fields hscan
  cases hm1 : (row2mapStr F cur fields).1 with
  | panics =>
    cases hs1 : (row2sliceStr F cur fields).1 with
    | panics => trivial
    | returns q =>
      rw [hm] at hm1
      rw [hs] at hs1
      simp only at hm1 hs1
      rw [hm1, hs1] at hagree
      exact hagree
  | returns p =>
    obtain ⟨m, e1⟩ := p
    cases hs1 : (row2sliceStr F cur fields).1 with
    | panics =>
      rw [hm] at hm1
      rw [hs] at hs1
      simp only at hm1 hs1
      rw [hm1, hs1] at hagree
      cases e1 <;> exact hagree
    | returns q =>
      obtain ⟨sl, e2⟩ := q
      have hm2 := hm1
      have hs2 := hs1
      rw [hm] at hm2
      rw [hs] at hs2
      simp only at hm2 hs2
      rw [hm2, hs2] at hagree
      cases e1 with
      | some e1 =>
        cases e2 with
        | some e2 =>
          exact ⟨hagree, row2mapStr_error_nil F cur fields m e1 hm1,
            row2sliceStr_error_nil F cur fields sl e2 hs1⟩
        | none => exact hagree
      | none =>
        cases e2 with
        | some e2 => exact hagree
        | none =>
          obtain ⟨gm, hgm, hkeys, hget⟩ := row2mapStr_get F cur fields hscan hnodup m hm1
          obtain ⟨texts, ht1, ht2⟩ := appendAll_returns F _ [] sl hs2
          obtain ⟨hlen, hcell⟩ := List.forall₂_iff_get.mp ht2
          rw [scanned_length] at hlen
          refine ⟨gm, texts, hgm, by simpa using ht1, hlen.symm, hkeys, ?_⟩
          intro i hi
          obtain ⟨t, hct, hgt⟩ := hget i hi
          have hjs : i < (scanned cur (Slice.len fields)).length := by
            rw [scanned_length]; exact hi
          have hti : i < texts.length := by omega
          have := hcell i hjs hti
          simp only [List.get_eq_getElem, scanned_getElem] at this
          rw [hct] at this
          simp only [Outcome.returns.injEq, Prod.mk.injEq, and_true] at this
          rw [hgt, List.getElem?_eq_getElem hti, this]

/-- C20, at the failing input: on a row that scans as a single `[4]byte` value under
the column `a`, `row2mapStr` and `row2sliceStr` neither both fail with a conversion
error nor both succeed: both panic, in `value2String`. -/
theorem row2mapStr_row2sliceStr_byteArray :
    (Slice.toList (some [[97]] : Slice GoString)).Nodup ∧
      byteArrayRow.scanErr = none ∧
      (row2mapStr exampleFormat byteArrayRow (some [[97]])).1 = Outcome.panics ∧
      (row2sliceStr exampleFormat byteArrayRow (some [[97]])).1 = Outcome.panics :=
  ⟨by simp [Slice.toList], rfl, rfl, rfl⟩

end Xorm
